import Mathlib

/-!
# Verification of `src/data-structures/red-black-tree/RedBlackTree.ts`

The TypeScript class mutates a pointer structure (nodes with `key`,
`color`, `left`, `right`, `parent` fields, a shared `NIL` sentinel
object and a `root` field).  We embed it shallowly:

* the object heap is a list of node records (`RedBlackTree.nodes`);
* an object reference is an `Option Nat` — `none` models the JS value
  `null`, `some i` models a reference to the object stored at index `i`;
  index `0` is the `NIL` sentinel allocated by the constructor;
* reference identity (`===`) is index equality; `x !== this.NIL`
  becomes `x ≠ some 0`;
* reading a field of `null` raises a JS `TypeError`; this is modelled
  by `Err.nullDeref`;
* `while` loops and recursions of the source get an explicit fuel
  argument; running out of fuel (`Err.fuelExhausted`) models
  divergence, and the public wrappers pass `maxFuel` (one more than the
  heap size), which the theorems show is never exhausted on states
  reachable from a fresh tree.

The keys of the source are a generic type `T` with a total order; we
instantiate them with `Int`.  The sentinel's key (`null as unknown as
T` in the source) is modelled by `0`; no operation ever reads it.
-/

namespace RBTree

/-- `enum Color { RED, BLACK }` from the source. -/
inductive Color where
  | RED
  | BLACK
deriving DecidableEq

/-- The `RBNode<T>` record: `key`, `color` and the three object
references `left`, `right`, `parent` (each a node or `null`). -/
structure RBNode where
  key : Int
  color : Color
  left : Option Nat
  right : Option Nat
  parent : Option Nat
deriving DecidableEq

/-- Errors of the embedding: `nullDeref` models a JS `TypeError` on a
field access of `null`; `fuelExhausted` models a diverging loop;
`corrupt` models an impossible dangling index (the heap only ever
stores valid indices). -/
inductive Err where
  | nullDeref
  | fuelExhausted
  | corrupt
deriving DecidableEq

/-- The `RedBlackTree<T>` object: the heap of allocated nodes plus the
`root` reference (the source's `root` field is never `null`, so it is a
bare index).  The `NIL` field of the source is always the object at
index `0`. -/
structure RedBlackTree where
  nodes : List RBNode
  root : Nat
deriving DecidableEq

/-- `createNilNode()`: `{ key: null, color: BLACK, left: null, right:
null, parent: null }`.  The `null` key is modelled by `0`; it is never
read. -/
def nilNode : RBNode := ⟨0, Color.BLACK, none, none, none⟩

/-- The constructor: allocate `NIL` (at index `0`) and set `root = NIL`. -/
def mkTree : RedBlackTree := ⟨[nilNode], 0⟩

/-- Read the object at index `i` (always succeeds on indices the code
ever stores). -/
def getN (s : RedBlackTree) (i : Nat) : Except Err RBNode :=
  match s.nodes[i]? with
  | some n => .ok n
  | none => .error .corrupt

/-- Dereference an object reference: reading a field of `null` is a
`TypeError`. -/
def deref (s : RedBlackTree) (r : Option Nat) : Except Err RBNode :=
  match r with
  | none => .error .nullDeref
  | some i => getN s i

/-- Extract the index from a reference, `TypeError` on `null`. -/
def derefIdx (r : Option Nat) : Except Err Nat :=
  match r with
  | none => .error .nullDeref
  | some i => .ok i

/-- In-place update of the object at index `i` (the source mutates a
field of an existing object; the index is always valid there). -/
def updN (s : RedBlackTree) (i : Nat) (f : RBNode → RBNode) : RedBlackTree :=
  { s with nodes :=
      match s.nodes[i]? with
      | some n => s.nodes.set i (f n)
      | none => s.nodes }

/-- Fuel passed by the public wrappers: strictly more than the number
of allocated objects, hence more than any path length in the tree. -/
def maxFuel (s : RedBlackTree) : Nat := s.nodes.length + 1

/-!  ## `leftRotate` / `rightRotate`

Line-by-line translation; every field read/write happens on the state
current at that program point, in source order. -/

/-- `leftRotate(x)` (source lines 188–208). -/
def leftRotate (s : RedBlackTree) (x : Nat) : Except Err RedBlackTree := do
  let xn ← getN s x
  let y ← derefIdx xn.right          -- const y = x.right!
  let yn ← getN s y
  let s1 := updN s x (fun n => { n with right := yn.left })   -- x.right = y.left
  -- if (y.left !== this.NIL) { y.left.parent = x; }
  let yn1 ← getN s1 y
  let s2 ←
    if yn1.left ≠ some 0 then do
      let l ← derefIdx yn1.left
      pure (updN s1 l (fun n => { n with parent := some x }))
    else
      pure s1
  -- y.parent = x.parent
  let xn2 ← getN s2 x
  let s3 := updN s2 y (fun n => { n with parent := xn2.parent })
  -- if (x.parent === null) root = y else if (x === x.parent.left) ... else ...
  let xn3 ← getN s3 x
  let s4 ←
    match xn3.parent with
    | none => pure { s3 with root := y }
    | some p => do
        let pn ← getN s3 p
        if some x = pn.left then
          pure (updN s3 p (fun n => { n with left := some y }))
        else
          pure (updN s3 p (fun n => { n with right := some y }))
  -- y.left = x
  let s5 := updN s4 y (fun n => { n with left := some x })
  -- x.parent = y
  pure (updN s5 x (fun n => { n with parent := some y }))

/-- `rightRotate(x)` (source lines 214–234), the mirror image. -/
def rightRotate (s : RedBlackTree) (x : Nat) : Except Err RedBlackTree := do
  let xn ← getN s x
  let y ← derefIdx xn.left           -- const y = x.left!
  let yn ← getN s y
  let s1 := updN s x (fun n => { n with left := yn.right })   -- x.left = y.right
  -- if (y.right !== this.NIL) { y.right.parent = x; }
  let yn1 ← getN s1 y
  let s2 ←
    if yn1.right ≠ some 0 then do
      let r ← derefIdx yn1.right
      pure (updN s1 r (fun n => { n with parent := some x }))
    else
      pure s1
  -- y.parent = x.parent
  let xn2 ← getN s2 x
  let s3 := updN s2 y (fun n => { n with parent := xn2.parent })
  -- if (x.parent === null) root = y else if (x === x.parent.right) ... else ...
  let xn3 ← getN s3 x
  let s4 ←
    match xn3.parent with
    | none => pure { s3 with root := y }
    | some p => do
        let pn ← getN s3 p
        if some x = pn.right then
          pure (updN s3 p (fun n => { n with right := some y }))
        else
          pure (updN s3 p (fun n => { n with left := some y }))
  -- y.right = x
  let s5 := updN s4 y (fun n => { n with right := some x })
  -- x.parent = y
  pure (updN s5 x (fun n => { n with parent := some y }))

/-!  ## `fixInsert` -/

/-- One mirrored half of the `fixInsert` loop body is long; the whole
`while` loop (source lines 122–178) is this fuelled recursion.  `k` is
the index of the current node.  The loop guard, the two mirrored
branches with their Case 1 / Case 2 / Case 3 sub-blocks, and the final
`if (k === this.root) break` are translated in source order, re-reading
every pointer chain from the state current at that point exactly as the
source expressions do. -/
def fixLoop (s : RedBlackTree) (fuel : Nat) (k : Nat) : Except Err RedBlackTree :=
  match fuel with
  | 0 => .error .fuelExhausted
  | fuel + 1 => do
    let kn ← getN s k
    match kn.parent with
    | none => pure s                    -- k.parent !== null fails: loop exits
    | some p => do
      let pn ← getN s p
      if pn.color = Color.RED then do
        -- gp dereference: k.parent.parent!.right  (TypeError if gp is null)
        let gpn ← deref s pn.parent
        let sk ←
          if some p = gpn.right then do
            -- parent is the grandparent's RIGHT child
            let u := gpn.left           -- uncle
            let case23 : Except Err (RedBlackTree × Nat) := do
              -- if (k === k.parent.left) { k = k.parent; rightRotate(k); }
              let kn1 ← getN s k
              let pA ← derefIdx kn1.parent
              let pnA ← getN s pA
              let (s1, k1) ←
                if some k = pnA.left then do
                  let s' ← rightRotate s pA
                  pure (s', pA)
                else
                  pure (s, k)
              -- Case 3: if (k.parent !== null) { k.parent.color = BLACK;
              --           if (k.parent.parent !== null) { k.parent.parent.color = RED;
              --             leftRotate(k.parent.parent); } }
              let kn2 ← getN s1 k1
              match kn2.parent with
              | none => pure (s1, k1)
              | some pB => do
                let s2 := updN s1 pB (fun n => { n with color := Color.BLACK })
                let kn3 ← getN s2 k1
                let pC ← derefIdx kn3.parent
                let pnC ← getN s2 pC
                match pnC.parent with
                | none => pure (s2, k1)
                | some gC => do
                  let s3 := updN s2 gC (fun n => { n with color := Color.RED })
                  let kn4 ← getN s3 k1
                  let pD ← derefIdx kn4.parent
                  let pnD ← getN s3 pD
                  let gD ← derefIdx pnD.parent
                  let s4 ← leftRotate s3 gD
                  pure (s4, k1)
            match u with
            | some ui => do
                let un ← getN s ui
                if un.color = Color.RED then do
                  -- Case 1: u.color = BLACK; k.parent.color = BLACK;
                  --         k.parent.parent!.color = RED; k = k.parent.parent!
                  let s1 := updN s ui (fun n => { n with color := Color.BLACK })
                  let kn1 ← getN s1 k
                  let p1 ← derefIdx kn1.parent
                  let s2 := updN s1 p1 (fun n => { n with color := Color.BLACK })
                  let kn2 ← getN s2 k
                  let p2 ← derefIdx kn2.parent
                  let pn2 ← getN s2 p2
                  let g2 ← derefIdx pn2.parent
                  let s3 := updN s2 g2 (fun n => { n with color := Color.RED })
                  let kn3 ← getN s3 k
                  let p3 ← derefIdx kn3.parent
                  let pn3 ← getN s3 p3
                  let g3 ← derefIdx pn3.parent
                  pure (s3, g3)
                else case23
            | none => case23
          else do
            -- parent is the grandparent's LEFT child (mirror branch)
            let u := gpn.right          -- uncle
            let case23 : Except Err (RedBlackTree × Nat) := do
              -- if (k === k.parent.right) { k = k.parent; leftRotate(k); }
              let kn1 ← getN s k
              let pA ← derefIdx kn1.parent
              let pnA ← getN s pA
              let (s1, k1) ←
                if some k = pnA.right then do
                  let s' ← leftRotate s pA
                  pure (s', pA)
                else
                  pure (s, k)
              -- Case 3: if (k.parent !== null) { k.parent.color = BLACK;
              --           if (k.parent.parent !== null) { k.parent.parent.color = RED;
              --             rightRotate(k.parent.parent); } }
              let kn2 ← getN s1 k1
              match kn2.parent with
              | none => pure (s1, k1)
              | some pB => do
                let s2 := updN s1 pB (fun n => { n with color := Color.BLACK })
                let kn3 ← getN s2 k1
                let pC ← derefIdx kn3.parent
                let pnC ← getN s2 pC
                match pnC.parent with
                | none => pure (s2, k1)
                | some gC => do
                  let s3 := updN s2 gC (fun n => { n with color := Color.RED })
                  let kn4 ← getN s3 k1
                  let pD ← derefIdx kn4.parent
                  let pnD ← getN s3 pD
                  let gD ← derefIdx pnD.parent
                  let s4 ← rightRotate s3 gD
                  pure (s4, k1)
            match u with
            | some ui => do
                let un ← getN s ui
                if un.color = Color.RED then do
                  let s1 := updN s ui (fun n => { n with color := Color.BLACK })
                  let kn1 ← getN s1 k
                  let p1 ← derefIdx kn1.parent
                  let s2 := updN s1 p1 (fun n => { n with color := Color.BLACK })
                  let kn2 ← getN s2 k
                  let p2 ← derefIdx kn2.parent
                  let pn2 ← getN s2 p2
                  let g2 ← derefIdx pn2.parent
                  let s3 := updN s2 g2 (fun n => { n with color := Color.RED })
                  let kn3 ← getN s3 k
                  let p3 ← derefIdx kn3.parent
                  let pn3 ← getN s3 p3
                  let g3 ← derefIdx pn3.parent
                  pure (s3, g3)
                else case23
            | none => case23
        -- if (k === this.root) break;
        if sk.2 = sk.1.root then pure sk.1 else fixLoop sk.1 fuel sk.2
      else pure s                       -- k.parent.color === RED fails: loop exits

/-- NOT from the source: the fix-up loop as the spec words Case 2 —
"right-rotate when `k.parent` is the grandparent's left child and `k`
is `k.parent`'s right child, mirrored for the other side" — i.e.
`fixLoop` with the two Case-2 rotation directions swapped.  Compared
against `fixLoop` (the code) to settle the rotation-direction claim. -/
def fixLoopSpecC2 (s : RedBlackTree) (fuel : Nat) (k : Nat) : Except Err RedBlackTree :=
  match fuel with
  | 0 => .error .fuelExhausted
  | fuel + 1 => do
    let kn ← getN s k
    match kn.parent with
    | none => pure s                    -- k.parent !== null fails: loop exits
    | some p => do
      let pn ← getN s p
      if pn.color = Color.RED then do
        -- gp dereference: k.parent.parent!.right  (TypeError if gp is null)
        let gpn ← deref s pn.parent
        let sk ←
          if some p = gpn.right then do
            -- parent is the grandparent's RIGHT child
            let u := gpn.left           -- uncle
            let case23 : Except Err (RedBlackTree × Nat) := do
              -- spec reading: left-rotate here (the code right-rotates)
              let kn1 ← getN s k
              let pA ← derefIdx kn1.parent
              let pnA ← getN s pA
              let (s1, k1) ←
                if some k = pnA.left then do
                  let s' ← leftRotate s pA
                  pure (s', pA)
                else
                  pure (s, k)
              -- Case 3: if (k.parent !== null) { k.parent.color = BLACK;
              --           if (k.parent.parent !== null) { k.parent.parent.color = RED;
              --             leftRotate(k.parent.parent); } }
              let kn2 ← getN s1 k1
              match kn2.parent with
              | none => pure (s1, k1)
              | some pB => do
                let s2 := updN s1 pB (fun n => { n with color := Color.BLACK })
                let kn3 ← getN s2 k1
                let pC ← derefIdx kn3.parent
                let pnC ← getN s2 pC
                match pnC.parent with
                | none => pure (s2, k1)
                | some gC => do
                  let s3 := updN s2 gC (fun n => { n with color := Color.RED })
                  let kn4 ← getN s3 k1
                  let pD ← derefIdx kn4.parent
                  let pnD ← getN s3 pD
                  let gD ← derefIdx pnD.parent
                  let s4 ← leftRotate s3 gD
                  pure (s4, k1)
            match u with
            | some ui => do
                let un ← getN s ui
                if un.color = Color.RED then do
                  -- Case 1: u.color = BLACK; k.parent.color = BLACK;
                  --         k.parent.parent!.color = RED; k = k.parent.parent!
                  let s1 := updN s ui (fun n => { n with color := Color.BLACK })
                  let kn1 ← getN s1 k
                  let p1 ← derefIdx kn1.parent
                  let s2 := updN s1 p1 (fun n => { n with color := Color.BLACK })
                  let kn2 ← getN s2 k
                  let p2 ← derefIdx kn2.parent
                  let pn2 ← getN s2 p2
                  let g2 ← derefIdx pn2.parent
                  let s3 := updN s2 g2 (fun n => { n with color := Color.RED })
                  let kn3 ← getN s3 k
                  let p3 ← derefIdx kn3.parent
                  let pn3 ← getN s3 p3
                  let g3 ← derefIdx pn3.parent
                  pure (s3, g3)
                else case23
            | none => case23
          else do
            -- parent is the grandparent's LEFT child (mirror branch)
            let u := gpn.right          -- uncle
            let case23 : Except Err (RedBlackTree × Nat) := do
              -- spec reading: right-rotate here (the code left-rotates)
              let kn1 ← getN s k
              let pA ← derefIdx kn1.parent
              let pnA ← getN s pA
              let (s1, k1) ←
                if some k = pnA.right then do
                  let s' ← rightRotate s pA
                  pure (s', pA)
                else
                  pure (s, k)
              -- Case 3: if (k.parent !== null) { k.parent.color = BLACK;
              --           if (k.parent.parent !== null) { k.parent.parent.color = RED;
              --             rightRotate(k.parent.parent); } }
              let kn2 ← getN s1 k1
              match kn2.parent with
              | none => pure (s1, k1)
              | some pB => do
                let s2 := updN s1 pB (fun n => { n with color := Color.BLACK })
                let kn3 ← getN s2 k1
                let pC ← derefIdx kn3.parent
                let pnC ← getN s2 pC
                match pnC.parent with
                | none => pure (s2, k1)
                | some gC => do
                  let s3 := updN s2 gC (fun n => { n with color := Color.RED })
                  let kn4 ← getN s3 k1
                  let pD ← derefIdx kn4.parent
                  let pnD ← getN s3 pD
                  let gD ← derefIdx pnD.parent
                  let s4 ← rightRotate s3 gD
                  pure (s4, k1)
            match u with
            | some ui => do
                let un ← getN s ui
                if un.color = Color.RED then do
                  let s1 := updN s ui (fun n => { n with color := Color.BLACK })
                  let kn1 ← getN s1 k
                  let p1 ← derefIdx kn1.parent
                  let s2 := updN s1 p1 (fun n => { n with color := Color.BLACK })
                  let kn2 ← getN s2 k
                  let p2 ← derefIdx kn2.parent
                  let pn2 ← getN s2 p2
                  let g2 ← derefIdx pn2.parent
                  let s3 := updN s2 g2 (fun n => { n with color := Color.RED })
                  let kn3 ← getN s3 k
                  let p3 ← derefIdx kn3.parent
                  let pn3 ← getN s3 p3
                  let g3 ← derefIdx pn3.parent
                  pure (s3, g3)
                else case23
            | none => case23
        -- if (k === this.root) break;
        if sk.2 = sk.1.root then pure sk.1 else fixLoopSpecC2 sk.1 fuel sk.2
      else pure s                       -- k.parent.color === RED fails: loop exits

/-- The heap reached by `insert 3; insert 1; insert 2` on a fresh tree,
at the moment `fixInsert` is about to run on the node holding `2`
(index 3): parent (index 2, key 1, RED) is the grandparent's left
child, `k` is the parent's right child, and the uncle is the BLACK
sentinel — the Case-2 shape the rotation-direction claim is about. -/
def s312 : RedBlackTree :=
  ⟨[nilNode,
    ⟨3, Color.BLACK, some 2, some 0, none⟩,
    ⟨1, Color.RED, some 0, some 3, some 1⟩,
    ⟨2, Color.RED, some 0, some 0, some 2⟩], 1⟩


/-- `fixInsert(k)` (source lines 118–182): run the loop, then
`this.root.color = BLACK`. -/
def fixInsert (s : RedBlackTree) (k : Nat) : Except Err RedBlackTree := do
  let s' ← fixLoop s (maxFuel s) k
  pure (updN s' s'.root (fun n => { n with color := Color.BLACK }))

/-!  ## `insert` -/

/-- The descent loop of `insert` (source lines 79–86):
`while (x !== this.NIL) { y = x; if (newNode.key < x.key) x = x.left!
else x = x.right!; }` — returns the final `y`. -/
def insertDescend (s : RedBlackTree) (fuel : Nat) (key : Int)
    (y x : Option Nat) : Except Err (Option Nat) :=
  match fuel with
  | 0 => .error .fuelExhausted
  | fuel + 1 =>
    if x ≠ some 0 then do
      let xn ← deref s x
      if key < xn.key then insertDescend s fuel key x xn.left
      else insertDescend s fuel key x xn.right
    else
      pure y

/-- `insert(key)` (source lines 72–112). -/
def insert (s : RedBlackTree) (key : Int) : Except Err RedBlackTree := do
  -- const newNode = this.createNode(key)  (fresh object, RED, NIL children)
  let n := s.nodes.length
  let s0 : RedBlackTree :=
    { s with nodes := s.nodes ++ [⟨key, Color.RED, some 0, some 0, none⟩] }
  -- descent: let y = null; let x = this.root; while ...
  let y ← insertDescend s0 (maxFuel s0) key none (some s0.root)
  -- newNode.parent = y
  let s1 := updN s0 n (fun nd => { nd with parent := y })
  -- if (y === null) root = newNode else if (newNode.key < y.key) y.left = ... else y.right = ...
  let s2 ←
    match y with
    | none => pure { s1 with root := n }
    | some yi => do
        let nn ← getN s1 n
        let yn ← getN s1 yi
        if nn.key < yn.key then
          pure (updN s1 yi (fun nd => { nd with left := some n }))
        else
          pure (updN s1 yi (fun nd => { nd with right := some n }))
  -- if (newNode.parent === null) { newNode.color = BLACK; return; }
  let nn2 ← getN s2 n
  match nn2.parent with
  | none => pure (updN s2 n (fun nd => { nd with color := Color.BLACK }))
  | some p => do
      -- if (newNode.parent.parent === null) return;
      let pn ← getN s2 p
      match pn.parent with
      | none => pure s2
      | some _ => fixInsert s2 n

/-!  ## Traversals -/

/-- `preorderTraversalHelper` (source lines 251–257); the `result`
array passed by reference becomes an accumulator. -/
def preorderTraversalHelper (s : RedBlackTree) (fuel : Nat)
    (r : Option Nat) (acc : List Int) : Except Err (List Int) :=
  match fuel with
  | 0 => .error .fuelExhausted
  | fuel + 1 =>
    if r ≠ some 0 then do
      let n ← deref s r
      let acc1 := acc ++ [n.key]
      let acc2 ← preorderTraversalHelper s fuel n.left acc1
      preorderTraversalHelper s fuel n.right acc2
    else
      pure acc

/-- `preorderTraversal()` (source lines 240–244). -/
def preorderTraversal (s : RedBlackTree) : Except Err (List Int) :=
  preorderTraversalHelper s (maxFuel s) (some s.root) []

/-- `inorderTraversalHelper` (source lines 274–280). -/
def inorderTraversalHelper (s : RedBlackTree) (fuel : Nat)
    (r : Option Nat) (acc : List Int) : Except Err (List Int) :=
  match fuel with
  | 0 => .error .fuelExhausted
  | fuel + 1 =>
    if r ≠ some 0 then do
      let n ← deref s r
      let acc1 ← inorderTraversalHelper s fuel n.left acc
      let acc2 := acc1 ++ [n.key]
      inorderTraversalHelper s fuel n.right acc2
    else
      pure acc

/-- `inorderTraversal()` (source lines 263–267). -/
def inorderTraversal (s : RedBlackTree) : Except Err (List Int) :=
  inorderTraversalHelper s (maxFuel s) (some s.root) []

/-- `postorderTraversalHelper` (source lines 297–303). -/
def postorderTraversalHelper (s : RedBlackTree) (fuel : Nat)
    (r : Option Nat) (acc : List Int) : Except Err (List Int) :=
  match fuel with
  | 0 => .error .fuelExhausted
  | fuel + 1 =>
    if r ≠ some 0 then do
      let n ← deref s r
      let acc1 ← postorderTraversalHelper s fuel n.left acc
      let acc2 ← postorderTraversalHelper s fuel n.right acc1
      pure (acc2 ++ [n.key])
    else
      pure acc

/-- `postorderTraversal()` (source lines 286–290). -/
def postorderTraversal (s : RedBlackTree) : Except Err (List Int) :=
  postorderTraversalHelper s (maxFuel s) (some s.root) []

/-- The `while (queue.length > 0)` loop of `levelOrderTraversal`
(source lines 317–328): dequeue, visit, enqueue non-NIL children. -/
def levelOrderLoop (s : RedBlackTree) (fuel : Nat)
    (queue : List Nat) (acc : List Int) : Except Err (List Int) :=
  match fuel with
  | 0 => .error .fuelExhausted
  | fuel + 1 =>
    match queue with
    | [] => pure acc
    | i :: rest => do
      let n ← getN s i
      let acc1 := acc ++ [n.key]
      let q1 ←
        if n.left ≠ some 0 then do
          let l ← derefIdx n.left
          pure (rest ++ [l])
        else pure rest
      let q2 ←
        if n.right ≠ some 0 then do
          let r ← derefIdx n.right
          pure (q1 ++ [r])
        else pure q1
      levelOrderLoop s fuel q2 acc1

/-- `levelOrderTraversal()` (source lines 309–331). -/
def levelOrderTraversal (s : RedBlackTree) : Except Err (List Int) :=
  if s.root = 0 then pure []
  else levelOrderLoop s (maxFuel s) [s.root] []

/-!  ## Queries -/

/-- `getDepthHelper` (source lines 346–355). -/
def getDepthHelper (s : RedBlackTree) (fuel : Nat) (r : Option Nat) :
    Except Err Nat :=
  match fuel with
  | 0 => .error .fuelExhausted
  | fuel + 1 =>
    if r = some 0 then pure 0
    else do
      let n ← deref s r
      let dl ← getDepthHelper s fuel n.left
      let dr ← getDepthHelper s fuel n.right
      pure (max dl dr + 1)

/-- `getDepth()` (source lines 337–339). -/
def getDepth (s : RedBlackTree) : Except Err Nat :=
  getDepthHelper s (maxFuel s) (some s.root)

/-- `searchHelper` (source lines 372–382); returns the index of the
found node (the sentinel index `0` when absent, as in the source). -/
def searchHelper (s : RedBlackTree) (fuel : Nat) (key : Int)
    (r : Option Nat) : Except Err Nat :=
  match fuel with
  | 0 => .error .fuelExhausted
  | fuel + 1 =>
    -- if (node === this.NIL || key === node.key) return node;
    if r = some 0 then pure 0
    else do
      let n ← deref s r
      let i ← derefIdx r
      if key = n.key then pure i
      else if key < n.key then searchHelper s fuel key n.left
      else searchHelper s fuel key n.right

/-- `search(key)` (source lines 362–364). -/
def search (s : RedBlackTree) (key : Int) : Except Err Nat :=
  searchHelper s (maxFuel s) key (some s.root)

/-- `getMinimumNode` (source lines 398–404):
`while (current.left !== this.NIL) current = current.left;`.
The guard reads `current.left`, so a `null` current is a `TypeError`. -/
def getMinimumNode (s : RedBlackTree) (fuel : Nat) (cur : Option Nat) :
    Except Err Nat :=
  match fuel with
  | 0 => .error .fuelExhausted
  | fuel + 1 =>
    match cur with
    | none => .error .nullDeref
    | some i => do
      let n ← getN s i
      if n.left ≠ some 0 then getMinimumNode s fuel n.left
      else pure i

/-- `getMinimum()` (source lines 388–391). -/
def getMinimum (s : RedBlackTree) : Except Err (Option Int) := do
  let i ← getMinimumNode s (maxFuel s) (some s.root)
  if i = 0 then pure none
  else do
    let n ← getN s i
    pure (some n.key)

/-- `getMaximumNode` (source lines 420–426), the mirror image. -/
def getMaximumNode (s : RedBlackTree) (fuel : Nat) (cur : Option Nat) :
    Except Err Nat :=
  match fuel with
  | 0 => .error .fuelExhausted
  | fuel + 1 =>
    match cur with
    | none => .error .nullDeref
    | some i => do
      let n ← getN s i
      if n.right ≠ some 0 then getMaximumNode s fuel n.right
      else pure i

/-- `getMaximum()` (source lines 410–413). -/
def getMaximum (s : RedBlackTree) : Except Err (Option Int) := do
  let i ← getMaximumNode s (maxFuel s) (some s.root)
  if i = 0 then pure none
  else do
    let n ← getN s i
    pure (some n.key)

/-- `isEmpty()` (source lines 432–434). -/
def isEmpty (s : RedBlackTree) : Bool := s.root = 0

/-- `clear()` (source lines 439–441): reset `root` to `NIL` (old nodes
become unreachable garbage but stay in the heap). -/
def clear (s : RedBlackTree) : RedBlackTree := { s with root := 0 }

/-!  ## Operation sequences -/

/-- Run a sequence of `insert` calls on a fresh tree. -/
def runInserts (keys : List Int) : Except Err RedBlackTree :=
  keys.foldlM insert mkTree

/-- A mutating public operation (the queries return no state). -/
inductive Op where
  | ins (key : Int)
  | clr
deriving DecidableEq

/-- Run a sequence of mutating operations on a fresh tree. -/
def runOps (ops : List Op) : Except Err RedBlackTree :=
  ops.foldlM (fun s op =>
    match op with
    | .ins key => insert s key
    | .clr => pure (clear s)) mkTree

/-!  ## Abstract trees

`ITree` is the abstract shape of the pointer structure reachable from a
reference: each abstract node remembers the heap index it lives at.
`reprB s t par` checks that the heap `s` stores exactly the tree `t`
below a reference, with all child links and parent back-references in
place (`par` is the expected parent field of the top node). -/

inductive ITree where
  | nil
  | node (i : Nat) (c : Color) (l : ITree) (k : Int) (r : ITree)
deriving DecidableEq

namespace ITree

/-- The reference that points at this subtree (`NIL` for `nil`). -/
def rootRef : ITree → Option Nat
  | .nil => some 0
  | .node i _ _ _ _ => some i

/-- The index of the subtree's top object (`0` for `nil`). -/
def rootIdx : ITree → Nat
  | .nil => 0
  | .node i _ _ _ _ => i

/-- Color of the subtree's top object (the sentinel is BLACK). -/
def rootColor : ITree → Color
  | .nil => Color.BLACK
  | .node _ c _ _ _ => c

/-- Heap indices of the (proper) nodes of the tree. -/
def idxs : ITree → List Nat
  | .nil => []
  | .node i _ l _ r => i :: (idxs l ++ idxs r)

/-- Keys in symmetric (inorder) order. -/
def inorderI : ITree → List Int
  | .nil => []
  | .node _ _ l k r => inorderI l ++ k :: inorderI r

/-- Keys in preorder. -/
def preorderI : ITree → List Int
  | .nil => []
  | .node _ _ l k r => k :: (preorderI l ++ preorderI r)

/-- Keys in postorder. -/
def postorderI : ITree → List Int
  | .nil => []
  | .node _ _ l k r => postorderI l ++ postorderI r ++ [k]

/-- Number of proper nodes. -/
def sizeI : ITree → Nat
  | .nil => 0
  | .node _ _ l _ r => sizeI l + sizeI r + 1

/-- Height in node count (what `getDepthHelper` computes). -/
def heightI : ITree → Nat
  | .nil => 0
  | .node _ _ l _ r => max (heightI l) (heightI r) + 1

end ITree

/-- Black contribution of a color. -/
def bd : Color → Nat
  | Color.RED => 0
  | Color.BLACK => 1

namespace ITree

/-- Black-height, `none` if some node has children of unequal
black-height (red-black invariant 5 as a recursive checker). -/
def bhOk : ITree → Option Nat
  | .nil => some 0
  | .node _ c l _ r =>
    match bhOk l, bhOk r with
    | some a, some b => if a = b then some (a + bd c) else none
    | _, _ => none

/-- The top of the subtree is not RED (red-black invariant 2 at the
root; leaves count as black). -/
def rootBlack : ITree → Bool
  | .nil => true
  | .node _ c _ _ _ => c = Color.BLACK

/-- No RED node has a RED child (red-black invariant 4). -/
def redInv : ITree → Bool
  | .nil => true
  | .node _ c l _ r =>
    (match c with
     | Color.RED => rootBlack l && rootBlack r
     | Color.BLACK => true) && redInv l && redInv r

/-- `lo ≤ k` with `none` as `-∞`. -/
def loleB : Option Int → Int → Bool
  | none, _ => true
  | some a, k => a ≤ k

/-- `k ≤ hi` with `none` as `+∞`. -/
def hileB : Int → Option Int → Bool
  | _, none => true
  | k, some b => k ≤ b

/-- Search-tree property produced by the descent of `insert` (keys go
left iff strictly smaller, ties go right): every key is within the
bounds, left keys are `≤` the node key, right keys `≥` it. -/
def BSTb : ITree → Option Int → Option Int → Bool
  | .nil, _, _ => true
  | .node _ _ l k r, lo, hi =>
    loleB lo k && hileB k hi && BSTb l lo (some k) && BSTb r (some k) hi

end ITree

open ITree

/-- A zipper frame: the hole is the `side` child of the node at heap
index `i` with color `c` and key `k`; `sib` is the other subtree. -/
inductive Dir where
  | L
  | R
deriving DecidableEq

structure Frame where
  side : Dir
  i : Nat
  c : Color
  k : Int
  sib : ITree
deriving DecidableEq

/-- Fill the hole of one frame. -/
def plug1 (f : Frame) (t : ITree) : ITree :=
  match f.side with
  | .L => .node f.i f.c t f.k f.sib
  | .R => .node f.i f.c f.sib f.k t

/-- Fill the hole of a context (innermost frame first). -/
def plug (q : List Frame) (t : ITree) : ITree :=
  match q with
  | [] => t
  | f :: q => plug q (plug1 f t)

/-- Parent reference of the hole of a context, when the whole tree has
parent `par`. -/
def holeParAux (q : List Frame) (par : Option Nat) : Option Nat :=
  match q with
  | [] => par
  | f :: _ => some f.i

/-- Parent reference of the hole of a context rooted at the tree root. -/
def holePar (q : List Frame) : Option Nat := holeParAux q none

/-- Heap indices occurring in the frames of a context. -/
def ctxIdxs : List Frame → List Nat
  | [] => []
  | f :: q => f.i :: (idxs f.sib ++ ctxIdxs q)

/-- The record stored for a frame node, given the reference of the hole
subtree and the frame node's parent reference. -/
def frameRec (f : Frame) (hr par : Option Nat) : RBNode :=
  match f.side with
  | .L => ⟨f.k, f.c, hr, rootRef f.sib, par⟩
  | .R => ⟨f.k, f.c, rootRef f.sib, hr, par⟩

/-- Two states have identical keys and colors cell-by-cell (rotations
never touch keys or colors). -/
def KCEq (s' s0 : RedBlackTree) : Prop :=
  ∀ m : Nat,
    ((s'.nodes[m]?).map RBNode.key = (s0.nodes[m]?).map RBNode.key) ∧
    ((s'.nodes[m]?).map RBNode.color = (s0.nodes[m]?).map RBNode.color)

/-- The heap stores exactly the tree `t` below some reference: for each
abstract node, the record at its index has the node's key, color, child
references and parent back-reference; proper nodes are never at the
sentinel index `0`. -/
def reprB (s : RedBlackTree) : ITree → Option Nat → Bool
  | .nil, _ => true
  | .node i c l k r, par =>
    decide (s.nodes[i]? = some ⟨k, c, rootRef l, rootRef r, par⟩) &&
    decide (i ≠ 0) && reprB s l (some i) && reprB s r (some i)

/-- The state `s` represents the tree `t`: the root reference matches,
the heap stores `t` (with parent pointers), the sentinel is untouched,
node indices are distinct and in bounds. -/
def ReprSt (s : RedBlackTree) (t : ITree) : Prop :=
  s.root = rootIdx t ∧ reprB s t none = true ∧
  s.nodes[0]? = some nilNode ∧
  (idxs t).Nodup ∧ ∀ i ∈ idxs t, i < s.nodes.length

/-!  ## Red-black bookkeeping along a context

`CtxRB q h cIn` says the frames of `q` (innermost first) are
red-black-consistent around a hole of black-height `h` whose top color
is `cIn`: each sibling has the matching black-height and no red-red
edge, a red frame has a black inner neighbour and a black-rooted
sibling, and the outermost position (the tree root) is black.
`CtxBST q lo hi` says the frames are search-tree-consistent with hole
key interval `(lo, hi)`. -/

def CtxRB : List Frame → Nat → Color → Prop
  | [], _, cIn => cIn = Color.BLACK
  | f :: q, h, cIn =>
      bhOk f.sib = some h ∧ redInv f.sib = true ∧
      (f.c = Color.RED → cIn = Color.BLACK ∧ rootBlack f.sib = true) ∧
      CtxRB q (h + bd f.c) f.c

def CtxBST : List Frame → Option Int → Option Int → Prop
  | [], lo, hi => lo = none ∧ hi = none
  | f :: q, lo, hi =>
      match f.side with
      | .L => hi = some f.k ∧ ∃ hi', loleB lo f.k = true ∧
          hileB f.k hi' = true ∧ BSTb f.sib (some f.k) hi' = true ∧
          CtxBST q lo hi'
      | .R => lo = some f.k ∧ ∃ lo', loleB lo' f.k = true ∧
          hileB f.k hi = true ∧ BSTb f.sib lo' (some f.k) = true ∧
          CtxBST q lo' hi

/-- Invariant of the `fixInsert` while-loop: the current node is the
red root of `t`; everything is red-black-consistent except possibly a
red innermost frame above `t` (the one allowed red-red violation). -/
def LoopInv (q : List Frame) (t : ITree) (lo hi : Option Int) (h : Nat) : Prop :=
  bhOk t = some h ∧ redInv t = true ∧ rootColor t = Color.RED ∧
  BSTb t lo hi = true ∧ CtxBST q lo hi ∧
  (match q with
   | [] => True
   | f :: ctx2 =>
       bhOk f.sib = some h ∧ redInv f.sib = true ∧
       (f.c = Color.RED → rootBlack f.sib = true) ∧
       CtxRB ctx2 (h + bd f.c) f.c)

/-- Repaint the top of a subtree black (`u.color = BLACK` etc.). -/
def blackenI : ITree → ITree
  | .nil => .nil
  | .node i _ l k r => .node i Color.BLACK l k r

/-- Single-frame search-tree relation: the hole has bounds `(lo, hi)`,
the frame node has bounds `(lo', hi')`. -/
def CtxBST1 (f : Frame) (lo hi lo' hi' : Option Int) : Prop :=
  match f.side with
  | .L => hi = some f.k ∧ lo' = lo ∧ loleB lo f.k = true ∧
      hileB f.k hi' = true ∧ BSTb f.sib (some f.k) hi' = true
  | .R => lo = some f.k ∧ hi' = hi ∧ loleB lo' f.k = true ∧
      hileB f.k hi = true ∧ BSTb f.sib lo' (some f.k) = true

/-- The search path `insert`'s descent loop takes for `key`, as a
context (innermost frame first): keys strictly smaller than a node key
go left, ties and larger keys go right. -/
def descendCtx : ITree → Int → List Frame
  | .nil, _ => []
  | .node i c l k r, key =>
    if key < k then descendCtx l key ++ [⟨Dir.L, i, c, k, r⟩]
    else descendCtx r key ++ [⟨Dir.R, i, c, k, l⟩]

/-- Keys stored in the frames of a context (node keys and sibling
subtree keys). -/
def ctxKeys : List Frame → List Int
  | [] => []
  | f :: q => (f.k :: inorderI f.sib) ++ ctxKeys q

/-- Full state invariant carried through a sequence of `insert` calls:
the heap represents a red-black search tree with a black root, and the
heap holds exactly the tree's nodes plus the sentinel. -/
def StateInv (s : RedBlackTree) (T : ITree) : Prop :=
  ReprSt s T ∧ BSTb T none none = true ∧ rootBlack T = true ∧
  redInv T = true ∧ (∃ H, bhOk T = some H) ∧
  sizeI T + 1 ≤ s.nodes.length

/-- Total size of a list of subtrees (the level-order queue measure). -/
def sizeForest : List ITree → Nat
  | [] => 0
  | t :: ts => sizeI t + sizeForest ts

/-- Keys of a list of subtrees. -/
def forestKeys : List ITree → List Int
  | [] => []
  | t :: ts => inorderI t ++ forestKeys ts

/-!  ## Heap access lemmas -/

theorem updN_get (s : RedBlackTree) (i : Nat) (f : RBNode → RBNode) (j : Nat) :
    (updN s i f).nodes[j]? =
      if i = j then (s.nodes[i]?).map f else s.nodes[j]? := by
  unfold updN
  cases h : s.nodes[i]? with
  | none =>
    simp only [h, Option.map_none']
    split <;> simp_all
  | some n =>
    have hlen : i < s.nodes.length := by
      by_contra hc
      rw [List.getElem?_eq_none (Nat.le_of_not_lt hc)] at h
      exact Option.noConfusion h
    by_cases hij : i = j
    · subst hij
      simp only [h, hlen, if_pos rfl, Option.map_some']
      rw [List.getElem?_set_self', h]
      rfl
    · simp only [if_neg hij]
      exact List.getElem?_set_ne hij

theorem updN_root (s : RedBlackTree) (i : Nat) (f : RBNode → RBNode) :
    (updN s i f).root = s.root := by
  unfold updN; cases s.nodes[i]? <;> rfl

theorem updN_length (s : RedBlackTree) (i : Nat) (f : RBNode → RBNode) :
    (updN s i f).nodes.length = s.nodes.length := by
  unfold updN; cases h : s.nodes[i]? <;> simp

theorem getN_ok {s : RedBlackTree} {i : Nat} {n : RBNode}
    (h : s.nodes[i]? = some n) : getN s i = .ok n := by
  unfold getN; rw [h]

theorem deref_some {s : RedBlackTree} {i : Nat} {n : RBNode}
    (h : s.nodes[i]? = some n) : deref s (some i) = .ok n := by
  unfold deref; exact getN_ok h

/-!  ## `reprB` lemmas -/

theorem reprB_node_iff {s : RedBlackTree} {i c l k r par} :
    reprB s (.node i c l k r) par = true ↔
      s.nodes[i]? = some ⟨k, c, rootRef l, rootRef r, par⟩ ∧ i ≠ 0 ∧
      reprB s l (some i) = true ∧ reprB s r (some i) = true := by
  simp [reprB, Bool.and_eq_true, and_assoc]

theorem reprB_congr {s s' : RedBlackTree} {t : ITree} {par : Option Nat}
    (h : ∀ j ∈ idxs t, s'.nodes[j]? = s.nodes[j]?) :
    reprB s' t par = reprB s t par := by
  induction t generalizing par with
  | nil => rfl
  | node i c l k r ihl ihr =>
    have hi : s'.nodes[i]? = s.nodes[i]? := h i (by simp [idxs])
    have hl : ∀ j ∈ idxs l, s'.nodes[j]? = s.nodes[j]? := by
      intro j hj; exact h j (by simp [idxs, hj])
    have hr : ∀ j ∈ idxs r, s'.nodes[j]? = s.nodes[j]? := by
      intro j hj; exact h j (by simp [idxs, hj])
    simp [reprB, hi, ihl hl, ihr hr]

/-!  ## plug / idxs bookkeeping -/

theorem plug_cons (f : Frame) (q : List Frame) (t : ITree) :
    plug (f :: q) t = plug q (plug1 f t) := rfl

theorem rootRef_plug1 (f : Frame) (t : ITree) :
    rootRef (plug1 f t) = some f.i := by
  cases hs : f.side <;> simp [plug1, hs, rootRef]

theorem rootIdx_plug1 (f : Frame) (t : ITree) :
    rootIdx (plug1 f t) = f.i := by
  cases hs : f.side <;> simp [plug1, hs, rootIdx]

theorem idxs_plug1_perm (f : Frame) (t : ITree) :
    (idxs (plug1 f t)).Perm ((f.i :: idxs f.sib) ++ idxs t) := by
  cases hs : f.side
  · simp only [plug1, hs, idxs, List.cons_append]
    exact List.Perm.cons _ (List.perm_append_comm)
  · simp only [plug1, hs, idxs, List.cons_append]
    exact List.Perm.refl _

theorem idxs_plug_perm (q : List Frame) (t : ITree) :
    (idxs (plug q t)).Perm (ctxIdxs q ++ idxs t) := by
  induction q generalizing t with
  | nil => simp [plug, ctxIdxs]
  | cons f q ih =>
    rw [plug_cons]
    refine (ih (plug1 f t)).trans ?_
    refine ((idxs_plug1_perm f t).append_left (ctxIdxs q)).trans ?_
    have h1 : (ctxIdxs q ++ ((f.i :: idxs f.sib) ++ idxs t)).Perm
        ((ctxIdxs q ++ (f.i :: idxs f.sib)) ++ idxs t) := by
      rw [List.append_assoc]
    refine h1.trans ?_
    refine (List.perm_append_comm.append_right (idxs t)).trans ?_
    simp [ctxIdxs, List.append_assoc]

theorem nodup_plug_parts {q : List Frame} {t : ITree}
    (h : (idxs (plug q t)).Nodup) :
    (idxs t).Nodup ∧ ∀ j ∈ ctxIdxs q, j ∉ idxs t := by
  have h2 := (idxs_plug_perm q t).nodup_iff.1 h
  rw [List.nodup_append] at h2
  exact ⟨h2.2.1, fun j hj hjt => h2.2.2 hj hjt⟩

theorem reprB_plug1_iff {s : RedBlackTree} {f : Frame} {t : ITree} {par} :
    reprB s (plug1 f t) par = true ↔
      s.nodes[f.i]? = some (frameRec f (rootRef t) par) ∧ f.i ≠ 0 ∧
      reprB s t (some f.i) = true ∧ reprB s f.sib (some f.i) = true := by
  cases hs : f.side <;>
    simp [plug1, hs, frameRec, reprB_node_iff] <;> tauto

theorem reprB_plug_inner {s : RedBlackTree} {q : List Frame} {t : ITree} {par}
    (h : reprB s (plug q t) par = true) :
    reprB s t (holeParAux q par) = true := by
  induction q generalizing t par with
  | nil => exact h
  | cons f q ih =>
    have h1 := ih (t := plug1 f t) h
    rw [reprB_plug1_iff] at h1
    exact h1.2.2.1

/-- Read the innermost frame's record out of a plugged representation. -/
theorem reprB_plug_cons_read {s : RedBlackTree} {f : Frame} {q : List Frame}
    {t : ITree} {par} (h : reprB s (plug (f :: q) t) par = true) :
    s.nodes[f.i]? = some (frameRec f (rootRef t) (holeParAux q par)) ∧
      f.i ≠ 0 ∧ reprB s t (some f.i) = true ∧
      reprB s f.sib (some f.i) = true := by
  have h1 := reprB_plug_inner (q := q) (t := plug1 f t) h
  rwa [reprB_plug1_iff] at h1

theorem mem_idxs_plug1 {f : Frame} {t : ITree} {j : Nat} :
    j ∈ idxs (plug1 f t) ↔ j = f.i ∨ j ∈ idxs f.sib ∨ j ∈ idxs t := by
  rw [(idxs_plug1_perm f t).mem_iff]
  simp

/-- Central update lemma: replacing the hole subtree `t` by `t'` with
the same top reference, touching only heap cells inside `t`, preserves
the plugged representation. -/
theorem reprB_plug_update {s s' : RedBlackTree} {q : List Frame}
    {t u : ITree} {par}
    (h : reprB s (plug q t) par = true)
    (hroot : rootRef u = rootRef t)
    (ht' : reprB s' u (holeParAux q par) = true)
    (hagree : ∀ j, j ∉ idxs t → s'.nodes[j]? = s.nodes[j]?)
    (hnd : (idxs (plug q t)).Nodup) :
    reprB s' (plug q u) par = true := by
  induction q generalizing t u par with
  | nil => exact ht'
  | cons f q ih =>
    rw [plug_cons] at h hnd ⊢
    have hnd1 : (idxs (plug1 f t)).Nodup := (nodup_plug_parts hnd).1
    have hnd2 := (idxs_plug1_perm f t).nodup_iff.1 hnd1
    rw [List.nodup_append] at hnd2
    have hfi : f.i ∉ idxs t := hnd2.2.2 (by simp)
    have hsib : ∀ j ∈ idxs f.sib, j ∉ idxs t := fun j hj => hnd2.2.2 (by simp [hj])
    have hread := reprB_plug1_iff.1 (reprB_plug_inner (q := q) h)
    refine ih (t := plug1 f t) (u := plug1 f u) h ?_ ?_ ?_ hnd
    · rw [rootRef_plug1, rootRef_plug1]
    · rw [reprB_plug1_iff]
      refine ⟨?_, hread.2.1, ?_, ?_⟩
      · rw [hagree f.i hfi, hread.1, hroot]
      · exact ht'
      · rw [reprB_congr (s := s) (fun j hj => hagree j (hsib j hj))]
        exact hread.2.2.2
    · intro j hj
      refine hagree j fun hjt => hj ?_
      exact mem_idxs_plug1.2 (Or.inr (Or.inr hjt))

/-!  ## Helper lemmas for simulation proofs -/

theorem nodup_node_iff {i : Nat} {c : Color} {l : ITree} {k : Int} {r : ITree} :
    (idxs (.node i c l k r)).Nodup ↔
      i ∉ idxs l ∧ i ∉ idxs r ∧ (idxs l).Nodup ∧ (idxs r).Nodup ∧
        ∀ a ∈ idxs l, a ∉ idxs r := by
  simp only [idxs, List.nodup_cons, List.mem_append, List.nodup_append, List.Disjoint]
  constructor
  · rintro ⟨h1, h2, h3, h4⟩
    exact ⟨fun h => h1 (Or.inl h), fun h => h1 (Or.inr h), h2, h3,
      fun a ha hb => h4 ha hb⟩
  · rintro ⟨h1, h2, h3, h4, h5⟩
    exact ⟨fun h => h.elim h1 h2, h3, h4, fun a ha hb => h5 a ha hb⟩

theorem updN_map_key {s : RedBlackTree} {i : Nat} {f : RBNode → RBNode}
    (h : ∀ n, (f n).key = n.key) (m : Nat) :
    ((updN s i f).nodes[m]?).map RBNode.key = (s.nodes[m]?).map RBNode.key := by
  rw [updN_get]
  by_cases him : i = m
  · subst him
    rw [if_pos rfl]
    cases s.nodes[i]? <;> simp [h]
  · rw [if_neg him]

theorem updN_map_color {s : RedBlackTree} {i : Nat} {f : RBNode → RBNode}
    (h : ∀ n, (f n).color = n.color) (m : Nat) :
    ((updN s i f).nodes[m]?).map RBNode.color = (s.nodes[m]?).map RBNode.color := by
  rw [updN_get]
  by_cases him : i = m
  · subst him
    rw [if_pos rfl]
    cases s.nodes[i]? <;> simp [h]
  · rw [if_neg him]

theorem okBind {e a b : Type} (x : a) (f : a → Except e b) :
    (Except.ok x >>= f) = f x := rfl

theorem errBind {e a b : Type} (err : e) (f : a → Except e b) :
    ((Except.error err : Except e a) >>= f) = Except.error err := rfl

theorem rootRef_nil : rootRef .nil = some 0 := rfl

theorem rootRef_node (i : Nat) (c : Color) (l : ITree) (k : Int) (r : ITree) :
    rootRef (.node i c l k r) = some i := rfl

theorem rootIdx_nil : rootIdx .nil = 0 := rfl

theorem rootIdx_node (i : Nat) (c : Color) (l : ITree) (k : Int) (r : ITree) :
    rootIdx (.node i c l k r) = i := rfl

theorem KCEq.refl (s : RedBlackTree) : KCEq s s := fun _ => ⟨rfl, rfl⟩

theorem KCEq.updN {s' s0 : RedBlackTree} {i : Nat} {f : RBNode → RBNode}
    (hf : ∀ n, (f n).key = n.key ∧ (f n).color = n.color)
    (h : KCEq s' s0) : KCEq (updN s' i f) s0 := by
  intro m
  constructor
  · rw [updN_map_key (fun n => (hf n).1) m]; exact (h m).1
  · rw [updN_map_color (fun n => (hf n).2) m]; exact (h m).2

/-- A left rotation permutes the node indices of the rotated subtree. -/
theorem idxs_leftRotate_perm (i : Nat) (ci : Color) (l : ITree) (ki : Int)
    (j : Nat) (cj : Color) (rl : ITree) (kj : Int) (rr : ITree) :
    (idxs (.node j cj (.node i ci l ki rl) kj rr)).Perm
      (idxs (.node i ci l ki (.node j cj rl kj rr))) := by
  simp only [idxs, List.cons_append, List.append_assoc]
  refine List.Perm.trans (List.Perm.swap i j _) ?_
  exact (List.Perm.cons i List.perm_middle.symm)

/-- A right rotation permutes the node indices of the rotated subtree. -/
theorem idxs_rightRotate_perm (i : Nat) (ci : Color) (j : Nat) (cj : Color)
    (ll : ITree) (kj : Int) (lr : ITree) (ki : Int) (r : ITree) :
    (idxs (.node j cj ll kj (.node i ci lr ki r))).Perm
      (idxs (.node i ci (.node j cj ll kj lr) ki r)) := by
  simp only [idxs, List.cons_append, List.append_assoc]
  exact (List.Perm.cons j List.perm_middle).trans (List.Perm.swap i j _)

/-- The root index of a plugged tree with at least one frame does not
depend on the hole. -/
theorem rootIdx_plug_cons (f : Frame) (q : List Frame) (t t' : ITree) :
    rootIdx (plug (f :: q) t) = rootIdx (plug (f :: q) t') := by
  induction q generalizing f t t' with
  | nil => rw [plug_cons, plug_cons, plug, plug, rootIdx_plug1, rootIdx_plug1]
  | cons g q ih => exact ih g (plug1 f t) (plug1 f t')

/-- Index permutations at the hole lift to the plugged tree. -/
theorem plug_perm_plug {t t' : ITree} (q : List Frame)
    (hperm : (idxs t').Perm (idxs t)) :
    (idxs (plug q t')).Perm (idxs (plug q t)) :=
  (idxs_plug_perm q t').trans
    ((hperm.append_left (ctxIdxs q)).trans (idxs_plug_perm q t).symm)

/-!  ## Rotation simulation -/

set_option maxHeartbeats 1000000

theorem leftRotate_ok {s : RedBlackTree} {q : List Frame} {i : Nat}
    {ci : Color} {l : ITree} {ki : Int} {j : Nat} {cj : Color}
    {rl : ITree} {kj : Int} {rr : ITree}
    (hrep : ReprSt s (plug q (.node i ci l ki (.node j cj rl kj rr)))) :
    ∃ s', leftRotate s i = .ok s' ∧
      ReprSt s' (plug q (.node j cj (.node i ci l ki rl) kj rr)) ∧
      s'.nodes.length = s.nodes.length ∧ KCEq s' s := by
  obtain ⟨hroot, hrep0, hnil0, hnd, hbnd⟩ := hrep
  have hndT := (nodup_plug_parts hnd).1
  have hctxT := (nodup_plug_parts hnd).2
  rw [nodup_node_iff] at hndT
  obtain ⟨hil, hitj, hndl, hndtj, hdisjltj⟩ := hndT
  rw [nodup_node_iff] at hndtj
  obtain ⟨hjrl, hjrr, hndrl, hndrr, hdisjrlrr⟩ := hndtj
  have hij : i ≠ j := fun h => hitj (h ▸ (by simp [idxs]))
  have hirl : i ∉ idxs rl := fun h => hitj (by simp [idxs, h])
  have hirr : i ∉ idxs rr := fun h => hitj (by simp [idxs, h])
  have hjl : j ∉ idxs l := fun h => hdisjltj j h (by simp [idxs])
  have hin := reprB_plug_inner hrep0
  rw [reprB_node_iff] at hin
  obtain ⟨cellI, hi0, hrl_l, hrtj⟩ := hin
  rw [reprB_node_iff] at hrtj
  obtain ⟨cellJ, hj0, hrep_rl, hrep_rr⟩ := hrtj
  have hpermT := idxs_leftRotate_perm i ci l ki j cj rl kj rr
  -- case split on the shape of rl (the transferred child) and on q
  cases rl with
  | nil =>
    cases q with
    | nil =>
      simp only [holeParAux] at cellI cellJ hrep_rl hrep_rr hrl_l
      cases hrun : leftRotate s i with
      | error e =>
        rw [leftRotate] at hrun
        simp [getN, deref, derefIdx, okBind, errBind, cellI, cellJ, updN_get,
          hij, Ne.symm hij, rootRef_nil, rootRef_node, updN_root] at hrun
      | ok sF =>
        rw [leftRotate] at hrun
        simp [getN, deref, derefIdx, okBind, errBind, cellI, cellJ, updN_get,
          hij, Ne.symm hij, rootRef_nil, rootRef_node, updN_root] at hrun
        have cFi : sF.nodes[i]? = some ⟨ki, ci, rootRef l, some 0, some j⟩ := by
          rw [← hrun]
          simp [updN_get, cellI, hij, Ne.symm hij, rootRef_node]
        have cFj : sF.nodes[j]? = some ⟨kj, cj, some i, rootRef rr, none⟩ := by
          rw [← hrun]
          simp [updN_get, cellJ, hij, Ne.symm hij]
        have agree : ∀ a : Nat, a ≠ i → a ≠ j → sF.nodes[a]? = s.nodes[a]? := by
          intro a hai haj
          have h1 : ¬ i = a := fun h => hai h.symm
          have h2 : ¬ j = a := fun h => haj h.symm
          rw [← hrun]
          simp [updN_get, h1, h2]
        have rootF : sF.root = j := by
          rw [← hrun]; simp [updN_root]
        have lenF : sF.nodes.length = s.nodes.length := by
          rw [← hrun]; simp [updN_length]
        refine ⟨sF, rfl, ⟨?_, ?_, ?_, ?_, ?_⟩, lenF, ?_⟩
        · simpa [plug, rootIdx_node] using rootF
        · show reprB sF (.node j cj (.node i ci l ki .nil) kj rr) none = true
          rw [reprB_node_iff]
          refine ⟨by simpa [rootRef_node, rootRef_nil] using cFj, hj0, ?_, ?_⟩
          · rw [reprB_node_iff]
            refine ⟨by simpa [rootRef_nil] using cFi, hi0, ?_, rfl⟩
            rw [reprB_congr (s := s) (fun a ha =>
              agree a (fun h => hil (h ▸ ha)) (fun h => hjl (h ▸ ha)))]
            exact hrl_l
          · rw [reprB_congr (s := s) (fun a ha =>
              agree a (fun h => hirr (h ▸ ha)) (fun h => hjrr (h ▸ ha)))]
            exact hrep_rr
        · rw [agree 0 (Ne.symm hi0) (Ne.symm hj0)]; exact hnil0
        · exact hpermT.nodup_iff.2 hnd
        · intro a ha
          rw [lenF]
          exact hbnd a (hpermT.subset ha)
        · rw [← hrun]
          exact .updN (by simp) (.updN (by simp)
            (.updN (by simp) (.updN (by simp) (.refl s))))
    | cons f ctx' =>
      have hcons := reprB_plug_cons_read (q := ctx') hrep0
      obtain ⟨cellF, hfi0, _, hrep_sib⟩ := hcons
      simp only [holeParAux] at cellI cellJ hrl_l hrep_rl hrep_rr cellF
      simp only [rootRef_node] at cellF
      have hfT : f.i ∉ idxs (ITree.node i ci l ki (.node j cj .nil kj rr)) :=
        hctxT f.i (by simp [ctxIdxs])
      have hfi_i : f.i ≠ i := fun h => hfT (h ▸ by simp [idxs])
      have hfi_j : f.i ≠ j := fun h => hfT (h ▸ by simp [idxs])
      have hsib_nT : ∀ a ∈ idxs f.sib,
          a ∉ idxs (ITree.node i ci l ki (.node j cj .nil kj rr)) :=
        fun a ha => hctxT a (by simp [ctxIdxs, ha])
      have hndctx : (ctxIdxs (f :: ctx')).Nodup :=
        (List.nodup_append.1 ((idxs_plug_perm _ _).nodup_iff.1 hnd)).1
      have hfi_sib : f.i ∉ idxs f.sib := by
        have h2 := hndctx
        simp only [ctxIdxs, List.nodup_cons, List.mem_append, not_or] at h2
        exact h2.1.1
      have hsibref_i : ¬ (some i = rootRef f.sib) := by
        cases hsb : f.sib with
        | nil =>
          rw [rootRef_nil]
          intro h
          exact hi0 (Option.some.inj h)
        | node w cw wl kw wr =>
          rw [rootRef_node]
          intro h
          have hw : w ∈ idxs f.sib := by simp [hsb, idxs]
          exact (hsib_nT w hw) ((Option.some.inj h) ▸ by simp [idxs])
      cases hfs : f.side
      all_goals (
        simp only [frameRec, hfs] at cellF
        cases hrun : leftRotate s i with
        | error e =>
          rw [leftRotate] at hrun
          simp [getN, deref, derefIdx, okBind, errBind, cellI, cellJ, cellF,
            updN_get, hij, Ne.symm hij, hfi_i, Ne.symm hfi_i, hfi_j,
            Ne.symm hfi_j, hsibref_i, rootRef_nil, rootRef_node,
            updN_root] at hrun
        | ok sF =>
          rw [leftRotate] at hrun
          simp [getN, deref, derefIdx, okBind, errBind, cellI, cellJ, cellF,
            updN_get, hij, Ne.symm hij, hfi_i, Ne.symm hfi_i, hfi_j,
            Ne.symm hfi_j, hsibref_i, rootRef_nil, rootRef_node,
            updN_root] at hrun
          have cFi : sF.nodes[i]? = some ⟨ki, ci, rootRef l, some 0, some j⟩ := by
            rw [← hrun]
            simp [updN_get, cellI, hij, Ne.symm hij, hfi_i, rootRef_node]
          have cFj : sF.nodes[j]? = some ⟨kj, cj, some i, rootRef rr, some f.i⟩ := by
            rw [← hrun]
            simp [updN_get, cellJ, hij, Ne.symm hij, hfi_j]
          have cFf : sF.nodes[f.i]? =
              some (frameRec f (some j) (holeParAux ctx' none)) := by
            rw [← hrun]
            simp [updN_get, cellF, frameRec, hfs, holeParAux, Ne.symm hfi_i,
              Ne.symm hfi_j, hfi_i]
          have agree : ∀ a : Nat, a ≠ i → a ≠ j → a ≠ f.i →
              sF.nodes[a]? = s.nodes[a]? := by
            intro a hai haj haf
            have h1 : ¬ i = a := fun h => hai h.symm
            have h2 : ¬ j = a := fun h => haj h.symm
            have h3 : ¬ f.i = a := fun h => haf h.symm
            rw [← hrun]
            simp [updN_get, h1, h2, h3]
          have rootF : sF.root = s.root := by
            rw [← hrun]; simp [updN_root]
          have lenF : sF.nodes.length = s.nodes.length := by
            rw [← hrun]; simp [updN_length]
          refine ⟨sF, rfl, ⟨?_, ?_, ?_, ?_, ?_⟩, lenF, ?_⟩
          · rw [rootF, hroot]
            exact rootIdx_plug_cons _ _ _ _
          · refine reprB_plug_update (q := ctx')
              (t := plug1 f (.node i ci l ki (.node j cj .nil kj rr)))
              (u := plug1 f (.node j cj (.node i ci l ki .nil) kj rr))
              hrep0 (by rw [rootRef_plug1, rootRef_plug1]) ?_ ?_ hnd
            · rw [reprB_plug1_iff]
              refine ⟨by simpa [rootRef_node] using cFf, hfi0, ?_, ?_⟩
              · rw [reprB_node_iff]
                refine ⟨by simpa [rootRef_node, rootRef_nil] using cFj, hj0, ?_, ?_⟩
                · rw [reprB_node_iff]
                  refine ⟨by simpa [rootRef_nil] using cFi, hi0, ?_, rfl⟩
                  rw [reprB_congr (s := s) (fun a ha => agree a
                    (fun h => hil (h ▸ ha)) (fun h => hjl (h ▸ ha))
                    (fun h => hfT (by simp [idxs, ← h, ha])))]
                  exact hrl_l
                · rw [reprB_congr (s := s) (fun a ha => agree a
                    (fun h => hirr (h ▸ ha)) (fun h => hjrr (h ▸ ha))
                    (fun h => hfT (by simp [idxs, ← h, ha])))]
                  exact hrep_rr
              · rw [reprB_congr (s := s) (fun a ha => agree a
                  (fun h => (hsib_nT a ha) (h ▸ by simp [idxs]))
                  (fun h => (hsib_nT a ha) (h ▸ by simp [idxs]))
                  (fun h => hfi_sib (h ▸ ha)))]
                exact hrep_sib
            · intro a ha
              have h1 : a ≠ f.i := fun h => ha (mem_idxs_plug1.2 (Or.inl h))
              have h2 : a ∉ idxs (ITree.node i ci l ki (.node j cj .nil kj rr)) :=
                fun h => ha (mem_idxs_plug1.2 (Or.inr (Or.inr h)))
              exact agree a (fun h => h2 (h ▸ by simp [idxs]))
                (fun h => h2 (h ▸ by simp [idxs])) h1
          · rw [agree 0 (Ne.symm hi0) (Ne.symm hj0) (Ne.symm hfi0)]
            exact hnil0
          · exact (plug_perm_plug _ hpermT).nodup_iff.2 hnd
          · intro a ha
            rw [lenF]
            exact hbnd a ((plug_perm_plug _ hpermT).subset ha)
          · rw [← hrun]
            exact .updN (by simp) (.updN (by simp) (.updN (by simp)
              (.updN (by simp) (.updN (by simp) (.refl s)))))
        )
  | node m cm ml km2 mr =>
    rw [reprB_node_iff] at hrep_rl
    obtain ⟨cellM, hm0, hrml, hrmr⟩ := hrep_rl
    rw [nodup_node_iff] at hndrl
    obtain ⟨hm_ml, hm_mr, hndml, hndmr, hdisjmlmr⟩ := hndrl
    have hmi : m ≠ i := fun h => hirl (h ▸ by simp [idxs])
    have hmj : m ≠ j := fun h => hjrl (h ▸ by simp [idxs])
    have hml_rl : ∀ a ∈ idxs ml, a ∈ idxs (ITree.node m cm ml km2 mr) :=
      fun a ha => by simp [idxs, ha]
    have hmr_rl : ∀ a ∈ idxs mr, a ∈ idxs (ITree.node m cm ml km2 mr) :=
      fun a ha => by simp [idxs, ha]
    cases q with
    | nil =>
      simp only [holeParAux] at cellI cellJ hrl_l hrmr hrml cellM hrep_rr
      cases hrun : leftRotate s i with
      | error e =>
        rw [leftRotate] at hrun
        simp [getN, deref, derefIdx, okBind, errBind, cellI, cellJ, cellM,
          updN_get, hij, Ne.symm hij, hmi, Ne.symm hmi, hmj, Ne.symm hmj,
          hm0, rootRef_nil, rootRef_node, updN_root] at hrun
      | ok sF =>
        rw [leftRotate] at hrun
        simp [getN, deref, derefIdx, okBind, errBind, cellI, cellJ, cellM,
          updN_get, hij, Ne.symm hij, hmi, Ne.symm hmi, hmj, Ne.symm hmj,
          hm0, rootRef_nil, rootRef_node, updN_root] at hrun
        have cFi : sF.nodes[i]? = some ⟨ki, ci, rootRef l, some m, some j⟩ := by
          rw [← hrun]
          simp [updN_get, cellI, hij, Ne.symm hij, hmi, Ne.symm hmi, rootRef_node]
        have cFj : sF.nodes[j]? = some ⟨kj, cj, some i, rootRef rr, none⟩ := by
          rw [← hrun]
          simp [updN_get, cellJ, hij, Ne.symm hij, hmj, Ne.symm hmj]
        have cFm : sF.nodes[m]? = some ⟨km2, cm, rootRef ml, rootRef mr, some i⟩ := by
          rw [← hrun]
          simp [updN_get, cellM, hmi, Ne.symm hmi, hmj, Ne.symm hmj]
        have agree : ∀ a : Nat, a ≠ i → a ≠ j → a ≠ m →
            sF.nodes[a]? = s.nodes[a]? := by
          intro a hai haj ham
          have h1 : ¬ i = a := fun h => hai h.symm
          have h2 : ¬ j = a := fun h => haj h.symm
          have h3 : ¬ m = a := fun h => ham h.symm
          rw [← hrun]
          simp [updN_get, h1, h2, h3]
        have rootF : sF.root = j := by
          rw [← hrun]; simp [updN_root]
        have lenF : sF.nodes.length = s.nodes.length := by
          rw [← hrun]; simp [updN_length]
        refine ⟨sF, rfl, ⟨?_, ?_, ?_, ?_, ?_⟩, lenF, ?_⟩
        · simpa [plug, rootIdx_node] using rootF
        · show reprB sF
            (.node j cj (.node i ci l ki (.node m cm ml km2 mr)) kj rr) none = true
          rw [reprB_node_iff]
          refine ⟨by simpa [rootRef_node] using cFj, hj0, ?_, ?_⟩
          · rw [reprB_node_iff]
            refine ⟨by simpa [rootRef_node] using cFi, hi0, ?_, ?_⟩
            · rw [reprB_congr (s := s) (fun a ha => agree a
                (fun h => hil (h ▸ ha)) (fun h => hjl (h ▸ ha))
                (fun h => hdisjltj m (h ▸ ha) (by simp [idxs])))]
              exact hrl_l
            · rw [reprB_node_iff]
              refine ⟨cFm, hm0, ?_, ?_⟩
              · rw [reprB_congr (s := s) (fun a ha => agree a
                  (fun h => hirl (h ▸ hml_rl a ha)) (fun h => hjrl (h ▸ hml_rl a ha))
                  (fun h => hm_ml (h ▸ ha)))]
                exact hrml
              · rw [reprB_congr (s := s) (fun a ha => agree a
                  (fun h => hirl (h ▸ hmr_rl a ha)) (fun h => hjrl (h ▸ hmr_rl a ha))
                  (fun h => hm_mr (h ▸ ha)))]
                exact hrmr
          · rw [reprB_congr (s := s) (fun a ha => agree a
              (fun h => hirr (h ▸ ha)) (fun h => hjrr (h ▸ ha))
              (fun h => hdisjrlrr m (by simp [idxs]) (h ▸ ha)))]
            exact hrep_rr
        · rw [agree 0 (Ne.symm hi0) (Ne.symm hj0) (Ne.symm hm0)]
          exact hnil0
        · exact hpermT.nodup_iff.2 hnd
        · intro a ha
          rw [lenF]
          exact hbnd a (hpermT.subset ha)
        · rw [← hrun]
          exact .updN (by simp) (.updN (by simp) (.updN (by simp)
            (.updN (by simp) (.updN (by simp) (.refl s)))))
    | cons f ctx' =>
      have hcons := reprB_plug_cons_read (q := ctx') hrep0
      obtain ⟨cellF, hfi0, _, hrep_sib⟩ := hcons
      simp only [holeParAux] at cellI cellJ hrl_l hrmr hrml cellM hrep_rr cellF
      simp only [rootRef_node] at cellF
      have hfT : f.i ∉ idxs (ITree.node i ci l ki
          (.node j cj (.node m cm ml km2 mr) kj rr)) :=
        hctxT f.i (by simp [ctxIdxs])
      have hfi_i : f.i ≠ i := fun h => hfT (h ▸ by simp [idxs])
      have hfi_j : f.i ≠ j := fun h => hfT (h ▸ by simp [idxs])
      have hfi_m : f.i ≠ m := fun h => hfT (h ▸ by simp [idxs])
      have hsib_nT : ∀ a ∈ idxs f.sib, a ∉ idxs (ITree.node i ci l ki
          (.node j cj (.node m cm ml km2 mr) kj rr)) :=
        fun a ha => hctxT a (by simp [ctxIdxs, ha])
      have hndctx : (ctxIdxs (f :: ctx')).Nodup :=
        (List.nodup_append.1 ((idxs_plug_perm _ _).nodup_iff.1 hnd)).1
      have hfi_sib : f.i ∉ idxs f.sib := by
        have h2 := hndctx
        simp only [ctxIdxs, List.nodup_cons, List.mem_append, not_or] at h2
        exact h2.1.1
      have hsibref_i : ¬ (some i = rootRef f.sib) := by
        cases hsb : f.sib with
        | nil =>
          rw [rootRef_nil]
          intro h
          exact hi0 (Option.some.inj h)
        | node w cw wl kw wr =>
          rw [rootRef_node]
          intro h
          have hw : w ∈ idxs f.sib := by simp [hsb, idxs]
          exact (hsib_nT w hw) ((Option.some.inj h) ▸ by simp [idxs])
      cases hfs : f.side
      all_goals (
        simp only [frameRec, hfs] at cellF
        cases hrun : leftRotate s i with
        | error e =>
          rw [leftRotate] at hrun
          simp [getN, deref, derefIdx, okBind, errBind, cellI, cellJ, cellM,
            cellF, updN_get, hij, Ne.symm hij, hmi, Ne.symm hmi, hmj,
            Ne.symm hmj, hm0, hfi_i, Ne.symm hfi_i, hfi_j, Ne.symm hfi_j,
            hfi_m, Ne.symm hfi_m, hsibref_i, rootRef_nil, rootRef_node,
            updN_root] at hrun
        | ok sF =>
          rw [leftRotate] at hrun
          simp [getN, deref, derefIdx, okBind, errBind, cellI, cellJ, cellM,
            cellF, updN_get, hij, Ne.symm hij, hmi, Ne.symm hmi, hmj,
            Ne.symm hmj, hm0, hfi_i, Ne.symm hfi_i, hfi_j, Ne.symm hfi_j,
            hfi_m, Ne.symm hfi_m, hsibref_i, rootRef_nil, rootRef_node,
            updN_root] at hrun
          have cFi : sF.nodes[i]? = some ⟨ki, ci, rootRef l, some m, some j⟩ := by
            rw [← hrun]
            simp [updN_get, cellI, hij, Ne.symm hij, hmi, Ne.symm hmi, hfi_i,
              rootRef_node]
          have cFj : sF.nodes[j]? = some ⟨kj, cj, some i, rootRef rr, some f.i⟩ := by
            rw [← hrun]
            simp [updN_get, cellJ, hij, Ne.symm hij, hmj, Ne.symm hmj, hfi_j]
          have cFm : sF.nodes[m]? = some ⟨km2, cm, rootRef ml, rootRef mr, some i⟩ := by
            rw [← hrun]
            simp [updN_get, cellM, hmi, Ne.symm hmi, hmj, Ne.symm hmj,
              hfi_m, Ne.symm hfi_m]
          have cFf : sF.nodes[f.i]? =
              some (frameRec f (some j) (holeParAux ctx' none)) := by
            rw [← hrun]
            simp [updN_get, cellF, frameRec, hfs, holeParAux, Ne.symm hfi_i,
              Ne.symm hfi_j, hfi_i, hfi_m, Ne.symm hfi_m]
          have agree : ∀ a : Nat, a ≠ i → a ≠ j → a ≠ m → a ≠ f.i →
              sF.nodes[a]? = s.nodes[a]? := by
            intro a hai haj ham haf
            have h1 : ¬ i = a := fun h => hai h.symm
            have h2 : ¬ j = a := fun h => haj h.symm
            have h3 : ¬ m = a := fun h => ham h.symm
            have h4 : ¬ f.i = a := fun h => haf h.symm
            rw [← hrun]
            simp [updN_get, h1, h2, h3, h4]
          have rootF : sF.root = s.root := by
            rw [← hrun]; simp [updN_root]
          have lenF : sF.nodes.length = s.nodes.length := by
            rw [← hrun]; simp [updN_length]
          refine ⟨sF, rfl, ⟨?_, ?_, ?_, ?_, ?_⟩, lenF, ?_⟩
          · rw [rootF, hroot]
            exact rootIdx_plug_cons _ _ _ _
          · refine reprB_plug_update (q := ctx')
              (t := plug1 f (.node i ci l ki
                (.node j cj (.node m cm ml km2 mr) kj rr)))
              (u := plug1 f (.node j cj
                (.node i ci l ki (.node m cm ml km2 mr)) kj rr))
              hrep0 (by rw [rootRef_plug1, rootRef_plug1]) ?_ ?_ hnd
            · rw [reprB_plug1_iff]
              refine ⟨by simpa [rootRef_node] using cFf, hfi0, ?_, ?_⟩
              · rw [reprB_node_iff]
                refine ⟨by simpa [rootRef_node] using cFj, hj0, ?_, ?_⟩
                · rw [reprB_node_iff]
                  refine ⟨by simpa [rootRef_node] using cFi, hi0, ?_, ?_⟩
                  · rw [reprB_congr (s := s) (fun a ha => agree a
                      (fun h => hil (h ▸ ha)) (fun h => hjl (h ▸ ha))
                      (fun h => hdisjltj m (h ▸ ha) (by simp [idxs]))
                      (fun h => hfT (by simp [idxs, ← h, ha])))]
                    exact hrl_l
                  · rw [reprB_node_iff]
                    refine ⟨cFm, hm0, ?_, ?_⟩
                    · rw [reprB_congr (s := s) (fun a ha => agree a
                        (fun h => hirl (h ▸ hml_rl a ha))
                        (fun h => hjrl (h ▸ hml_rl a ha))
                        (fun h => hm_ml (h ▸ ha))
                        (fun h => hfT (by simp [idxs, ← h, ha])))]
                      exact hrml
                    · rw [reprB_congr (s := s) (fun a ha => agree a
                        (fun h => hirl (h ▸ hmr_rl a ha))
                        (fun h => hjrl (h ▸ hmr_rl a ha))
                        (fun h => hm_mr (h ▸ ha))
                        (fun h => hfT (by simp [idxs, ← h, ha])))]
                      exact hrmr
                · rw [reprB_congr (s := s) (fun a ha => agree a
                    (fun h => hirr (h ▸ ha)) (fun h => hjrr (h ▸ ha))
                    (fun h => hdisjrlrr m (by simp [idxs]) (h ▸ ha))
                    (fun h => hfT (by simp [idxs, ← h, ha])))]
                  exact hrep_rr
              · rw [reprB_congr (s := s) (fun a ha => agree a
                  (fun h => (hsib_nT a ha) (h ▸ by simp [idxs]))
                  (fun h => (hsib_nT a ha) (h ▸ by simp [idxs]))
                  (fun h => (hsib_nT a ha) (h ▸ by simp [idxs]))
                  (fun h => hfi_sib (h ▸ ha)))]
                exact hrep_sib
            · intro a ha
              have h1 : a ≠ f.i := fun h => ha (mem_idxs_plug1.2 (Or.inl h))
              have h2 : a ∉ idxs (ITree.node i ci l ki
                  (.node j cj (.node m cm ml km2 mr) kj rr)) :=
                fun h => ha (mem_idxs_plug1.2 (Or.inr (Or.inr h)))
              exact agree a (fun h => h2 (h ▸ by simp [idxs]))
                (fun h => h2 (h ▸ by simp [idxs]))
                (fun h => h2 (h ▸ by simp [idxs])) h1
          · rw [agree 0 (Ne.symm hi0) (Ne.symm hj0) (Ne.symm hm0) (Ne.symm hfi0)]
            exact hnil0
          · exact (plug_perm_plug _ hpermT).nodup_iff.2 hnd
          · intro a ha
            rw [lenF]
            exact hbnd a ((plug_perm_plug _ hpermT).subset ha)
          · rw [← hrun]
            exact .updN (by simp) (.updN (by simp) (.updN (by simp)
              (.updN (by simp) (.updN (by simp) (.updN (by simp) (.refl s))))))
        )
theorem rightRotate_ok {s : RedBlackTree} {q : List Frame} {i : Nat}
    {ci : Color} {j : Nat} {cj : Color} {ll : ITree} {kj : Int}
    {lr : ITree} {ki : Int} {r : ITree}
    (hrep : ReprSt s (plug q (.node i ci (.node j cj ll kj lr) ki r))) :
    ∃ s', rightRotate s i = .ok s' ∧
      ReprSt s' (plug q (.node j cj ll kj (.node i ci lr ki r))) ∧
      s'.nodes.length = s.nodes.length ∧ KCEq s' s := by
  obtain ⟨hroot, hrep0, hnil0, hnd, hbnd⟩ := hrep
  have hndT := (nodup_plug_parts hnd).1
  have hctxT := (nodup_plug_parts hnd).2
  rw [nodup_node_iff] at hndT
  obtain ⟨hitj, hir, hndtj, hndr, hdisjtjr⟩ := hndT
  rw [nodup_node_iff] at hndtj
  obtain ⟨hjll, hjlr, hndll, hndlr, hdisjlllr⟩ := hndtj
  have hij : i ≠ j := fun h => hitj (h ▸ (by simp [idxs]))
  have hill : i ∉ idxs ll := fun h => hitj (by simp [idxs, h])
  have hilr : i ∉ idxs lr := fun h => hitj (by simp [idxs, h])
  have hjr : j ∉ idxs r := fun h => hdisjtjr j (by simp [idxs]) h
  have hin := reprB_plug_inner hrep0
  rw [reprB_node_iff] at hin
  obtain ⟨cellI, hi0, hrtj, hr_r⟩ := hin
  rw [reprB_node_iff] at hrtj
  obtain ⟨cellJ, hj0, hrep_ll, hrep_lr⟩ := hrtj
  have hpermT := idxs_rightRotate_perm i ci j cj ll kj lr ki r
  cases lr with
  | nil =>
    cases q with
    | nil =>
      simp only [holeParAux] at cellI cellJ hr_r hrep_ll hrep_lr
      cases hrun : rightRotate s i with
      | error e =>
        rw [rightRotate] at hrun
        simp [getN, deref, derefIdx, okBind, errBind, cellI, cellJ, updN_get,
          hij, Ne.symm hij, rootRef_nil, rootRef_node, updN_root] at hrun
      | ok sF =>
        rw [rightRotate] at hrun
        simp [getN, deref, derefIdx, okBind, errBind, cellI, cellJ, updN_get,
          hij, Ne.symm hij, rootRef_nil, rootRef_node, updN_root] at hrun
        have cFi : sF.nodes[i]? = some ⟨ki, ci, some 0, rootRef r, some j⟩ := by
          rw [← hrun]
          simp [updN_get, cellI, hij, Ne.symm hij, rootRef_node]
        have cFj : sF.nodes[j]? = some ⟨kj, cj, rootRef ll, some i, none⟩ := by
          rw [← hrun]
          simp [updN_get, cellJ, hij, Ne.symm hij]
        have agree : ∀ a : Nat, a ≠ i → a ≠ j → sF.nodes[a]? = s.nodes[a]? := by
          intro a hai haj
          have h1 : ¬ i = a := fun h => hai h.symm
          have h2 : ¬ j = a := fun h => haj h.symm
          rw [← hrun]
          simp [updN_get, h1, h2]
        have rootF : sF.root = j := by
          rw [← hrun]; simp [updN_root]
        have lenF : sF.nodes.length = s.nodes.length := by
          rw [← hrun]; simp [updN_length]
        refine ⟨sF, rfl, ⟨?_, ?_, ?_, ?_, ?_⟩, lenF, ?_⟩
        · simpa [plug, rootIdx_node] using rootF
        · show reprB sF (.node j cj ll kj (.node i ci .nil ki r)) none = true
          rw [reprB_node_iff]
          refine ⟨by simpa [rootRef_node, rootRef_nil] using cFj, hj0, ?_, ?_⟩
          · rw [reprB_congr (s := s) (fun a ha =>
              agree a (fun h => hill (h ▸ ha)) (fun h => hjll (h ▸ ha)))]
            exact hrep_ll
          · rw [reprB_node_iff]
            refine ⟨by simpa [rootRef_nil] using cFi, hi0, rfl, ?_⟩
            rw [reprB_congr (s := s) (fun a ha =>
              agree a (fun h => hir (h ▸ ha)) (fun h => hjr (h ▸ ha)))]
            exact hr_r
        · rw [agree 0 (Ne.symm hi0) (Ne.symm hj0)]; exact hnil0
        · exact hpermT.nodup_iff.2 hnd
        · intro a ha
          rw [lenF]
          exact hbnd a (hpermT.subset ha)
        · rw [← hrun]
          exact .updN (by simp) (.updN (by simp)
            (.updN (by simp) (.updN (by simp) (.refl s))))
    | cons f ctx' =>
      have hcons := reprB_plug_cons_read (q := ctx') hrep0
      obtain ⟨cellF, hfi0, _, hrep_sib⟩ := hcons
      simp only [holeParAux] at cellI cellJ hr_r hrep_ll hrep_lr cellF
      simp only [rootRef_node] at cellF
      have hfT : f.i ∉ idxs (ITree.node i ci (.node j cj ll kj .nil) ki r) :=
        hctxT f.i (by simp [ctxIdxs])
      have hfi_i : f.i ≠ i := fun h => hfT (h ▸ by simp [idxs])
      have hfi_j : f.i ≠ j := fun h => hfT (h ▸ by simp [idxs])
      have hsib_nT : ∀ a ∈ idxs f.sib,
          a ∉ idxs (ITree.node i ci (.node j cj ll kj .nil) ki r) :=
        fun a ha => hctxT a (by simp [ctxIdxs, ha])
      have hndctx : (ctxIdxs (f :: ctx')).Nodup :=
        (List.nodup_append.1 ((idxs_plug_perm _ _).nodup_iff.1 hnd)).1
      have hfi_sib : f.i ∉ idxs f.sib := by
        have h2 := hndctx
        simp only [ctxIdxs, List.nodup_cons, List.mem_append, not_or] at h2
        exact h2.1.1
      have hsibref_i : ¬ (some i = rootRef f.sib) := by
        cases hsb : f.sib with
        | nil =>
          rw [rootRef_nil]
          intro h
          exact hi0 (Option.some.inj h)
        | node w cw wl kw wr =>
          rw [rootRef_node]
          intro h
          have hw : w ∈ idxs f.sib := by simp [hsb, idxs]
          exact (hsib_nT w hw) ((Option.some.inj h) ▸ by simp [idxs])
      cases hfs : f.side
      all_goals (
        simp only [frameRec, hfs] at cellF
        cases hrun : rightRotate s i with
        | error e =>
          rw [rightRotate] at hrun
          simp [getN, deref, derefIdx, okBind, errBind, cellI, cellJ, cellF,
            updN_get, hij, Ne.symm hij, hfi_i, Ne.symm hfi_i, hfi_j,
            Ne.symm hfi_j, hsibref_i, rootRef_nil, rootRef_node,
            updN_root] at hrun
        | ok sF =>
          rw [rightRotate] at hrun
          simp [getN, deref, derefIdx, okBind, errBind, cellI, cellJ, cellF,
            updN_get, hij, Ne.symm hij, hfi_i, Ne.symm hfi_i, hfi_j,
            Ne.symm hfi_j, hsibref_i, rootRef_nil, rootRef_node,
            updN_root] at hrun
          have cFi : sF.nodes[i]? = some ⟨ki, ci, some 0, rootRef r, some j⟩ := by
            rw [← hrun]
            simp [updN_get, cellI, hij, Ne.symm hij, hfi_i, rootRef_node]
          have cFj : sF.nodes[j]? = some ⟨kj, cj, rootRef ll, some i, some f.i⟩ := by
            rw [← hrun]
            simp [updN_get, cellJ, hij, Ne.symm hij, hfi_j]
          have cFf : sF.nodes[f.i]? =
              some (frameRec f (some j) (holeParAux ctx' none)) := by
            rw [← hrun]
            simp [updN_get, cellF, frameRec, hfs, holeParAux, Ne.symm hfi_i,
              Ne.symm hfi_j, hfi_i]
          have agree : ∀ a : Nat, a ≠ i → a ≠ j → a ≠ f.i →
              sF.nodes[a]? = s.nodes[a]? := by
            intro a hai haj haf
            have h1 : ¬ i = a := fun h => hai h.symm
            have h2 : ¬ j = a := fun h => haj h.symm
            have h3 : ¬ f.i = a := fun h => haf h.symm
            rw [← hrun]
            simp [updN_get, h1, h2, h3]
          have rootF : sF.root = s.root := by
            rw [← hrun]; simp [updN_root]
          have lenF : sF.nodes.length = s.nodes.length := by
            rw [← hrun]; simp [updN_length]
          refine ⟨sF, rfl, ⟨?_, ?_, ?_, ?_, ?_⟩, lenF, ?_⟩
          · rw [rootF, hroot]
            exact rootIdx_plug_cons _ _ _ _
          · refine reprB_plug_update (q := ctx')
              (t := plug1 f (.node i ci (.node j cj ll kj .nil) ki r))
              (u := plug1 f (.node j cj ll kj (.node i ci .nil ki r)))
              hrep0 (by rw [rootRef_plug1, rootRef_plug1]) ?_ ?_ hnd
            · rw [reprB_plug1_iff]
              refine ⟨by simpa [rootRef_node] using cFf, hfi0, ?_, ?_⟩
              · rw [reprB_node_iff]
                refine ⟨by simpa [rootRef_node, rootRef_nil] using cFj, hj0, ?_, ?_⟩
                · rw [reprB_congr (s := s) (fun a ha => agree a
                    (fun h => hill (h ▸ ha)) (fun h => hjll (h ▸ ha))
                    (fun h => hfT (by simp [idxs, ← h, ha])))]
                  exact hrep_ll
                · rw [reprB_node_iff]
                  refine ⟨by simpa [rootRef_nil] using cFi, hi0, rfl, ?_⟩
                  rw [reprB_congr (s := s) (fun a ha => agree a
                    (fun h => hir (h ▸ ha)) (fun h => hjr (h ▸ ha))
                    (fun h => hfT (by simp [idxs, ← h, ha])))]
                  exact hr_r
              · rw [reprB_congr (s := s) (fun a ha => agree a
                  (fun h => (hsib_nT a ha) (h ▸ by simp [idxs]))
                  (fun h => (hsib_nT a ha) (h ▸ by simp [idxs]))
                  (fun h => hfi_sib (h ▸ ha)))]
                exact hrep_sib
            · intro a ha
              have h1 : a ≠ f.i := fun h => ha (mem_idxs_plug1.2 (Or.inl h))
              have h2 : a ∉ idxs (ITree.node i ci (.node j cj ll kj .nil) ki r) :=
                fun h => ha (mem_idxs_plug1.2 (Or.inr (Or.inr h)))
              exact agree a (fun h => h2 (h ▸ by simp [idxs]))
                (fun h => h2 (h ▸ by simp [idxs])) h1
          · rw [agree 0 (Ne.symm hi0) (Ne.symm hj0) (Ne.symm hfi0)]
            exact hnil0
          · exact (plug_perm_plug _ hpermT).nodup_iff.2 hnd
          · intro a ha
            rw [lenF]
            exact hbnd a ((plug_perm_plug _ hpermT).subset ha)
          · rw [← hrun]
            exact .updN (by simp) (.updN (by simp) (.updN (by simp)
              (.updN (by simp) (.updN (by simp) (.refl s)))))
        )
  | node m cm ml km2 mr =>
    rw [reprB_node_iff] at hrep_lr
    obtain ⟨cellM, hm0, hrml, hrmr⟩ := hrep_lr
    rw [nodup_node_iff] at hndlr
    obtain ⟨hm_ml, hm_mr, hndml, hndmr, hdisjmlmr⟩ := hndlr
    have hmi : m ≠ i := fun h => hilr (h ▸ by simp [idxs])
    have hmj : m ≠ j := fun h => hjlr (h ▸ by simp [idxs])
    have hml_lr : ∀ a ∈ idxs ml, a ∈ idxs (ITree.node m cm ml km2 mr) :=
      fun a ha => by simp [idxs, ha]
    have hmr_lr : ∀ a ∈ idxs mr, a ∈ idxs (ITree.node m cm ml km2 mr) :=
      fun a ha => by simp [idxs, ha]
    cases q with
    | nil =>
      simp only [holeParAux] at cellI cellJ hr_r hrmr hrml cellM hrep_ll
      cases hrun : rightRotate s i with
      | error e =>
        rw [rightRotate] at hrun
        simp [getN, deref, derefIdx, okBind, errBind, cellI, cellJ, cellM,
          updN_get, hij, Ne.symm hij, hmi, Ne.symm hmi, hmj, Ne.symm hmj,
          hm0, rootRef_nil, rootRef_node, updN_root] at hrun
      | ok sF =>
        rw [rightRotate] at hrun
        simp [getN, deref, derefIdx, okBind, errBind, cellI, cellJ, cellM,
          updN_get, hij, Ne.symm hij, hmi, Ne.symm hmi, hmj, Ne.symm hmj,
          hm0, rootRef_nil, rootRef_node, updN_root] at hrun
        have cFi : sF.nodes[i]? = some ⟨ki, ci, some m, rootRef r, some j⟩ := by
          rw [← hrun]
          simp [updN_get, cellI, hij, Ne.symm hij, hmi, Ne.symm hmi, rootRef_node]
        have cFj : sF.nodes[j]? = some ⟨kj, cj, rootRef ll, some i, none⟩ := by
          rw [← hrun]
          simp [updN_get, cellJ, hij, Ne.symm hij, hmj, Ne.symm hmj]
        have cFm : sF.nodes[m]? = some ⟨km2, cm, rootRef ml, rootRef mr, some i⟩ := by
          rw [← hrun]
          simp [updN_get, cellM, hmi, Ne.symm hmi, hmj, Ne.symm hmj]
        have agree : ∀ a : Nat, a ≠ i → a ≠ j → a ≠ m →
            sF.nodes[a]? = s.nodes[a]? := by
          intro a hai haj ham
          have h1 : ¬ i = a := fun h => hai h.symm
          have h2 : ¬ j = a := fun h => haj h.symm
          have h3 : ¬ m = a := fun h => ham h.symm
          rw [← hrun]
          simp [updN_get, h1, h2, h3]
        have rootF : sF.root = j := by
          rw [← hrun]; simp [updN_root]
        have lenF : sF.nodes.length = s.nodes.length := by
          rw [← hrun]; simp [updN_length]
        refine ⟨sF, rfl, ⟨?_, ?_, ?_, ?_, ?_⟩, lenF, ?_⟩
        · simpa [plug, rootIdx_node] using rootF
        · show reprB sF
            (.node j cj ll kj (.node i ci (.node m cm ml km2 mr) ki r)) none = true
          rw [reprB_node_iff]
          refine ⟨by simpa [rootRef_node] using cFj, hj0, ?_, ?_⟩
          · rw [reprB_congr (s := s) (fun a ha => agree a
              (fun h => hill (h ▸ ha)) (fun h => hjll (h ▸ ha))
              (fun h => hdisjlllr m (h ▸ ha) (by simp [idxs])))]
            exact hrep_ll
          · rw [reprB_node_iff]
            refine ⟨by simpa [rootRef_node] using cFi, hi0, ?_, ?_⟩
            · rw [reprB_node_iff]
              refine ⟨cFm, hm0, ?_, ?_⟩
              · rw [reprB_congr (s := s) (fun a ha => agree a
                  (fun h => hilr (h ▸ hml_lr a ha)) (fun h => hjlr (h ▸ hml_lr a ha))
                  (fun h => hm_ml (h ▸ ha)))]
                exact hrml
              · rw [reprB_congr (s := s) (fun a ha => agree a
                  (fun h => hilr (h ▸ hmr_lr a ha)) (fun h => hjlr (h ▸ hmr_lr a ha))
                  (fun h => hm_mr (h ▸ ha)))]
                exact hrmr
            · rw [reprB_congr (s := s) (fun a ha => agree a
                (fun h => hir (h ▸ ha)) (fun h => hjr (h ▸ ha))
                (fun h => hdisjtjr m (by simp [idxs]) (h ▸ ha)))]
              exact hr_r
        · rw [agree 0 (Ne.symm hi0) (Ne.symm hj0) (Ne.symm hm0)]
          exact hnil0
        · exact hpermT.nodup_iff.2 hnd
        · intro a ha
          rw [lenF]
          exact hbnd a (hpermT.subset ha)
        · rw [← hrun]
          exact .updN (by simp) (.updN (by simp) (.updN (by simp)
            (.updN (by simp) (.updN (by simp) (.refl s)))))
    | cons f ctx' =>
      have hcons := reprB_plug_cons_read (q := ctx') hrep0
      obtain ⟨cellF, hfi0, _, hrep_sib⟩ := hcons
      simp only [holeParAux] at cellI cellJ hr_r hrmr hrml cellM hrep_ll cellF
      simp only [rootRef_node] at cellF
      have hfT : f.i ∉ idxs (ITree.node i ci
          (.node j cj ll kj (.node m cm ml km2 mr)) ki r) :=
        hctxT f.i (by simp [ctxIdxs])
      have hfi_i : f.i ≠ i := fun h => hfT (h ▸ by simp [idxs])
      have hfi_j : f.i ≠ j := fun h => hfT (h ▸ by simp [idxs])
      have hfi_m : f.i ≠ m := fun h => hfT (h ▸ by simp [idxs])
      have hsib_nT : ∀ a ∈ idxs f.sib, a ∉ idxs (ITree.node i ci
          (.node j cj ll kj (.node m cm ml km2 mr)) ki r) :=
        fun a ha => hctxT a (by simp [ctxIdxs, ha])
      have hndctx : (ctxIdxs (f :: ctx')).Nodup :=
        (List.nodup_append.1 ((idxs_plug_perm _ _).nodup_iff.1 hnd)).1
      have hfi_sib : f.i ∉ idxs f.sib := by
        have h2 := hndctx
        simp only [ctxIdxs, List.nodup_cons, List.mem_append, not_or] at h2
        exact h2.1.1
      have hsibref_i : ¬ (some i = rootRef f.sib) := by
        cases hsb : f.sib with
        | nil =>
          rw [rootRef_nil]
          intro h
          exact hi0 (Option.some.inj h)
        | node w cw wl kw wr =>
          rw [rootRef_node]
          intro h
          have hw : w ∈ idxs f.sib := by simp [hsb, idxs]
          exact (hsib_nT w hw) ((Option.some.inj h) ▸ by simp [idxs])
      cases hfs : f.side
      all_goals (
        simp only [frameRec, hfs] at cellF
        cases hrun : rightRotate s i with
        | error e =>
          rw [rightRotate] at hrun
          simp [getN, deref, derefIdx, okBind, errBind, cellI, cellJ, cellM,
            cellF, updN_get, hij, Ne.symm hij, hmi, Ne.symm hmi, hmj,
            Ne.symm hmj, hm0, hfi_i, Ne.symm hfi_i, hfi_j, Ne.symm hfi_j,
            hfi_m, Ne.symm hfi_m, hsibref_i, rootRef_nil, rootRef_node,
            updN_root] at hrun
        | ok sF =>
          rw [rightRotate] at hrun
          simp [getN, deref, derefIdx, okBind, errBind, cellI, cellJ, cellM,
            cellF, updN_get, hij, Ne.symm hij, hmi, Ne.symm hmi, hmj,
            Ne.symm hmj, hm0, hfi_i, Ne.symm hfi_i, hfi_j, Ne.symm hfi_j,
            hfi_m, Ne.symm hfi_m, hsibref_i, rootRef_nil, rootRef_node,
            updN_root] at hrun
          have cFi : sF.nodes[i]? = some ⟨ki, ci, some m, rootRef r, some j⟩ := by
            rw [← hrun]
            simp [updN_get, cellI, hij, Ne.symm hij, hmi, Ne.symm hmi, hfi_i,
              rootRef_node]
          have cFj : sF.nodes[j]? = some ⟨kj, cj, rootRef ll, some i, some f.i⟩ := by
            rw [← hrun]
            simp [updN_get, cellJ, hij, Ne.symm hij, hmj, Ne.symm hmj, hfi_j]
          have cFm : sF.nodes[m]? = some ⟨km2, cm, rootRef ml, rootRef mr, some i⟩ := by
            rw [← hrun]
            simp [updN_get, cellM, hmi, Ne.symm hmi, hmj, Ne.symm hmj,
              hfi_m, Ne.symm hfi_m]
          have cFf : sF.nodes[f.i]? =
              some (frameRec f (some j) (holeParAux ctx' none)) := by
            rw [← hrun]
            simp [updN_get, cellF, frameRec, hfs, holeParAux, Ne.symm hfi_i,
              Ne.symm hfi_j, hfi_i, hfi_m, Ne.symm hfi_m]
          have agree : ∀ a : Nat, a ≠ i → a ≠ j → a ≠ m → a ≠ f.i →
              sF.nodes[a]? = s.nodes[a]? := by
            intro a hai haj ham haf
            have h1 : ¬ i = a := fun h => hai h.symm
            have h2 : ¬ j = a := fun h => haj h.symm
            have h3 : ¬ m = a := fun h => ham h.symm
            have h4 : ¬ f.i = a := fun h => haf h.symm
            rw [← hrun]
            simp [updN_get, h1, h2, h3, h4]
          have rootF : sF.root = s.root := by
            rw [← hrun]; simp [updN_root]
          have lenF : sF.nodes.length = s.nodes.length := by
            rw [← hrun]; simp [updN_length]
          refine ⟨sF, rfl, ⟨?_, ?_, ?_, ?_, ?_⟩, lenF, ?_⟩
          · rw [rootF, hroot]
            exact rootIdx_plug_cons _ _ _ _
          · refine reprB_plug_update (q := ctx')
              (t := plug1 f (.node i ci
                (.node j cj ll kj (.node m cm ml km2 mr)) ki r))
              (u := plug1 f (.node j cj ll kj
                (.node i ci (.node m cm ml km2 mr) ki r)))
              hrep0 (by rw [rootRef_plug1, rootRef_plug1]) ?_ ?_ hnd
            · rw [reprB_plug1_iff]
              refine ⟨by simpa [rootRef_node] using cFf, hfi0, ?_, ?_⟩
              · rw [reprB_node_iff]
                refine ⟨by simpa [rootRef_node] using cFj, hj0, ?_, ?_⟩
                · rw [reprB_congr (s := s) (fun a ha => agree a
                    (fun h => hill (h ▸ ha)) (fun h => hjll (h ▸ ha))
                    (fun h => hdisjlllr m (h ▸ ha) (by simp [idxs]))
                    (fun h => hfT (by simp [idxs, ← h, ha])))]
                  exact hrep_ll
                · rw [reprB_node_iff]
                  refine ⟨by simpa [rootRef_node] using cFi, hi0, ?_, ?_⟩
                  · rw [reprB_node_iff]
                    refine ⟨cFm, hm0, ?_, ?_⟩
                    · rw [reprB_congr (s := s) (fun a ha => agree a
                        (fun h => hilr (h ▸ hml_lr a ha))
                        (fun h => hjlr (h ▸ hml_lr a ha))
                        (fun h => hm_ml (h ▸ ha))
                        (fun h => hfT (by simp [idxs, ← h, ha])))]
                      exact hrml
                    · rw [reprB_congr (s := s) (fun a ha => agree a
                        (fun h => hilr (h ▸ hmr_lr a ha))
                        (fun h => hjlr (h ▸ hmr_lr a ha))
                        (fun h => hm_mr (h ▸ ha))
                        (fun h => hfT (by simp [idxs, ← h, ha])))]
                      exact hrmr
                  · rw [reprB_congr (s := s) (fun a ha => agree a
                      (fun h => hir (h ▸ ha)) (fun h => hjr (h ▸ ha))
                      (fun h => hdisjtjr m (by simp [idxs]) (h ▸ ha))
                      (fun h => hfT (by simp [idxs, ← h, ha])))]
                    exact hr_r
              · rw [reprB_congr (s := s) (fun a ha => agree a
                  (fun h => (hsib_nT a ha) (h ▸ by simp [idxs]))
                  (fun h => (hsib_nT a ha) (h ▸ by simp [idxs]))
                  (fun h => (hsib_nT a ha) (h ▸ by simp [idxs]))
                  (fun h => hfi_sib (h ▸ ha)))]
                exact hrep_sib
            · intro a ha
              have h1 : a ≠ f.i := fun h => ha (mem_idxs_plug1.2 (Or.inl h))
              have h2 : a ∉ idxs (ITree.node i ci
                  (.node j cj ll kj (.node m cm ml km2 mr)) ki r) :=
                fun h => ha (mem_idxs_plug1.2 (Or.inr (Or.inr h)))
              exact agree a (fun h => h2 (h ▸ by simp [idxs]))
                (fun h => h2 (h ▸ by simp [idxs]))
                (fun h => h2 (h ▸ by simp [idxs])) h1
          · rw [agree 0 (Ne.symm hi0) (Ne.symm hj0) (Ne.symm hm0) (Ne.symm hfi0)]
            exact hnil0
          · exact (plug_perm_plug _ hpermT).nodup_iff.2 hnd
          · intro a ha
            rw [lenF]
            exact hbnd a ((plug_perm_plug _ hpermT).subset ha)
          · rw [← hrun]
            exact .updN (by simp) (.updN (by simp) (.updN (by simp)
              (.updN (by simp) (.updN (by simp) (.updN (by simp) (.refl s))))))
        )

/-!  ## Pure red-black / search-tree composition lemmas -/

theorem rootBlack_iff {t : ITree} : rootBlack t = true ↔ rootColor t = Color.BLACK := by
  cases t <;> simp [rootBlack, rootColor]

theorem rootColor_plug1 (f : Frame) (t : ITree) :
    rootColor (plug1 f t) = f.c := by
  cases hs : f.side <;> simp [plug1, hs, rootColor]

theorem plug1_L {f : Frame} (h : f.side = Dir.L) (t : ITree) :
    plug1 f t = .node f.i f.c t f.k f.sib := by
  simp [plug1, h]

theorem plug1_R {f : Frame} (h : f.side = Dir.R) (t : ITree) :
    plug1 f t = .node f.i f.c f.sib f.k t := by
  simp [plug1, h]

theorem plug_BSTb : ∀ (q : List Frame) (t : ITree) (lo hi : Option Int),
    CtxBST q lo hi → BSTb t lo hi = true → BSTb (plug q t) none none = true := by
  intro q
  induction q with
  | nil =>
    intro t lo hi hctx hbst
    obtain ⟨rfl, rfl⟩ := hctx
    exact hbst
  | cons f q ih =>
    intro t lo hi hctx hbst
    rw [plug_cons]
    cases hs : f.side
    · rw [CtxBST] at hctx
      rw [hs] at hctx
      obtain ⟨rfl, hi', hlk, hkh, hsib, hctx'⟩ := hctx
      refine ih (plug1 f t) lo hi' hctx' ?_
      rw [plug1_L hs]
      simp [BSTb, hlk, hkh, hsib, hbst]
    · rw [CtxBST] at hctx
      rw [hs] at hctx
      obtain ⟨rfl, lo', hlk, hkh, hsib, hctx'⟩ := hctx
      refine ih (plug1 f t) lo' hi hctx' ?_
      rw [plug1_R hs]
      simp [BSTb, hlk, hkh, hsib, hbst]

theorem plug_bh_red : ∀ (q : List Frame) (t : ITree) (h : Nat),
    CtxRB q h (rootColor t) → bhOk t = some h → redInv t = true →
    (∃ H, bhOk (plug q t) = some H) ∧ redInv (plug q t) = true ∧
      rootBlack (plug q t) = true := by
  intro q
  induction q with
  | nil =>
    intro t h hctx hbh hred
    exact ⟨⟨h, hbh⟩, hred, rootBlack_iff.2 hctx⟩
  | cons f q ih =>
    intro t h hctx hbh hred
    rw [CtxRB] at hctx
    obtain ⟨hsibbh, hsibred, hredc, hctx'⟩ := hctx
    rw [plug_cons]
    have hc : rootColor (plug1 f t) = f.c := rootColor_plug1 f t
    have hbh' : bhOk (plug1 f t) = some (h + bd f.c) := by
      cases hs : f.side
      · rw [plug1_L hs]
        simp [bhOk, hbh, hsibbh]
      · rw [plug1_R hs]
        simp [bhOk, hbh, hsibbh]
    have hred' : redInv (plug1 f t) = true := by
      cases hs : f.side
      · rw [plug1_L hs]
        cases hfc : f.c
        · obtain ⟨hcin, hsb⟩ := hredc hfc
          simp [redInv, hred, hsibred, hfc, hsb, rootBlack_iff.2 hcin]
        · simp [redInv, hred, hsibred, hfc]
      · rw [plug1_R hs]
        cases hfc : f.c
        · obtain ⟨hcin, hsb⟩ := hredc hfc
          simp [redInv, hred, hsibred, hfc, hsb, rootBlack_iff.2 hcin]
        · simp [redInv, hred, hsibred, hfc]
    exact ih (plug1 f t) (h + bd f.c) (hc ▸ hctx') hbh' hred'

theorem inorder_plug1 (f : Frame) (t : ITree) :
    inorderI (plug1 f t) =
      match f.side with
      | .L => inorderI t ++ f.k :: inorderI f.sib
      | .R => inorderI f.sib ++ f.k :: inorderI t := by
  cases hs : f.side <;> simp [plug1, hs, inorderI]

theorem inorder_plug_congr : ∀ (q : List Frame) {t t' : ITree},
    inorderI t' = inorderI t → inorderI (plug q t') = inorderI (plug q t) := by
  intro q
  induction q with
  | nil => intro t t' h; exact h
  | cons f q ih =>
    intro t t' h
    rw [plug_cons, plug_cons]
    refine ih ?_
    rw [inorder_plug1, inorder_plug1, h]

theorem inorder_rotL (i : Nat) (ci : Color) (l : ITree) (ki : Int) (j : Nat)
    (cj : Color) (rl : ITree) (kj : Int) (rr : ITree) :
    inorderI (.node j cj (.node i ci l ki rl) kj rr) =
      inorderI (.node i ci l ki (.node j cj rl kj rr)) := by
  simp [inorderI]

theorem inorder_rotR (i : Nat) (ci : Color) (j : Nat) (cj : Color)
    (ll : ITree) (kj : Int) (lr : ITree) (ki : Int) (r : ITree) :
    inorderI (.node j cj ll kj (.node i ci lr ki r)) =
      inorderI (.node i ci (.node j cj ll kj lr) ki r) := by
  simp [inorderI]

/-!  ## ReprSt access and recoloring -/

theorem ReprSt_read_hole {s : RedBlackTree} {q : List Frame} {i : Nat}
    {c : Color} {l : ITree} {k : Int} {r : ITree}
    (h : ReprSt s (plug q (.node i c l k r))) :
    s.nodes[i]? = some ⟨k, c, rootRef l, rootRef r, holeParAux q none⟩ ∧ i ≠ 0 := by
  have h2 := reprB_node_iff.1 (reprB_plug_inner h.2.1)
  exact ⟨h2.1, h2.2.1⟩

theorem ReprSt_setColor {s : RedBlackTree} {q : List Frame} {i : Nat}
    {c : Color} {l : ITree} {k : Int} {r : ITree} (c' : Color)
    (h : ReprSt s (plug q (.node i c l k r))) :
    ReprSt (updN s i (fun n => { n with color := c' }))
        (plug q (.node i c' l k r)) ∧
      (updN s i (fun n => { n with color := c' })).nodes.length =
        s.nodes.length := by
  obtain ⟨hroot, hrep, hnil, hnd, hbnd⟩ := h
  obtain ⟨cell, hi0⟩ := ReprSt_read_hole ⟨hroot, hrep, hnil, hnd, hbnd⟩
  have hndT := (nodup_plug_parts hnd).1
  rw [nodup_node_iff] at hndT
  obtain ⟨hil, hir, _, _, _⟩ := hndT
  have hperm : (idxs (ITree.node i c' l k r)).Perm (idxs (ITree.node i c l k r)) :=
    List.Perm.refl _
  refine ⟨⟨?_, ?_, ?_, ?_, ?_⟩, updN_length ..⟩
  · rw [updN_root]
    cases q with
    | nil => exact hroot
    | cons f ctx' => rw [hroot]; exact rootIdx_plug_cons ..
  · refine reprB_plug_update hrep rfl ?_ ?_ hnd
    · rw [reprB_node_iff]
      refine ⟨?_, hi0, ?_, ?_⟩
      · rw [updN_get, if_pos rfl, cell]
        rfl
      · rw [reprB_congr (s := s) (fun a ha => by
          rw [updN_get, if_neg (fun hh => hil (by rw [hh]; exact ha))])]
        exact (reprB_node_iff.1 (reprB_plug_inner hrep)).2.2.1
      · rw [reprB_congr (s := s) (fun a ha => by
          rw [updN_get, if_neg (fun hh => hir (by rw [hh]; exact ha))])]
        exact (reprB_node_iff.1 (reprB_plug_inner hrep)).2.2.2
    · intro a ha
      rw [updN_get, if_neg (fun hh => ha (by rw [← hh]; simp [idxs]))]
  · rw [updN_get, if_neg hi0]
    exact hnil
  · exact (plug_perm_plug q hperm).nodup_iff.2 hnd
  · intro a ha
    rw [updN_length]
    exact hbnd a ((plug_perm_plug q hperm).subset ha)

/-!  ## Frame-level support lemmas for the fix-up loop -/

theorem frameRec_key (f : Frame) (hr par : Option Nat) :
    (frameRec f hr par).key = f.k := by
  cases hs : f.side <;> simp [frameRec, hs]

theorem frameRec_color (f : Frame) (hr par : Option Nat) :
    (frameRec f hr par).color = f.c := by
  cases hs : f.side <;> simp [frameRec, hs]

theorem frameRec_parent (f : Frame) (hr par : Option Nat) :
    (frameRec f hr par).parent = par := by
  cases hs : f.side <;> simp [frameRec, hs]

theorem CtxBST_cons_iff {f : Frame} {q : List Frame} {lo hi : Option Int} :
    CtxBST (f :: q) lo hi ↔
      ∃ lo' hi', CtxBST1 f lo hi lo' hi' ∧ CtxBST q lo' hi' := by
  cases hs : f.side
  · rw [CtxBST, hs]
    constructor
    · rintro ⟨rfl, hi', h1, h2, h3, h4⟩
      exact ⟨lo, hi', by rw [CtxBST1, hs]; exact ⟨rfl, rfl, h1, h2, h3⟩, h4⟩
    · rintro ⟨lo', hi', h1, h4⟩
      rw [CtxBST1, hs] at h1
      obtain ⟨rfl, rfl, h1, h2, h3⟩ := h1
      exact ⟨rfl, hi', h1, h2, h3, h4⟩
  · rw [CtxBST, hs]
    constructor
    · rintro ⟨rfl, lo', h1, h2, h3, h4⟩
      exact ⟨lo', hi, by rw [CtxBST1, hs]; exact ⟨rfl, rfl, h1, h2, h3⟩, h4⟩
    · rintro ⟨lo', hi', h1, h4⟩
      rw [CtxBST1, hs] at h1
      obtain ⟨rfl, rfl, h1, h2, h3⟩ := h1
      exact ⟨rfl, lo', h1, h2, h3, h4⟩

theorem BSTb_plug1 {f : Frame} {lo hi lo' hi' : Option Int} {t : ITree}
    (h1 : CtxBST1 f lo hi lo' hi') (ht : BSTb t lo hi = true) :
    BSTb (plug1 f t) lo' hi' = true := by
  cases hs : f.side
  · rw [CtxBST1, hs] at h1
    obtain ⟨rfl, rfl, h1, h2, h3⟩ := h1
    rw [plug1_L hs]
    simp [BSTb, h1, h2, h3, ht]
  · rw [CtxBST1, hs] at h1
    obtain ⟨rfl, rfl, h1, h2, h3⟩ := h1
    rw [plug1_R hs]
    simp [BSTb, h1, h2, h3, ht]

theorem CtxBST1_recolor {f : Frame} {c' : Color} {lo hi lo' hi' : Option Int}
    (h : CtxBST1 f lo hi lo' hi') : CtxBST1 { f with c := c' } lo hi lo' hi' := by
  cases hs : f.side <;> rw [CtxBST1] at h ⊢ <;> simp only [hs] at h ⊢ <;> exact h

theorem CtxBST1_resib {f : Frame} {sib' : ITree} {lo hi lo' hi' : Option Int}
    (h : CtxBST1 f lo hi lo' hi')
    (hsib : ∀ a b, BSTb sib' a b = BSTb f.sib a b) :
    CtxBST1 { f with sib := sib' } lo hi lo' hi' := by
  cases hs : f.side <;> rw [CtxBST1] at h ⊢ <;> simp only [hs] at h ⊢ <;>
    [exact ⟨h.1, h.2.1, h.2.2.1, h.2.2.2.1, (hsib _ _).trans h.2.2.2.2⟩ ;
     exact ⟨h.1, h.2.1, h.2.2.1, h.2.2.2.1, (hsib _ _).trans h.2.2.2.2⟩]

theorem bhOk_plug1 {f : Frame} {t : ITree} {h : Nat}
    (ht : bhOk t = some h) (hs : bhOk f.sib = some h) :
    bhOk (plug1 f t) = some (h + bd f.c) := by
  cases hside : f.side
  · rw [plug1_L hside]; simp [bhOk, ht, hs]
  · rw [plug1_R hside]; simp [bhOk, ht, hs]

theorem redInv_plug1 {f : Frame} {t : ITree}
    (ht : redInv t = true) (hs : redInv f.sib = true)
    (hc : f.c = Color.RED → rootBlack t = true ∧ rootBlack f.sib = true) :
    redInv (plug1 f t) = true := by
  cases hside : f.side
  · rw [plug1_L hside]
    cases hfc : f.c
    · obtain ⟨h1, h2⟩ := hc hfc
      simp [redInv, hfc, ht, hs, h1, h2]
    · simp [redInv, hfc, ht, hs]
  · rw [plug1_R hside]
    cases hfc : f.c
    · obtain ⟨h1, h2⟩ := hc hfc
      simp [redInv, hfc, ht, hs, h1, h2]
    · simp [redInv, hfc, ht, hs]

theorem BSTb_blacken (t : ITree) (lo hi : Option Int) :
    BSTb (blackenI t) lo hi = BSTb t lo hi := by
  cases t <;> rfl

theorem bhOk_blacken_red {i : Nat} {l : ITree} {k : Int} {r : ITree} {h : Nat}
    (hb : bhOk (.node i Color.RED l k r) = some h) :
    bhOk (blackenI (.node i Color.RED l k r)) = some (h + 1) := by
  simp only [bhOk, bd, blackenI] at hb ⊢
  cases hl : bhOk l <;> cases hr : bhOk r <;> simp [hl, hr] at hb ⊢
  · obtain ⟨h1, h2⟩ := hb
    subst h1
    simp [h2]

theorem redInv_blacken {t : ITree} (h : redInv t = true) :
    redInv (blackenI t) = true := by
  cases t with
  | nil => rfl
  | node i c l k r =>
    simp only [redInv, blackenI, Bool.and_eq_true] at h ⊢
    cases hc : c <;> rw [hc] at h <;> exact ⟨⟨trivial, h.1.2⟩, h.2⟩

theorem rootBlack_blacken (t : ITree) : rootBlack (blackenI t) = true := by
  cases t <;> simp [blackenI, rootBlack]

theorem inorder_blacken (t : ITree) : inorderI (blackenI t) = inorderI t := by
  cases t <;> rfl

theorem inorder_plug1_congr {f f' : Frame} {t t' : ITree}
    (hs : f'.side = f.side) (hk : f'.k = f.k)
    (hsib : inorderI f'.sib = inorderI f.sib)
    (ht : inorderI t' = inorderI t) :
    inorderI (plug1 f' t') = inorderI (plug1 f t) := by
  rw [inorder_plug1, inorder_plug1, hs, hk, hsib, ht]

theorem plug_ne_nil : ∀ (q : List Frame) {t : ITree},
    t ≠ .nil → plug q t ≠ .nil := by
  intro q
  induction q with
  | nil => intro t h; exact h
  | cons f q ih =>
    intro t _
    rw [plug_cons]
    refine ih ?_
    cases hs : f.side
    · rw [plug1_L hs]; simp
    · rw [plug1_R hs]; simp

theorem rootIdx_plug_cons_mem : ∀ (q : List Frame) (f : Frame) (t : ITree),
    rootIdx (plug (f :: q) t) ∈ ctxIdxs (f :: q) := by
  intro q
  induction q with
  | nil =>
    intro f t
    rw [plug_cons, plug, rootIdx_plug1]
    simp [ctxIdxs]
  | cons g q ih =>
    intro f t
    have := ih g (plug1 f t)
    rw [plug_cons]
    simp only [ctxIdxs, List.mem_cons, List.mem_append] at this ⊢
    tauto

/-- A node strictly inside the plugged tree is never the heap root when
at least one frame is above it. -/
theorem hole_ne_root {s : RedBlackTree} {f : Frame} {q : List Frame}
    {T : ITree} {a : Nat} (hrep : ReprSt s (plug (f :: q) T))
    (ha : a ∈ idxs T) : a ≠ s.root := by
  intro hcontra
  have hmem := rootIdx_plug_cons_mem q f T
  have hdisj := (nodup_plug_parts hrep.2.2.2.1).2
  rw [hrep.1] at hcontra
  exact hdisj _ hmem (hcontra ▸ ha)

/-- Recolor the node of a frame. -/
theorem ReprSt_setColorF {s : RedBlackTree} {f : Frame} {q : List Frame}
    {t : ITree} (c' : Color) (h : ReprSt s (plug (f :: q) t)) :
    ReprSt (updN s f.i (fun n => { n with color := c' }))
        (plug ({ f with c := c' } :: q) t) ∧
      (updN s f.i (fun n => { n with color := c' })).nodes.length =
        s.nodes.length := by
  cases hs : f.side
  · have h2 : ReprSt s (plug q (.node f.i f.c t f.k f.sib)) := by
      rw [← plug1_L hs]
      exact h
    have h3 := ReprSt_setColor c' h2
    exact ⟨h3.1, h3.2⟩
  · have h2 : ReprSt s (plug q (.node f.i f.c f.sib f.k t)) := by
      rw [← plug1_R hs]
      exact h
    have h3 := ReprSt_setColor c' h2
    exact ⟨h3.1, h3.2⟩

/-- Repaint the root of a frame's sibling subtree black (the Case 1
uncle recoloring). -/
theorem ReprSt_setColorSib {s : RedBlackTree} {f : Frame} {q : List Frame}
    {t : ITree} {uI : Nat} {uc : Color} {ua : ITree} {uk : Int} {ub : ITree}
    (hu : f.sib = .node uI uc ua uk ub)
    (h : ReprSt s (plug (f :: q) t)) :
    ReprSt (updN s uI (fun n => { n with color := Color.BLACK }))
        (plug ({ f with sib := blackenI f.sib } :: q) t) ∧
      (updN s uI (fun n => { n with color := Color.BLACK })).nodes.length =
        s.nodes.length := by
  cases hs : f.side
  · -- hole is the left child, sibling on the right
    have h2 : ReprSt s (plug (⟨Dir.R, f.i, f.c, f.k, t⟩ :: q)
        (.node uI uc ua uk ub)) := by
      rw [plug_cons, plug1_R (f := ⟨Dir.R, f.i, f.c, f.k, t⟩) rfl]
      rw [← hu, ← plug1_L hs]
      exact h
    have h3 := ReprSt_setColor Color.BLACK h2
    refine ⟨?_, h3.2⟩
    have h4 := h3.1
    rw [hu]
    exact h4
  · have h2 : ReprSt s (plug (⟨Dir.L, f.i, f.c, f.k, t⟩ :: q)
        (.node uI uc ua uk ub)) := by
      rw [plug_cons, plug1_L (f := ⟨Dir.L, f.i, f.c, f.k, t⟩) rfl]
      rw [← hu, ← plug1_R hs]
      exact h
    have h3 := ReprSt_setColor Color.BLACK h2
    refine ⟨?_, h3.2⟩
    have h4 := h3.1
    rw [hu]
    exact h4

/-!  ## An inner node is never the heap root unless it is the top -/

theorem inner_ne_root {s : RedBlackTree} {q : List Frame} {T : ITree}
    {a : Nat} (hrep : ReprSt s (plug q T)) (ha : a ∈ idxs T)
    (hne : a ≠ rootIdx T) : a ≠ s.root := by
  cases q with
  | nil => rw [hrep.1]; exact hne
  | cons f q => exact hole_ne_root hrep ha


/-!  ## Order helpers and invariant decompositions -/

theorem loleB_trans {lo : Option Int} {a b : Int}
    (h1 : loleB lo a = true) (h2 : a ≤ b) : loleB lo b = true := by
  cases lo with
  | none => rfl
  | some x =>
    simp only [loleB, decide_eq_true_eq] at h1 ⊢
    omega

theorem hileB_trans {a b : Int} {hi : Option Int}
    (h1 : a ≤ b) (h2 : hileB b hi = true) : hileB a hi = true := by
  cases hi with
  | none => rfl
  | some x =>
    simp only [hileB, decide_eq_true_eq] at h2 ⊢
    omega

theorem bhOk_red_elim {i : Nat} {l : ITree} {k : Int} {r : ITree} {h : Nat}
    (hh : bhOk (.node i Color.RED l k r) = some h) :
    bhOk l = some h ∧ bhOk r = some h := by
  rcases hl : bhOk l with _ | a <;> rcases hr : bhOk r with _ | b <;>
    simp only [bhOk, hl, hr, bd, Nat.add_zero, reduceCtorEq] at hh
  by_cases hab : a = b
  · subst hab
    rw [if_pos rfl] at hh
    simp only [Option.some.injEq] at hh
    subst hh
    exact ⟨rfl, rfl⟩
  · rw [if_neg hab] at hh
    cases hh

theorem redInv_red_elim {i : Nat} {l : ITree} {k : Int} {r : ITree}
    (hh : redInv (.node i Color.RED l k r) = true) :
    rootBlack l = true ∧ rootBlack r = true ∧
      redInv l = true ∧ redInv r = true := by
  simp only [redInv, Bool.and_eq_true] at hh
  exact ⟨hh.1.1.1, hh.1.1.2, hh.1.2, hh.2⟩

theorem BSTb_node_elim {i : Nat} {c : Color} {l : ITree} {k : Int} {r : ITree}
    {lo hi : Option Int} (hh : BSTb (.node i c l k r) lo hi = true) :
    loleB lo k = true ∧ hileB k hi = true ∧
      BSTb l lo (some k) = true ∧ BSTb r (some k) hi = true := by
  simp only [BSTb, Bool.and_eq_true] at hh
  exact ⟨hh.1.1.1, hh.1.1.2, hh.1.2, hh.2⟩

/-- After a Case 2/3 repair the loop recurses once more on a node that
is not the heap root and the induction hypothesis finishes the run. -/
theorem fixLoop_tail_step {fuel : Nat}
    (ih : ∀ (q : List Frame) (t : ITree) (s : RedBlackTree)
      (lo hi : Option Int) (h : Nat),
      ReprSt s (plug q t) → LoopInv q t lo hi h →
      q.length + 2 ≤ fuel →
      ∃ s' T H, fixLoop s fuel (rootIdx t) = .ok s' ∧ ReprSt s' T ∧
        BSTb T none none = true ∧ redInv T = true ∧ bhOk T = some H ∧
        T ≠ .nil ∧ inorderI T = inorderI (plug q t) ∧
        s'.nodes.length = s.nodes.length)
    {s4 : RedBlackTree} {nf : Frame} {ctx2 : List Frame}
    {iT : Nat} {cT : Color} {lT : ITree} {kT : Int} {rT : ITree}
    {lo' hi' : Option Int} {h' : Nat}
    (hrep4 : ReprSt s4 (plug (nf :: ctx2) (.node iT cT lT kT rT)))
    (hlinv : LoopInv (nf :: ctx2) (.node iT cT lT kT rT) lo' hi' h')
    (hfuel : ctx2.length + 3 ≤ fuel) :
    ∃ s' T H,
      (if iT = s4.root then pure s4 else fixLoop s4 fuel iT) = Except.ok s' ∧
      ReprSt s' T ∧ BSTb T none none = true ∧ redInv T = true ∧
      bhOk T = some H ∧ T ≠ .nil ∧
      inorderI T = inorderI (plug (nf :: ctx2) (.node iT cT lT kT rT)) ∧
      s'.nodes.length = s4.nodes.length := by
  have hne : iT ≠ s4.root := hole_ne_root hrep4 (by simp [idxs])
  rw [if_neg hne]
  exact ih (nf :: ctx2) (.node iT cT lT kT rT) s4 lo' hi' h' hrep4 hlinv
    (by simp only [List.length_cons]; omega)

/-!  ## The descent path of `insert` -/

theorem rootRef_eq (t : ITree) : rootRef t = some (rootIdx t) := by
  cases t <;> rfl

theorem plug_append : ∀ (a b : List Frame) (t : ITree),
    plug (a ++ b) t = plug b (plug a t) := by
  intro a
  induction a with
  | nil => intro b t; rfl
  | cons f a ih =>
    intro b t
    rw [List.cons_append, plug_cons, plug_cons, ih]

theorem plug_descendCtx : ∀ (t : ITree) (key : Int),
    plug (descendCtx t key) .nil = t := by
  intro t
  induction t with
  | nil => intro key; rfl
  | node i c l k r ihl ihr =>
    intro key
    by_cases hklt : key < k
    · rw [descendCtx, if_pos hklt, plug_append, ihl]
      rfl
    · rw [descendCtx, if_neg hklt, plug_append, ihr]
      rfl

theorem holeParAux_append_single (q : List Frame) (f : Frame)
    (par : Option Nat) :
    holeParAux (q ++ [f]) par = holeParAux q (some f.i) := by
  cases q <;> rfl

theorem bhOk_node_elim {i : Nat} {c : Color} {l : ITree} {k : Int}
    {r : ITree} {h : Nat} (hh : bhOk (.node i c l k r) = some h) :
    ∃ a, bhOk l = some a ∧ bhOk r = some a ∧ h = a + bd c := by
  rcases hl : bhOk l with _ | a <;> rcases hr : bhOk r with _ | b <;>
    simp only [bhOk, hl, hr, reduceCtorEq] at hh
  by_cases hab : a = b
  · subst hab
    rw [if_pos rfl] at hh
    simp only [Option.some.injEq] at hh
    exact ⟨a, rfl, rfl, hh.symm⟩
  · rw [if_neg hab] at hh
    cases hh

theorem redInv_node_elim {i : Nat} {c : Color} {l : ITree} {k : Int}
    {r : ITree} (hh : redInv (.node i c l k r) = true) :
    redInv l = true ∧ redInv r = true ∧
      (c = Color.RED → rootBlack l = true ∧ rootBlack r = true) := by
  cases hc : c
  · rw [hc] at hh
    simp only [redInv, Bool.and_eq_true] at hh
    exact ⟨hh.1.2, hh.2, fun _ => ⟨hh.1.1.1, hh.1.1.2⟩⟩
  · rw [hc] at hh
    simp only [redInv, Bool.and_eq_true] at hh
    exact ⟨hh.1.2, hh.2, fun hcc => absurd hcc (by simp)⟩

theorem insertDescend_ok : ∀ (t : ITree) (fuel : Nat) (s : RedBlackTree)
    (par yp : Option Nat) (key : Int),
    reprB s t par = true → heightI t + 1 ≤ fuel →
    insertDescend s fuel key yp (rootRef t) =
      .ok (holeParAux (descendCtx t key) yp) := by
  intro t
  induction t with
  | nil =>
    intro fuel s par yp key _ hfuel
    match fuel, hfuel with
    | fuel + 1, _ =>
      rw [insertDescend, rootRef_nil, if_neg (by simp)]
      rfl
  | node i c l k r ihl ihr =>
    intro fuel s par yp key hrep hfuel
    rw [reprB_node_iff] at hrep
    obtain ⟨cell, hi0, hrl, hrr⟩ := hrep
    match fuel, hfuel with
    | fuel + 1, hfuel =>
      rw [insertDescend]
      have hne : (some i ≠ some 0) := by
        simp only [ne_eq, Option.some.injEq]
        exact hi0
      rw [rootRef_node, if_pos hne]
      have hmax : heightI l + 1 ≤ fuel ∧ heightI r + 1 ≤ fuel := by
        simp only [heightI] at hfuel
        omega
      by_cases hklt : key < k
      · simp only [rootRef_node, deref, getN, cell, okBind, descendCtx,
          if_pos hklt, holeParAux_append_single]
        exact ihl fuel s (some i) (some i) key hrl hmax.1
      · simp only [rootRef_node, deref, getN, cell, okBind, descendCtx,
          if_neg hklt, holeParAux_append_single]
        exact ihr fuel s (some i) (some i) key hrr hmax.2

theorem descendCtx_spec : ∀ (t : ITree) (key : Int) (ctx0 : List Frame)
    (lo hi : Option Int), BSTb t lo hi = true → CtxBST ctx0 lo hi →
    loleB lo key = true → hileB key hi = true →
    ∃ lo' hi', CtxBST (descendCtx t key ++ ctx0) lo' hi' ∧
      loleB lo' key = true ∧ hileB key hi' = true := by
  intro t
  induction t with
  | nil =>
    intro key ctx0 lo hi _ hc hlo hhi
    exact ⟨lo, hi, by simpa [descendCtx] using hc, hlo, hhi⟩
  | node i c l k r ihl ihr =>
    intro key ctx0 lo hi hbst hc hlo hhi
    obtain ⟨hlok, hkhi, hbl, hbr⟩ := BSTb_node_elim hbst
    by_cases hklt : key < k
    · rw [descendCtx, if_pos hklt, List.append_assoc]
      refine ihl key (⟨Dir.L, i, c, k, r⟩ :: ctx0) lo (some k) hbl ?_ hlo ?_
      · exact ⟨rfl, hi, hlok, hkhi, hbr, hc⟩
      · simp only [hileB, decide_eq_true_eq]
        omega
    · rw [descendCtx, if_neg hklt, List.append_assoc]
      refine ihr key (⟨Dir.R, i, c, k, l⟩ :: ctx0) (some k) hi hbr ?_ ?_ hhi
      · exact ⟨rfl, lo, hlok, hkhi, hbl, hc⟩
      · simp only [loleB, decide_eq_true_eq]
        omega

theorem descend_ctxrb : ∀ (t : ITree) (key : Int) (h : Nat)
    (ctx0 : List Frame), bhOk t = some h → redInv t = true →
    CtxRB ctx0 h (rootColor t) →
    CtxRB (descendCtx t key ++ ctx0) 0 Color.BLACK := by
  intro t
  induction t with
  | nil =>
    intro key h ctx0 hbh _ hc
    have h0 : h = 0 := by
      simp only [bhOk, Option.some.injEq] at hbh
      omega
    subst h0
    simpa [descendCtx] using hc
  | node i c l k r ihl ihr =>
    intro key h ctx0 hbh hred hc
    obtain ⟨a, hbl, hbr, rfl⟩ := bhOk_node_elim hbh
    obtain ⟨hrl, hrr, hrc⟩ := redInv_node_elim hred
    by_cases hklt : key < k
    · rw [descendCtx, if_pos hklt, List.append_assoc]
      refine ihl key a (⟨Dir.L, i, c, k, r⟩ :: ctx0) hbl hrl ?_
      refine ⟨hbr, hrr, ?_, hc⟩
      intro hcc
      exact ⟨rootBlack_iff.1 (hrc hcc).1, (hrc hcc).2⟩
    · rw [descendCtx, if_neg hklt, List.append_assoc]
      refine ihr key a (⟨Dir.R, i, c, k, l⟩ :: ctx0) hbr hrr ?_
      refine ⟨hbl, hrl, ?_, hc⟩
      intro hcc
      exact ⟨rootBlack_iff.1 (hrc hcc).2, (hrc hcc).1⟩

theorem descendCtx_head : ∀ (t : ITree) (key : Int) (f : Frame)
    (ctx2 : List Frame), descendCtx t key = f :: ctx2 →
    (key < f.k ∧ f.side = Dir.L) ∨ (f.k ≤ key ∧ f.side = Dir.R) := by
  intro t
  induction t with
  | nil =>
    intro key f ctx2 hh
    exact absurd hh (by simp [descendCtx])
  | node i c l k r ihl ihr =>
    intro key f ctx2 hh
    by_cases hklt : key < k
    · rw [descendCtx, if_pos hklt] at hh
      cases hdl : descendCtx l key with
      | nil =>
        rw [hdl, List.nil_append] at hh
        cases hh
        exact Or.inl ⟨hklt, rfl⟩
      | cons g gs =>
        rw [hdl, List.cons_append] at hh
        obtain ⟨h1, h2⟩ := List.cons_eq_cons.1 hh
        exact h1 ▸ ihl key g gs hdl
    · rw [descendCtx, if_neg hklt] at hh
      cases hdr : descendCtx r key with
      | nil =>
        rw [hdr, List.nil_append] at hh
        cases hh
        refine Or.inr ⟨?_, rfl⟩
        show k ≤ key
        omega
      | cons g gs =>
        rw [hdr, List.cons_append] at hh
        obtain ⟨h1, h2⟩ := List.cons_eq_cons.1 hh
        exact h1 ▸ ihr key g gs hdr

theorem heightI_le_sizeI : ∀ t : ITree, heightI t ≤ sizeI t := by
  intro t
  induction t with
  | nil => exact Nat.le_refl 0
  | node i c l k r ihl ihr =>
    simp only [heightI, sizeI]
    omega

theorem descendCtx_length_le : ∀ (t : ITree) (key : Int),
    (descendCtx t key).length ≤ sizeI t := by
  intro t
  induction t with
  | nil => intro key; exact Nat.le_refl 0
  | node i c l k r ihl ihr =>
    intro key
    by_cases hklt : key < k
    · rw [descendCtx, if_pos hklt]
      simp only [List.length_append, List.length_cons, List.length_nil, sizeI]
      have := ihl key
      omega
    · rw [descendCtx, if_neg hklt]
      simp only [List.length_append, List.length_cons, List.length_nil, sizeI]
      have := ihr key
      omega

theorem sizeI_eq_length_inorder : ∀ t : ITree,
    sizeI t = (inorderI t).length := by
  intro t
  induction t with
  | nil => rfl
  | node i c l k r ihl ihr =>
    simp only [sizeI, inorderI, List.length_append, List.length_cons]
    omega

theorem inorder_plug_perm : ∀ (q : List Frame) (t : ITree),
    (inorderI (plug q t)).Perm (inorderI t ++ ctxKeys q) := by
  intro q
  induction q with
  | nil =>
    intro t
    simp [plug, ctxKeys]
  | cons f q ih =>
    intro t
    rw [plug_cons, ctxKeys]
    refine (ih (plug1 f t)).trans ?_
    cases hs : f.side
    · rw [plug1_L hs]
      simp only [inorderI]
      rw [List.append_assoc]
    · rw [plug1_R hs]
      simp only [inorderI]
      have h1 : (inorderI f.sib ++ f.k :: inorderI t).Perm
          (inorderI t ++ f.k :: inorderI f.sib) :=
        (List.perm_middle.trans ((List.perm_append_comm).cons f.k)).trans
          List.perm_middle.symm
      have h2 := h1.append_right (ctxKeys q)
      simpa [List.append_assoc, List.cons_append] using h2

set_option maxHeartbeats 4000000

/-- The `fixInsert` while-loop terminates without errors and restores
all red-black invariants except possibly a red root, preserving the
search-tree property, the inorder key sequence and the heap size. -/
theorem fixLoop_ok : ∀ (fuel : Nat) (q : List Frame) (t : ITree)
    (s : RedBlackTree) (lo hi : Option Int) (h : Nat),
    ReprSt s (plug q t) → LoopInv q t lo hi h →
    q.length + 2 ≤ fuel →
    ∃ s' T H, fixLoop s fuel (rootIdx t) = .ok s' ∧ ReprSt s' T ∧
      BSTb T none none = true ∧ redInv T = true ∧ bhOk T = some H ∧
      T ≠ .nil ∧ inorderI T = inorderI (plug q t) ∧
      s'.nodes.length = s.nodes.length := by
  intro fuel
  induction fuel with
  | zero => intro q t s lo hi h _ _ hfuel; omega
  | succ fuel ih =>
    intro q t s lo hi h hrep hinv hfuel
    obtain ⟨hbh, hred, hrootc, hbstt, hctxbst, htail⟩ := hinv
    cases t with
    | nil => rw [rootColor] at hrootc; cases hrootc
    | node kI kc kl kk kr =>
    obtain ⟨cellK, hk0⟩ := ReprSt_read_hole hrep
    rw [rootColor] at hrootc
    subst hrootc
    cases q with
    | nil =>
      simp only [holeParAux] at cellK
      obtain ⟨rfl, rfl⟩ : lo = none ∧ hi = none := hctxbst
      refine ⟨s, .node kI Color.RED kl kk kr, h, ?_, hrep, hbstt, hred, hbh,
        by simp, rfl, rfl⟩
      rw [rootIdx, fixLoop]
      simp [getN, cellK, okBind]
      rfl
    | cons pf ctx' =>
      simp only [holeParAux] at cellK
      have hpfread := reprB_plug_cons_read (f := pf) (q := ctx') hrep.2.1
      obtain ⟨cellP, hp0, _, hrepPsib⟩ := hpfread
      simp only [rootRef_node, holeParAux] at cellP
      obtain ⟨hsibbh, hsibred, hsibredc, hctxrb⟩ := htail
      -- distinctness of k and p
      have hdisjC := (nodup_plug_parts hrep.2.2.2.1).2
      have hpfk : pf.i ≠ kI := fun hh =>
        hdisjC pf.i (by simp [ctxIdxs]) (hh ▸ by simp [idxs])
      cases hpc : pf.c with
      | BLACK =>
        -- the loop guard fails: the tree is already fully repaired
        have hctxrbF : CtxRB (pf :: ctx') h
            (rootColor (.node kI Color.RED kl kk kr)) := by
          rw [CtxRB]
          refine ⟨hsibbh, hsibred, fun hh => absurd (hpc ▸ hh) (by simp), hctxrb⟩
        have hplug := plug_bh_red (pf :: ctx') _ h hctxrbF hbh hred
        refine ⟨s, plug (pf :: ctx') (.node kI Color.RED kl kk kr), _,
          ?_, hrep, plug_BSTb _ _ _ _ hctxbst hbstt, hplug.2.1,
          hplug.1.choose_spec, plug_ne_nil _ (by simp), rfl, rfl⟩
        rw [rootIdx, fixLoop]
        simp [getN, cellK, cellP, okBind, frameRec_color, hpc]
        rfl
      | RED =>
        rw [hpc] at hctxrb
        simp only [bd, Nat.add_zero] at hctxrb
        cases ctx' with
        | nil =>
          rw [CtxRB] at hctxrb
          cases hctxrb
        | cons gf ctx2 =>
          -- read the grandparent frame
          have hgfread := reprB_plug_cons_read (f := gf) (q := ctx2)
            (show reprB s (plug (gf :: ctx2) (plug1 pf
              (.node kI Color.RED kl kk kr))) none = true from hrep.2.1)
          obtain ⟨cellG, hg0, _, hrepGsib⟩ := hgfread
          rw [rootRef_plug1] at cellG
          rw [CtxRB] at hctxrb
          obtain ⟨hgsibbh, hgsibred, hgredc, hctxrb2⟩ := hctxrb
          have hgc : gf.c = Color.BLACK := by
            cases hgc2 : gf.c
            · exact absurd (hgredc hgc2).1 (by simp)
            · rfl
          rw [hgc] at hctxrb2
          simp only [bd] at hctxrb2
          -- distinctness of g from k and p
          have hgfk : gf.i ≠ kI := fun hh =>
            hdisjC gf.i (by simp [ctxIdxs]) (hh ▸ by simp [idxs])
          have hndctx : (ctxIdxs (pf :: gf :: ctx2)).Nodup :=
            (List.nodup_append.1
              ((idxs_plug_perm _ _).nodup_iff.1 hrep.2.2.2.1)).1
          have hgfp : gf.i ≠ pf.i := by
            intro hh
            have h2 := hndctx
            simp only [ctxIdxs, List.nodup_cons, List.mem_cons,
              List.mem_append, not_or] at h2
            exact h2.1.2.1 hh.symm
          -- the branch on which side p hangs from g
          cases hgs : gf.side with
          | R =>
            -- parent is the grandparent's right child: first source branch;
            -- the uncle is the grandparent's left subtree, gf.sib
            simp only [frameRec, hgs] at cellG
            rcases hu : gf.sib with _ | ⟨uI, uc, ua, uk, ub⟩
            · -- the uncle is the NIL sentinel: it reads as BLACK
              have hubh : bhOk gf.sib = some h := hgsibbh
              have hured : redInv gf.sib = true := hgsibred
              have hub : rootBlack gf.sib = true := by
                rw [hu]
                rfl
              have cellNil : s.nodes[0]? = some nilNode := hrep.2.2.1
              have hC : CtxBST (pf :: gf :: ctx2) lo hi := hctxbst
              rw [CtxBST_cons_iff] at hC
              obtain ⟨lo1, hi1, Fpf, hC⟩ := hC
              rw [CtxBST_cons_iff] at hC
              obtain ⟨lo2, hi2, Fgf, hC2⟩ := hC
              rw [CtxBST1, hgs] at Fgf
              obtain ⟨hlo1e, hhi2e, hlole2, hhile2, hgsibB⟩ := Fgf
              cases hps : pf.side with
              | L =>
                rw [CtxBST1, hps] at Fpf
                obtain ⟨hhie, hlo1e', hlole1, hhile1, hpsibB⟩ := Fpf
                have hloe2 : lo = some gf.k := hlo1e'.symm.trans hlo1e
                have cellP2 := cellP
                simp only [frameRec, hps] at cellP2
                rw [hpc] at cellP2
                obtain ⟨hbhKl, hbhKr⟩ := bhOk_red_elim hbh
                obtain ⟨hrbKl, hrbKr, hredKl, hredKr⟩ := redInv_red_elim hred
                obtain ⟨hloK, hhiK, hbKl, hbKr⟩ := BSTb_node_elim hbstt
                have hgleKk : gf.k ≤ kk := by
                  rw [hloe2] at hloK
                  simpa [loleB] using hloK
                have hkKle : kk ≤ pf.k := by
                  rw [hhie] at hhiK
                  simpa [hileB] using hhiK
                have hrepX : ReprSt s (plug (gf :: ctx2)
                    (.node pf.i Color.RED (.node kI Color.RED kl kk kr)
                      pf.k pf.sib)) := by
                  have h2 := hrep
                  rw [plug_cons pf, plug1_L (f := pf) hps, hpc] at h2
                  exact h2
                obtain ⟨s1, hrA, hrepA, hlenA, hkcA⟩ := rightRotate_ok hrepX
                have hinner := reprB_plug_inner (q := gf :: ctx2) hrepA.2.1
                rw [reprB_node_iff] at hinner
                obtain ⟨cellK1, _, hrKl1, hinner2⟩ := hinner
                simp only [rootRef_node, holeParAux] at cellK1
                rw [reprB_node_iff] at hinner2
                obtain ⟨cellP1, _, _, _⟩ := hinner2
                have stepA := ReprSt_setColor (q := gf :: ctx2) Color.BLACK hrepA
                have stepB := ReprSt_setColorF (f := gf) (q := ctx2)
                  (t := .node kI Color.BLACK kl kk
                    (.node pf.i Color.RED kr pf.k pf.sib)) Color.RED stepA.1
                have hrep3 : ReprSt (updN (updN s1 kI
                      (fun n => { n with color := Color.BLACK })) gf.i
                      (fun n => { n with color := Color.RED }))
                    (plug ctx2 (.node gf.i Color.RED gf.sib gf.k
                      (.node kI Color.BLACK kl kk
                        (.node pf.i Color.RED kr pf.k pf.sib)))) := by
                  have h2 := stepB.1
                  rw [plug_cons, plug1_R (f := { gf with c := Color.RED }) hgs] at h2
                  exact h2
                obtain ⟨s4, hrB, hrepB, hlenB, hkcB⟩ := leftRotate_ok hrep3
                have hrep4 : ReprSt s4 (plug
                    (⟨Dir.R, kI, Color.BLACK, kk,
                      .node gf.i Color.RED gf.sib gf.k kl⟩ :: ctx2)
                    (.node pf.i Color.RED kr pf.k pf.sib)) := hrepB
                have hlinv : LoopInv (⟨Dir.R, kI, Color.BLACK, kk,
                    .node gf.i Color.RED gf.sib gf.k kl⟩ :: ctx2)
                    (.node pf.i Color.RED kr pf.k pf.sib) (some kk) hi1 h := by
                  refine ⟨?_, ?_, rfl, ?_, ?_, ?_, ?_, ?_, ?_⟩
                  · simp [bhOk, hbhKr, hsibbh, bd]
                  · simp [redInv, hredKr, hsibred, hrbKr, hsibredc hpc]
                  · simp only [BSTb, Bool.and_eq_true]
                    refine ⟨⟨⟨?_, hhile1⟩, ?_⟩, hpsibB⟩
                    · simpa [loleB] using hkKle
                    · rw [← hhie]
                      exact hbKr
                  · rw [CtxBST_cons_iff]
                    refine ⟨lo2, hi1, ?_, ?_⟩
                    · rw [CtxBST1]
                      refine ⟨rfl, rfl, loleB_trans hlole2 hgleKk,
                        hileB_trans hkKle hhile1, ?_⟩
                      simp only [BSTb, Bool.and_eq_true]
                      refine ⟨⟨⟨hlole2, ?_⟩, hgsibB⟩, ?_⟩
                      · simpa [hileB] using hgleKk
                      · rw [← hloe2]
                        exact hbKl
                    · rw [← hhi2e]
                      exact hC2
                  · simp [bhOk, hubh, hbhKl, bd]
                  · simp [redInv, hured, hredKl, hub, hrbKl]
                  · intro hh
                    exact absurd hh (by simp)
                  · exact hctxrb2
                obtain ⟨s', T, H, f1, f2, f3, f4, f5, f6, f7, f8⟩ :=
                  fixLoop_tail_step ih hrep4 hlinv
                    (by simp only [List.length_cons] at hfuel; omega)
                refine ⟨s', T, H, ?_, f2, f3, f4, f5, f6, ?_, ?_⟩
                · rw [rootIdx, fixLoop]
                  simp only [getN, deref, derefIdx, okBind, errBind,
                    pure, bind, Except.bind, Except.pure,
                    cellK, cellP2, cellG, cellNil, nilNode, hu, rootRef_nil,
                    hrA, cellK1, cellP1, hrB,
                    rootRef_node, holeParAux, hpc,
                    updN_get, updN_root,
                    hpfk, Ne.symm hpfk, hgfk, Ne.symm hgfk, hgfp, Ne.symm hgfp,
                    Option.map_some', ite_true, ite_false, ne_eq,
                    Option.some.injEq, reduceCtorEq]
                  exact f1
                · rw [f7]
                  refine inorder_plug_congr ctx2 ?_
                  rw [plug1_R (f := gf) hgs, plug1_L (f := pf) hps]
                  simp [plug1, inorderI, List.append_assoc]
                · rw [f8, hlenB, stepB.2, stepA.2, hlenA]
              | R =>
                rw [CtxBST1, hps] at Fpf
                obtain ⟨hloe, hhi1e, hlole1, hhile1, hpsibB⟩ := Fpf
                have cellP2 := cellP
                simp only [frameRec, hps] at cellP2
                rw [hpc] at cellP2
                have hknsib : ¬ (some kI = rootRef pf.sib) := by
                  cases hsb : pf.sib with
                  | nil =>
                    rw [rootRef_nil]
                    intro hh
                    exact hk0 (Option.some.inj hh)
                  | node v cv av kv bv =>
                    rw [rootRef_node]
                    intro hh
                    exact hdisjC v (by simp [ctxIdxs, hsb, idxs])
                      ((Option.some.inj hh) ▸ (by simp [idxs]))
                have hglek : gf.k ≤ pf.k := by
                  rw [hlo1e] at hlole1
                  simpa [loleB] using hlole1
                have stepA := ReprSt_setColorF (f := pf) (q := gf :: ctx2)
                  Color.BLACK hrep
                have stepB := ReprSt_setColorF (f := gf) (q := ctx2)
                  (t := plug1 { pf with c := Color.BLACK }
                    (.node kI Color.RED kl kk kr)) Color.RED stepA.1
                have hrep3 : ReprSt (updN (updN s pf.i
                      (fun n => { n with color := Color.BLACK })) gf.i
                      (fun n => { n with color := Color.RED }))
                    (plug ctx2 (.node gf.i Color.RED gf.sib gf.k
                      (.node pf.i Color.BLACK pf.sib pf.k
                        (.node kI Color.RED kl kk kr)))) := by
                  have h2 := stepB.1
                  rw [plug_cons, plug1_R (f := { gf with c := Color.RED }) hgs,
                    plug1_R (f := { pf with c := Color.BLACK }) hps] at h2
                  exact h2
                obtain ⟨s4, hrB, hrepB, hlenB, hkcB⟩ := leftRotate_ok hrep3
                have hrep4 : ReprSt s4 (plug
                    (⟨Dir.R, pf.i, Color.BLACK, pf.k,
                      .node gf.i Color.RED gf.sib gf.k pf.sib⟩ :: ctx2)
                    (.node kI Color.RED kl kk kr)) := hrepB
                have hlinv : LoopInv (⟨Dir.R, pf.i, Color.BLACK, pf.k,
                    .node gf.i Color.RED gf.sib gf.k pf.sib⟩ :: ctx2)
                    (.node kI Color.RED kl kk kr) lo hi h := by
                  refine ⟨hbh, hred, rfl, hbstt, ?_, ?_, ?_, ?_, ?_⟩
                  · rw [CtxBST_cons_iff]
                    refine ⟨lo2, hi, ?_, ?_⟩
                    · rw [CtxBST1]
                      refine ⟨hloe, rfl, loleB_trans hlole2 hglek, hhile1, ?_⟩
                      simp only [BSTb, Bool.and_eq_true]
                      refine ⟨⟨⟨hlole2, ?_⟩, hgsibB⟩, ?_⟩
                      · simpa [hileB] using hglek
                      · rw [← hlo1e]
                        exact hpsibB
                    · rw [← hhi1e, ← hhi2e]
                      exact hC2
                  · simp [bhOk, hubh, hsibbh, bd]
                  · simp [redInv, hured, hsibred, hub, hsibredc hpc]
                  · intro hh
                    exact absurd hh (by simp)
                  · exact hctxrb2
                obtain ⟨s', T, H, f1, f2, f3, f4, f5, f6, f7, f8⟩ :=
                  fixLoop_tail_step ih hrep4 hlinv
                    (by simp only [List.length_cons] at hfuel; omega)
                refine ⟨s', T, H, ?_, f2, f3, f4, f5, f6, ?_, ?_⟩
                · rw [rootIdx, fixLoop]
                  simp only [getN, deref, derefIdx, okBind, errBind,
                    pure, bind, Except.bind, Except.pure,
                    cellK, cellP2, cellG, cellNil, nilNode, hu, rootRef_nil,
                    hknsib, hrB,
                    rootRef_node, holeParAux, hpc,
                    updN_get, updN_root,
                    hpfk, Ne.symm hpfk, hgfk, Ne.symm hgfk, hgfp, Ne.symm hgfp,
                    Option.map_some', ite_true, ite_false, ne_eq,
                    Option.some.injEq, reduceCtorEq]
                  exact f1
                · rw [f7]
                  refine inorder_plug_congr ctx2 ?_
                  rw [plug1_R (f := gf) hgs, plug1_R (f := pf) hps]
                  simp [plug1, inorderI, List.append_assoc]
                · rw [f8, hlenB, stepB.2, stepA.2]
            · rw [hu] at hgsibbh hgsibred hrepGsib
              rw [reprB_node_iff] at hrepGsib
              obtain ⟨cellU, hu0, hrua, hrub⟩ := hrepGsib
              cases huc : uc with
              | BLACK =>
                rw [huc] at cellU hgsibbh hgsibred
                have hubh : bhOk gf.sib = some h := by
                  rw [hu, huc]
                  exact hgsibbh
                have hured : redInv gf.sib = true := by
                  rw [hu, huc]
                  exact hgsibred
                have hub : rootBlack gf.sib = true := by
                  rw [hu]
                  simp [rootBlack, huc]
                have hC : CtxBST (pf :: gf :: ctx2) lo hi := hctxbst
                rw [CtxBST_cons_iff] at hC
                obtain ⟨lo1, hi1, Fpf, hC⟩ := hC
                rw [CtxBST_cons_iff] at hC
                obtain ⟨lo2, hi2, Fgf, hC2⟩ := hC
                rw [CtxBST1, hgs] at Fgf
                obtain ⟨hlo1e, hhi2e, hlole2, hhile2, hgsibB⟩ := Fgf
                cases hps : pf.side with
                | L =>
                  rw [CtxBST1, hps] at Fpf
                  obtain ⟨hhie, hlo1e', hlole1, hhile1, hpsibB⟩ := Fpf
                  have hloe2 : lo = some gf.k := hlo1e'.symm.trans hlo1e
                  have cellP2 := cellP
                  simp only [frameRec, hps] at cellP2
                  rw [hpc] at cellP2
                  obtain ⟨hbhKl, hbhKr⟩ := bhOk_red_elim hbh
                  obtain ⟨hrbKl, hrbKr, hredKl, hredKr⟩ := redInv_red_elim hred
                  obtain ⟨hloK, hhiK, hbKl, hbKr⟩ := BSTb_node_elim hbstt
                  have hgleKk : gf.k ≤ kk := by
                    rw [hloe2] at hloK
                    simpa [loleB] using hloK
                  have hkKle : kk ≤ pf.k := by
                    rw [hhie] at hhiK
                    simpa [hileB] using hhiK
                  have hrepX : ReprSt s (plug (gf :: ctx2)
                      (.node pf.i Color.RED (.node kI Color.RED kl kk kr)
                        pf.k pf.sib)) := by
                    have h2 := hrep
                    rw [plug_cons pf, plug1_L (f := pf) hps, hpc] at h2
                    exact h2
                  obtain ⟨s1, hrA, hrepA, hlenA, hkcA⟩ := rightRotate_ok hrepX
                  have hinner := reprB_plug_inner (q := gf :: ctx2) hrepA.2.1
                  rw [reprB_node_iff] at hinner
                  obtain ⟨cellK1, _, hrKl1, hinner2⟩ := hinner
                  simp only [rootRef_node, holeParAux] at cellK1
                  rw [reprB_node_iff] at hinner2
                  obtain ⟨cellP1, _, _, _⟩ := hinner2
                  have stepA := ReprSt_setColor (q := gf :: ctx2) Color.BLACK hrepA
                  have stepB := ReprSt_setColorF (f := gf) (q := ctx2)
                    (t := .node kI Color.BLACK kl kk
                      (.node pf.i Color.RED kr pf.k pf.sib)) Color.RED stepA.1
                  have hrep3 : ReprSt (updN (updN s1 kI
                        (fun n => { n with color := Color.BLACK })) gf.i
                        (fun n => { n with color := Color.RED }))
                      (plug ctx2 (.node gf.i Color.RED gf.sib gf.k
                        (.node kI Color.BLACK kl kk
                          (.node pf.i Color.RED kr pf.k pf.sib)))) := by
                    have h2 := stepB.1
                    rw [plug_cons, plug1_R (f := { gf with c := Color.RED }) hgs] at h2
                    exact h2
                  obtain ⟨s4, hrB, hrepB, hlenB, hkcB⟩ := leftRotate_ok hrep3
                  have hrep4 : ReprSt s4 (plug
                      (⟨Dir.R, kI, Color.BLACK, kk,
                        .node gf.i Color.RED gf.sib gf.k kl⟩ :: ctx2)
                      (.node pf.i Color.RED kr pf.k pf.sib)) := hrepB
                  have hlinv : LoopInv (⟨Dir.R, kI, Color.BLACK, kk,
                      .node gf.i Color.RED gf.sib gf.k kl⟩ :: ctx2)
                      (.node pf.i Color.RED kr pf.k pf.sib) (some kk) hi1 h := by
                    refine ⟨?_, ?_, rfl, ?_, ?_, ?_, ?_, ?_, ?_⟩
                    · simp [bhOk, hbhKr, hsibbh, bd]
                    · simp [redInv, hredKr, hsibred, hrbKr, hsibredc hpc]
                    · simp only [BSTb, Bool.and_eq_true]
                      refine ⟨⟨⟨?_, hhile1⟩, ?_⟩, hpsibB⟩
                      · simpa [loleB] using hkKle
                      · rw [← hhie]
                        exact hbKr
                    · rw [CtxBST_cons_iff]
                      refine ⟨lo2, hi1, ?_, ?_⟩
                      · rw [CtxBST1]
                        refine ⟨rfl, rfl, loleB_trans hlole2 hgleKk,
                          hileB_trans hkKle hhile1, ?_⟩
                        simp only [BSTb, Bool.and_eq_true]
                        refine ⟨⟨⟨hlole2, ?_⟩, hgsibB⟩, ?_⟩
                        · simpa [hileB] using hgleKk
                        · rw [← hloe2]
                          exact hbKl
                      · rw [← hhi2e]
                        exact hC2
                    · simp [bhOk, hubh, hbhKl, bd]
                    · simp [redInv, hured, hredKl, hub, hrbKl]
                    · intro hh
                      exact absurd hh (by simp)
                    · exact hctxrb2
                  obtain ⟨s', T, H, f1, f2, f3, f4, f5, f6, f7, f8⟩ :=
                    fixLoop_tail_step ih hrep4 hlinv
                      (by simp only [List.length_cons] at hfuel; omega)
                  refine ⟨s', T, H, ?_, f2, f3, f4, f5, f6, ?_, ?_⟩
                  · rw [rootIdx, fixLoop]
                    simp only [getN, deref, derefIdx, okBind, errBind,
                      pure, bind, Except.bind, Except.pure,
                      cellK, cellP2, cellG, cellU, hu, huc,
                      hrA, cellK1, cellP1, hrB,
                      rootRef_node, holeParAux, hpc,
                      updN_get, updN_root,
                      hpfk, Ne.symm hpfk, hgfk, Ne.symm hgfk, hgfp, Ne.symm hgfp,
                      Option.map_some', ite_true, ite_false, ne_eq,
                      Option.some.injEq, reduceCtorEq]
                    exact f1
                  · rw [f7]
                    refine inorder_plug_congr ctx2 ?_
                    rw [plug1_R (f := gf) hgs, plug1_L (f := pf) hps]
                    simp [plug1, inorderI, List.append_assoc]
                  · rw [f8, hlenB, stepB.2, stepA.2, hlenA]
                | R =>
                  rw [CtxBST1, hps] at Fpf
                  obtain ⟨hloe, hhi1e, hlole1, hhile1, hpsibB⟩ := Fpf
                  have cellP2 := cellP
                  simp only [frameRec, hps] at cellP2
                  rw [hpc] at cellP2
                  have hknsib : ¬ (some kI = rootRef pf.sib) := by
                    cases hsb : pf.sib with
                    | nil =>
                      rw [rootRef_nil]
                      intro hh
                      exact hk0 (Option.some.inj hh)
                    | node v cv av kv bv =>
                      rw [rootRef_node]
                      intro hh
                      exact hdisjC v (by simp [ctxIdxs, hsb, idxs])
                        ((Option.some.inj hh) ▸ (by simp [idxs]))
                  have hglek : gf.k ≤ pf.k := by
                    rw [hlo1e] at hlole1
                    simpa [loleB] using hlole1
                  have stepA := ReprSt_setColorF (f := pf) (q := gf :: ctx2)
                    Color.BLACK hrep
                  have stepB := ReprSt_setColorF (f := gf) (q := ctx2)
                    (t := plug1 { pf with c := Color.BLACK }
                      (.node kI Color.RED kl kk kr)) Color.RED stepA.1
                  have hrep3 : ReprSt (updN (updN s pf.i
                        (fun n => { n with color := Color.BLACK })) gf.i
                        (fun n => { n with color := Color.RED }))
                      (plug ctx2 (.node gf.i Color.RED gf.sib gf.k
                        (.node pf.i Color.BLACK pf.sib pf.k
                          (.node kI Color.RED kl kk kr)))) := by
                    have h2 := stepB.1
                    rw [plug_cons, plug1_R (f := { gf with c := Color.RED }) hgs,
                      plug1_R (f := { pf with c := Color.BLACK }) hps] at h2
                    exact h2
                  obtain ⟨s4, hrB, hrepB, hlenB, hkcB⟩ := leftRotate_ok hrep3
                  have hrep4 : ReprSt s4 (plug
                      (⟨Dir.R, pf.i, Color.BLACK, pf.k,
                        .node gf.i Color.RED gf.sib gf.k pf.sib⟩ :: ctx2)
                      (.node kI Color.RED kl kk kr)) := hrepB
                  have hlinv : LoopInv (⟨Dir.R, pf.i, Color.BLACK, pf.k,
                      .node gf.i Color.RED gf.sib gf.k pf.sib⟩ :: ctx2)
                      (.node kI Color.RED kl kk kr) lo hi h := by
                    refine ⟨hbh, hred, rfl, hbstt, ?_, ?_, ?_, ?_, ?_⟩
                    · rw [CtxBST_cons_iff]
                      refine ⟨lo2, hi, ?_, ?_⟩
                      · rw [CtxBST1]
                        refine ⟨hloe, rfl, loleB_trans hlole2 hglek, hhile1, ?_⟩
                        simp only [BSTb, Bool.and_eq_true]
                        refine ⟨⟨⟨hlole2, ?_⟩, hgsibB⟩, ?_⟩
                        · simpa [hileB] using hglek
                        · rw [← hlo1e]
                          exact hpsibB
                      · rw [← hhi1e, ← hhi2e]
                        exact hC2
                    · simp [bhOk, hubh, hsibbh, bd]
                    · simp [redInv, hured, hsibred, hub, hsibredc hpc]
                    · intro hh
                      exact absurd hh (by simp)
                    · exact hctxrb2
                  obtain ⟨s', T, H, f1, f2, f3, f4, f5, f6, f7, f8⟩ :=
                    fixLoop_tail_step ih hrep4 hlinv
                      (by simp only [List.length_cons] at hfuel; omega)
                  refine ⟨s', T, H, ?_, f2, f3, f4, f5, f6, ?_, ?_⟩
                  · rw [rootIdx, fixLoop]
                    simp only [getN, deref, derefIdx, okBind, errBind,
                      pure, bind, Except.bind, Except.pure,
                      cellK, cellP2, cellG, cellU, hu, huc,
                      hknsib, hrB,
                      rootRef_node, holeParAux, hpc,
                      updN_get, updN_root,
                      hpfk, Ne.symm hpfk, hgfk, Ne.symm hgfk, hgfp, Ne.symm hgfp,
                      Option.map_some', ite_true, ite_false, ne_eq,
                      Option.some.injEq, reduceCtorEq]
                    exact f1
                  · rw [f7]
                    refine inorder_plug_congr ctx2 ?_
                    rw [plug1_R (f := gf) hgs, plug1_R (f := pf) hps]
                    simp [plug1, inorderI, List.append_assoc]
                  · rw [f8, hlenB, stepB.2, stepA.2]
              | RED =>
                rw [huc] at cellU hgsibbh hgsibred
                -- uncle index distinct from k, p, g
                have humem : uI ∈ ctxIdxs (pf :: gf :: ctx2) := by
                  simp [ctxIdxs, hu, idxs]
                have huk : uI ≠ kI := fun hh =>
                  hdisjC uI humem (hh ▸ by simp [idxs])
                have hndctxA : (pf.i :: (idxs pf.sib ++
                    ctxIdxs (gf :: ctx2))).Nodup := hndctx
                have hndctxB : (gf.i :: (idxs gf.sib ++ ctxIdxs ctx2)).Nodup :=
                  (List.nodup_append.1 (List.nodup_cons.1 hndctxA).2).2.1
                have hup : uI ≠ pf.i := fun hh =>
                  (List.nodup_cons.1 hndctxA).1 (hh ▸
                    (by simp [ctxIdxs, hu, idxs] :
                      uI ∈ idxs pf.sib ++ ctxIdxs (gf :: ctx2)))
                have hug : uI ≠ gf.i := fun hh =>
                  (List.nodup_cons.1 hndctxB).1 (hh ▸
                    (by simp [hu, idxs] :
                      uI ∈ idxs gf.sib ++ ctxIdxs ctx2))
                -- staged recolorings on the heap
                have step1 := ReprSt_setColorSib (f := gf) (q := ctx2)
                  (t := plug1 pf (.node kI Color.RED kl kk kr)) hu hrep
                have step2 := ReprSt_setColorF (f := pf)
                  (q := { gf with sib := blackenI gf.sib } :: ctx2)
                  Color.BLACK step1.1
                have step3 := ReprSt_setColorF
                  (f := { gf with sib := blackenI gf.sib }) (q := ctx2)
                  Color.RED step2.1
                -- the pure facts about the recolored subtree
                have hbhX : bhOk (plug1 { pf with c := Color.BLACK }
                    (.node kI Color.RED kl kk kr)) = some (h + 1) := by
                  have := bhOk_plug1 (f := { pf with c := Color.BLACK })
                    hbh hsibbh
                  simpa [bd] using this
                have hbhU : bhOk (blackenI gf.sib) = some (h + 1) := by
                  rw [hu, huc]
                  exact bhOk_blacken_red hgsibbh
                have hredU : redInv (blackenI gf.sib) = true := by
                  rw [hu, huc]
                  exact redInv_blacken hgsibred
                have hredX : redInv (plug1 { pf with c := Color.BLACK }
                    (.node kI Color.RED kl kk kr)) = true := by
                  refine redInv_plug1 hred hsibred ?_
                  intro hh
                  exact absurd hh (by simp)
                have hbhT : bhOk (plug1
                    { gf with c := Color.RED, sib := blackenI gf.sib }
                    (plug1 { pf with c := Color.BLACK }
                      (.node kI Color.RED kl kk kr))) = some (h + 1) := by
                  have := bhOk_plug1
                    (f := { gf with c := Color.RED, sib := blackenI gf.sib })
                    hbhX hbhU
                  simpa [bd] using this
                have hredT : redInv (plug1
                    { gf with c := Color.RED, sib := blackenI gf.sib }
                    (plug1 { pf with c := Color.BLACK }
                      (.node kI Color.RED kl kk kr))) = true := by
                  refine redInv_plug1 hredX hredU ?_
                  intro _
                  refine ⟨?_, rootBlack_blacken _⟩
                  rw [rootBlack_iff, rootColor_plug1]
                have hrootT : rootColor (plug1
                    { gf with c := Color.RED, sib := blackenI gf.sib }
                    (plug1 { pf with c := Color.BLACK }
                      (.node kI Color.RED kl kk kr))) = Color.RED := by
                  rw [rootColor_plug1]
                -- search-tree bookkeeping
                rw [CtxBST_cons_iff] at hctxbst
                obtain ⟨lo1, hi1, Fpf, hctxbst⟩ := hctxbst
                rw [CtxBST_cons_iff] at hctxbst
                obtain ⟨lo2, hi2, Fgf, hC2⟩ := hctxbst
                have hbstX : BSTb (plug1 { pf with c := Color.BLACK }
                    (.node kI Color.RED kl kk kr)) lo1 hi1 = true :=
                  BSTb_plug1 (CtxBST1_recolor Fpf) hbstt
                have hbstT : BSTb (plug1
                    { gf with c := Color.RED, sib := blackenI gf.sib }
                    (plug1 { pf with c := Color.BLACK }
                      (.node kI Color.RED kl kk kr))) lo2 hi2 = true := by
                  refine BSTb_plug1 ?_ hbstX
                  exact CtxBST1_resib (CtxBST1_recolor Fgf)
                    (fun a b => BSTb_blacken _ a b)
                have hioT : inorderI (plug1
                    { gf with c := Color.RED, sib := blackenI gf.sib }
                    (plug1 { pf with c := Color.BLACK }
                      (.node kI Color.RED kl kk kr))) =
                    inorderI (plug1 gf (plug1 pf (.node kI Color.RED kl kk kr))) := by
                  refine inorder_plug1_congr rfl rfl (inorder_blacken _) ?_
                  exact inorder_plug1_congr rfl rfl rfl rfl
                -- run the loop body
                rw [rootIdx, fixLoop]
                cases hctx2 : ctx2 with
                | nil =>
                  have heq : gf.i = s.root := by
                    rw [hrep.1, hctx2]
                    exact (rootIdx_plug1 ..).symm
                  subst hctx2
                  simp only [getN, deref, derefIdx, okBind, errBind, cellK,
                    pure, bind, Except.bind, Except.pure,
                    cellP, cellG, cellU, updN_get, updN_root,
                    holeParAux, rootRef_node, hu, huc, hpc,
                    hpfk, Ne.symm hpfk, hgfk, Ne.symm hgfk, hgfp, Ne.symm hgfp,
                    huk, Ne.symm huk, hup, Ne.symm hup, hug, Ne.symm hug,
                    frameRec_color, frameRec_parent,
                    ite_true, ite_false, Option.map_some', Except.ok.injEq,
                    ne_eq, Option.some.injEq, reduceCtorEq]
                  rw [if_pos heq]
                  refine ⟨_, plug1 { gf with c := Color.RED, sib := blackenI gf.sib }
                    (plug1 { pf with c := Color.BLACK }
                      (.node kI Color.RED kl kk kr)), h + 1, rfl, ?_, ?_, ?_, ?_, ?_, ?_, ?_⟩
                  · exact step3.1
                  · obtain ⟨rfl, rfl⟩ : lo2 = none ∧ hi2 = none := hC2
                    exact hbstT
                  · exact hredT
                  · exact hbhT
                  · cases hs2 : ({ gf with c := Color.RED, sib := blackenI gf.sib } : Frame).side <;>
                      simp [plug1, hs2]
                  · exact hioT
                  · rw [step3.2, step2.2, step1.2]
                | cons qf ctx3 =>
                  have hne : gf.i ≠ s.root := by
                    refine hole_ne_root (f := qf) (q := ctx3)
                      (T := plug1 gf (plug1 pf (.node kI Color.RED kl kk kr)))
                      (by rw [← hctx2]; exact hrep) ?_
                    exact mem_idxs_plug1.2 (Or.inl rfl)
                  rw [← hctx2]
                  simp only [getN, deref, derefIdx, okBind, errBind, cellK,
                    pure, bind, Except.bind, Except.pure,
                    cellP, cellG, cellU, updN_get, updN_root,
                    holeParAux, rootRef_node, hu, huc, hpc,
                    hpfk, Ne.symm hpfk, hgfk, Ne.symm hgfk, hgfp, Ne.symm hgfp,
                    huk, Ne.symm huk, hup, Ne.symm hup, hug, Ne.symm hug,
                    frameRec_color, frameRec_parent,
                    ite_true, ite_false, Option.map_some', Except.ok.injEq,
                    ne_eq, Option.some.injEq, reduceCtorEq]
                  rw [if_neg hne]
                  -- recursive call via the induction hypothesis
                  have hlinv : LoopInv ctx2
                      (plug1 { gf with c := Color.RED, sib := blackenI gf.sib }
                        (plug1 { pf with c := Color.BLACK }
                          (.node kI Color.RED kl kk kr))) lo2 hi2 (h + 1) := by
                    refine ⟨hbhT, hredT, hrootT, hbstT, hC2, ?_⟩
                    rw [hctx2]
                    rw [hctx2] at hctxrb2
                    rw [CtxRB] at hctxrb2
                    obtain ⟨hq1, hq2, hq3, hq4⟩ := hctxrb2
                    exact ⟨hq1, hq2, fun hh => (hq3 hh).2, hq4⟩
                  have harith : ctx2.length + 2 ≤ fuel := by
                    rw [hctx2] at hfuel ⊢
                    simp only [List.length_cons] at hfuel ⊢
                    omega
                  obtain ⟨s', T, H, hrunrec, hrepT, hbstF, hredF, hbhF, hneF,
                    hioF, hlenF⟩ := ih ctx2 _ _ lo2 hi2 (h + 1) step3.1 hlinv harith
                  rw [rootIdx_plug1] at hrunrec
                  refine ⟨s', T, H, hrunrec, hrepT, hbstF, hredF, hbhF, hneF, ?_, ?_⟩
                  · rw [hioF]
                    exact inorder_plug_congr ctx2 hioT
                  · rw [hlenF, step3.2, step2.2, step1.2]
          | L =>
            -- parent is the grandparent's left child: second source
            -- branch; the uncle is the grandparent's right subtree, gf.sib
            simp only [frameRec, hgs] at cellG
            rcases hu : gf.sib with _ | ⟨uI, uc, ua, uk, ub⟩
            · -- the uncle is the NIL sentinel: it reads as BLACK
              have hubh : bhOk gf.sib = some h := hgsibbh
              have hured : redInv gf.sib = true := hgsibred
              have hub : rootBlack gf.sib = true := by
                rw [hu]
                rfl
              have cellNil : s.nodes[0]? = some nilNode := hrep.2.2.1
              have hC : CtxBST (pf :: gf :: ctx2) lo hi := hctxbst
              rw [CtxBST_cons_iff] at hC
              obtain ⟨lo1, hi1, Fpf, hC⟩ := hC
              rw [CtxBST_cons_iff] at hC
              obtain ⟨lo2, hi2, Fgf, hC2⟩ := hC
              rw [CtxBST1, hgs] at Fgf
              obtain ⟨hhi1e, hlo2e, hlole2, hhile2, hgsibB⟩ := Fgf
              cases hps : pf.side with
              | R =>
                rw [CtxBST1, hps] at Fpf
                obtain ⟨hloe, hhi1eb, hlole1, hhile1, hpsibB⟩ := Fpf
                have hhie2 : hi = some gf.k := hhi1eb.symm.trans hhi1e
                have cellP2 := cellP
                simp only [frameRec, hps] at cellP2
                rw [hpc] at cellP2
                obtain ⟨hbhKl, hbhKr⟩ := bhOk_red_elim hbh
                obtain ⟨hrbKl, hrbKr, hredKl, hredKr⟩ := redInv_red_elim hred
                obtain ⟨hloK, hhiK, hbKl, hbKr⟩ := BSTb_node_elim hbstt
                have hkKleg : kk ≤ gf.k := by
                  rw [hhie2] at hhiK
                  simpa [hileB] using hhiK
                have hpleKk : pf.k ≤ kk := by
                  rw [hloe] at hloK
                  simpa [loleB] using hloK
                have hrepX : ReprSt s (plug (gf :: ctx2)
                    (.node pf.i Color.RED pf.sib pf.k
                      (.node kI Color.RED kl kk kr))) := by
                  have h2 := hrep
                  rw [plug_cons pf, plug1_R (f := pf) hps, hpc] at h2
                  exact h2
                obtain ⟨s1, hrA, hrepA, hlenA, hkcA⟩ := leftRotate_ok hrepX
                have hinner := reprB_plug_inner (q := gf :: ctx2) hrepA.2.1
                rw [reprB_node_iff] at hinner
                obtain ⟨cellK1, _, hinner2, hrKr1⟩ := hinner
                simp only [rootRef_node, holeParAux] at cellK1
                rw [reprB_node_iff] at hinner2
                obtain ⟨cellP1, _, _, _⟩ := hinner2
                have stepA := ReprSt_setColor (q := gf :: ctx2) Color.BLACK hrepA
                have stepB := ReprSt_setColorF (f := gf) (q := ctx2)
                  (t := .node kI Color.BLACK
                    (.node pf.i Color.RED pf.sib pf.k kl) kk kr) Color.RED stepA.1
                have hrep3 : ReprSt (updN (updN s1 kI
                      (fun n => { n with color := Color.BLACK })) gf.i
                      (fun n => { n with color := Color.RED }))
                    (plug ctx2 (.node gf.i Color.RED
                      (.node kI Color.BLACK
                        (.node pf.i Color.RED pf.sib pf.k kl) kk kr) gf.k gf.sib)) := by
                  have h2 := stepB.1
                  rw [plug_cons, plug1_L (f := { gf with c := Color.RED }) hgs] at h2
                  exact h2
                obtain ⟨s4, hrB, hrepB, hlenB, hkcB⟩ := rightRotate_ok hrep3
                have hrep4 : ReprSt s4 (plug
                    (⟨Dir.L, kI, Color.BLACK, kk,
                      .node gf.i Color.RED kr gf.k gf.sib⟩ :: ctx2)
                    (.node pf.i Color.RED pf.sib pf.k kl)) := hrepB
                have hlinv : LoopInv (⟨Dir.L, kI, Color.BLACK, kk,
                    .node gf.i Color.RED kr gf.k gf.sib⟩ :: ctx2)
                    (.node pf.i Color.RED pf.sib pf.k kl) lo1 (some kk) h := by
                  refine ⟨?_, ?_, rfl, ?_, ?_, ?_, ?_, ?_, ?_⟩
                  · simp [bhOk, hsibbh, hbhKl, bd]
                  · simp [redInv, hsibred, hredKl, hrbKl, hsibredc hpc]
                  · simp only [BSTb, Bool.and_eq_true]
                    refine ⟨⟨⟨hlole1, ?_⟩, hpsibB⟩, ?_⟩
                    · simpa [hileB] using hpleKk
                    · rw [← hloe]
                      exact hbKl
                  · rw [CtxBST_cons_iff]
                    refine ⟨lo1, hi2, ?_, ?_⟩
                    · rw [CtxBST1]
                      refine ⟨rfl, rfl, loleB_trans hlole1 hpleKk,
                        hileB_trans hkKleg hhile2, ?_⟩
                      simp only [BSTb, Bool.and_eq_true]
                      refine ⟨⟨⟨?_, hhile2⟩, ?_⟩, hgsibB⟩
                      · simpa [loleB] using hkKleg
                      · rw [← hhie2]
                        exact hbKr
                    · rw [← hlo2e]
                      exact hC2
                  · simp [bhOk, hbhKr, hubh, bd]
                  · simp [redInv, hredKr, hured, hrbKr, hub]
                  · intro hh
                    exact absurd hh (by simp)
                  · exact hctxrb2
                obtain ⟨s', T, H, f1, f2, f3, f4, f5, f6, f7, f8⟩ :=
                  fixLoop_tail_step ih hrep4 hlinv
                    (by simp only [List.length_cons] at hfuel; omega)
                refine ⟨s', T, H, ?_, f2, f3, f4, f5, f6, ?_, ?_⟩
                · rw [rootIdx, fixLoop]
                  simp only [getN, deref, derefIdx, okBind, errBind,
                    pure, bind, Except.bind, Except.pure,
                    cellK, cellP2, cellG, cellNil, nilNode, hu, rootRef_nil, hp0, Ne.symm hp0,
                    hrA, cellK1, cellP1, hrB,
                    rootRef_node, holeParAux, hpc,
                    updN_get, updN_root,
                    hpfk, Ne.symm hpfk, hgfk, Ne.symm hgfk, hgfp, Ne.symm hgfp,
                    Option.map_some', ite_true, ite_false, ne_eq,
                    Option.some.injEq, reduceCtorEq]
                  exact f1
                · rw [f7]
                  refine inorder_plug_congr ctx2 ?_
                  rw [plug1_L (f := gf) hgs, plug1_R (f := pf) hps]
                  simp [plug1, inorderI, List.append_assoc]
                · rw [f8, hlenB, stepB.2, stepA.2, hlenA]
              | L =>
                rw [CtxBST1, hps] at Fpf
                obtain ⟨hhie, hlo1eb, hlole1, hhile1, hpsibB⟩ := Fpf
                have cellP2 := cellP
                simp only [frameRec, hps] at cellP2
                rw [hpc] at cellP2
                have hknsib : ¬ (some kI = rootRef pf.sib) := by
                  cases hsb : pf.sib with
                  | nil =>
                    rw [rootRef_nil]
                    intro hh
                    exact hk0 (Option.some.inj hh)
                  | node v cv av kv bv =>
                    rw [rootRef_node]
                    intro hh
                    exact hdisjC v (by simp [ctxIdxs, hsb, idxs])
                      ((Option.some.inj hh) ▸ (by simp [idxs]))
                have hglek : pf.k ≤ gf.k := by
                  rw [hhi1e] at hhile1
                  simpa [hileB] using hhile1
                have stepA := ReprSt_setColorF (f := pf) (q := gf :: ctx2)
                  Color.BLACK hrep
                have stepB := ReprSt_setColorF (f := gf) (q := ctx2)
                  (t := plug1 { pf with c := Color.BLACK }
                    (.node kI Color.RED kl kk kr)) Color.RED stepA.1
                have hrep3 : ReprSt (updN (updN s pf.i
                      (fun n => { n with color := Color.BLACK })) gf.i
                      (fun n => { n with color := Color.RED }))
                    (plug ctx2 (.node gf.i Color.RED
                      (.node pf.i Color.BLACK
                        (.node kI Color.RED kl kk kr) pf.k pf.sib) gf.k gf.sib)) := by
                  have h2 := stepB.1
                  rw [plug_cons, plug1_L (f := { gf with c := Color.RED }) hgs,
                    plug1_L (f := { pf with c := Color.BLACK }) hps] at h2
                  exact h2
                obtain ⟨s4, hrB, hrepB, hlenB, hkcB⟩ := rightRotate_ok hrep3
                have hrep4 : ReprSt s4 (plug
                    (⟨Dir.L, pf.i, Color.BLACK, pf.k,
                      .node gf.i Color.RED pf.sib gf.k gf.sib⟩ :: ctx2)
                    (.node kI Color.RED kl kk kr)) := hrepB
                have hlinv : LoopInv (⟨Dir.L, pf.i, Color.BLACK, pf.k,
                    .node gf.i Color.RED pf.sib gf.k gf.sib⟩ :: ctx2)
                    (.node kI Color.RED kl kk kr) lo hi h := by
                  refine ⟨hbh, hred, rfl, hbstt, ?_, ?_, ?_, ?_, ?_⟩
                  · rw [CtxBST_cons_iff]
                    refine ⟨lo, hi2, ?_, ?_⟩
                    · rw [CtxBST1]
                      refine ⟨hhie, rfl, hlole1, hileB_trans hglek hhile2, ?_⟩
                      simp only [BSTb, Bool.and_eq_true]
                      refine ⟨⟨⟨?_, hhile2⟩, ?_⟩, hgsibB⟩
                      · simpa [loleB] using hglek
                      · rw [← hhi1e]
                        exact hpsibB
                    · rw [← hlo1eb, ← hlo2e]
                      exact hC2
                  · simp [bhOk, hubh, hsibbh, bd]
                  · simp [redInv, hured, hsibred, hub, hsibredc hpc]
                  · intro hh
                    exact absurd hh (by simp)
                  · exact hctxrb2
                obtain ⟨s', T, H, f1, f2, f3, f4, f5, f6, f7, f8⟩ :=
                  fixLoop_tail_step ih hrep4 hlinv
                    (by simp only [List.length_cons] at hfuel; omega)
                refine ⟨s', T, H, ?_, f2, f3, f4, f5, f6, ?_, ?_⟩
                · rw [rootIdx, fixLoop]
                  simp only [getN, deref, derefIdx, okBind, errBind,
                    pure, bind, Except.bind, Except.pure,
                    cellK, cellP2, cellG, cellNil, nilNode, hu, rootRef_nil, hp0, Ne.symm hp0,
                    hknsib, hrB,
                    rootRef_node, holeParAux, hpc,
                    updN_get, updN_root,
                    hpfk, Ne.symm hpfk, hgfk, Ne.symm hgfk, hgfp, Ne.symm hgfp,
                    Option.map_some', ite_true, ite_false, ne_eq,
                    Option.some.injEq, reduceCtorEq]
                  exact f1
                · rw [f7]
                  refine inorder_plug_congr ctx2 ?_
                  rw [plug1_L (f := gf) hgs, plug1_L (f := pf) hps]
                  simp [plug1, inorderI, List.append_assoc]
                · rw [f8, hlenB, stepB.2, stepA.2]
            · rw [hu] at hgsibbh hgsibred hrepGsib
              rw [reprB_node_iff] at hrepGsib
              obtain ⟨cellU, hu0, hrua, hrub⟩ := hrepGsib
              have hndctxA0 : (pf.i :: (idxs pf.sib ++
                  ctxIdxs (gf :: ctx2))).Nodup := hndctx
              have hup : uI ≠ pf.i := fun hh =>
                (List.nodup_cons.1 hndctxA0).1 (hh ▸
                  (by simp [ctxIdxs, hu, idxs] :
                    uI ∈ idxs pf.sib ++ ctxIdxs (gf :: ctx2)))
              cases huc : uc with
              | BLACK =>
                rw [huc] at cellU hgsibbh hgsibred
                have hubh : bhOk gf.sib = some h := by
                  rw [hu, huc]
                  exact hgsibbh
                have hured : redInv gf.sib = true := by
                  rw [hu, huc]
                  exact hgsibred
                have hub : rootBlack gf.sib = true := by
                  rw [hu]
                  simp [rootBlack, huc]
                have hC : CtxBST (pf :: gf :: ctx2) lo hi := hctxbst
                rw [CtxBST_cons_iff] at hC
                obtain ⟨lo1, hi1, Fpf, hC⟩ := hC
                rw [CtxBST_cons_iff] at hC
                obtain ⟨lo2, hi2, Fgf, hC2⟩ := hC
                rw [CtxBST1, hgs] at Fgf
                obtain ⟨hhi1e, hlo2e, hlole2, hhile2, hgsibB⟩ := Fgf
                cases hps : pf.side with
                | R =>
                  rw [CtxBST1, hps] at Fpf
                  obtain ⟨hloe, hhi1eb, hlole1, hhile1, hpsibB⟩ := Fpf
                  have hhie2 : hi = some gf.k := hhi1eb.symm.trans hhi1e
                  have cellP2 := cellP
                  simp only [frameRec, hps] at cellP2
                  rw [hpc] at cellP2
                  obtain ⟨hbhKl, hbhKr⟩ := bhOk_red_elim hbh
                  obtain ⟨hrbKl, hrbKr, hredKl, hredKr⟩ := redInv_red_elim hred
                  obtain ⟨hloK, hhiK, hbKl, hbKr⟩ := BSTb_node_elim hbstt
                  have hkKleg : kk ≤ gf.k := by
                    rw [hhie2] at hhiK
                    simpa [hileB] using hhiK
                  have hpleKk : pf.k ≤ kk := by
                    rw [hloe] at hloK
                    simpa [loleB] using hloK
                  have hrepX : ReprSt s (plug (gf :: ctx2)
                      (.node pf.i Color.RED pf.sib pf.k
                        (.node kI Color.RED kl kk kr))) := by
                    have h2 := hrep
                    rw [plug_cons pf, plug1_R (f := pf) hps, hpc] at h2
                    exact h2
                  obtain ⟨s1, hrA, hrepA, hlenA, hkcA⟩ := leftRotate_ok hrepX
                  have hinner := reprB_plug_inner (q := gf :: ctx2) hrepA.2.1
                  rw [reprB_node_iff] at hinner
                  obtain ⟨cellK1, _, hinner2, hrKr1⟩ := hinner
                  simp only [rootRef_node, holeParAux] at cellK1
                  rw [reprB_node_iff] at hinner2
                  obtain ⟨cellP1, _, _, _⟩ := hinner2
                  have stepA := ReprSt_setColor (q := gf :: ctx2) Color.BLACK hrepA
                  have stepB := ReprSt_setColorF (f := gf) (q := ctx2)
                    (t := .node kI Color.BLACK
                      (.node pf.i Color.RED pf.sib pf.k kl) kk kr) Color.RED stepA.1
                  have hrep3 : ReprSt (updN (updN s1 kI
                        (fun n => { n with color := Color.BLACK })) gf.i
                        (fun n => { n with color := Color.RED }))
                      (plug ctx2 (.node gf.i Color.RED
                        (.node kI Color.BLACK
                          (.node pf.i Color.RED pf.sib pf.k kl) kk kr) gf.k gf.sib)) := by
                    have h2 := stepB.1
                    rw [plug_cons, plug1_L (f := { gf with c := Color.RED }) hgs] at h2
                    exact h2
                  obtain ⟨s4, hrB, hrepB, hlenB, hkcB⟩ := rightRotate_ok hrep3
                  have hrep4 : ReprSt s4 (plug
                      (⟨Dir.L, kI, Color.BLACK, kk,
                        .node gf.i Color.RED kr gf.k gf.sib⟩ :: ctx2)
                      (.node pf.i Color.RED pf.sib pf.k kl)) := hrepB
                  have hlinv : LoopInv (⟨Dir.L, kI, Color.BLACK, kk,
                      .node gf.i Color.RED kr gf.k gf.sib⟩ :: ctx2)
                      (.node pf.i Color.RED pf.sib pf.k kl) lo1 (some kk) h := by
                    refine ⟨?_, ?_, rfl, ?_, ?_, ?_, ?_, ?_, ?_⟩
                    · simp [bhOk, hsibbh, hbhKl, bd]
                    · simp [redInv, hsibred, hredKl, hrbKl, hsibredc hpc]
                    · simp only [BSTb, Bool.and_eq_true]
                      refine ⟨⟨⟨hlole1, ?_⟩, hpsibB⟩, ?_⟩
                      · simpa [hileB] using hpleKk
                      · rw [← hloe]
                        exact hbKl
                    · rw [CtxBST_cons_iff]
                      refine ⟨lo1, hi2, ?_, ?_⟩
                      · rw [CtxBST1]
                        refine ⟨rfl, rfl, loleB_trans hlole1 hpleKk,
                          hileB_trans hkKleg hhile2, ?_⟩
                        simp only [BSTb, Bool.and_eq_true]
                        refine ⟨⟨⟨?_, hhile2⟩, ?_⟩, hgsibB⟩
                        · simpa [loleB] using hkKleg
                        · rw [← hhie2]
                          exact hbKr
                      · rw [← hlo2e]
                        exact hC2
                    · simp [bhOk, hbhKr, hubh, bd]
                    · simp [redInv, hredKr, hured, hrbKr, hub]
                    · intro hh
                      exact absurd hh (by simp)
                    · exact hctxrb2
                  obtain ⟨s', T, H, f1, f2, f3, f4, f5, f6, f7, f8⟩ :=
                    fixLoop_tail_step ih hrep4 hlinv
                      (by simp only [List.length_cons] at hfuel; omega)
                  refine ⟨s', T, H, ?_, f2, f3, f4, f5, f6, ?_, ?_⟩
                  · rw [rootIdx, fixLoop]
                    simp only [getN, deref, derefIdx, okBind, errBind,
                      pure, bind, Except.bind, Except.pure,
                      cellK, cellP2, cellG, cellU, hu, huc, hup, Ne.symm hup,
                      hrA, cellK1, cellP1, hrB,
                      rootRef_node, holeParAux, hpc,
                      updN_get, updN_root,
                      hpfk, Ne.symm hpfk, hgfk, Ne.symm hgfk, hgfp, Ne.symm hgfp,
                      Option.map_some', ite_true, ite_false, ne_eq,
                      Option.some.injEq, reduceCtorEq]
                    exact f1
                  · rw [f7]
                    refine inorder_plug_congr ctx2 ?_
                    rw [plug1_L (f := gf) hgs, plug1_R (f := pf) hps]
                    simp [plug1, inorderI, List.append_assoc]
                  · rw [f8, hlenB, stepB.2, stepA.2, hlenA]
                | L =>
                  rw [CtxBST1, hps] at Fpf
                  obtain ⟨hhie, hlo1eb, hlole1, hhile1, hpsibB⟩ := Fpf
                  have cellP2 := cellP
                  simp only [frameRec, hps] at cellP2
                  rw [hpc] at cellP2
                  have hknsib : ¬ (some kI = rootRef pf.sib) := by
                    cases hsb : pf.sib with
                    | nil =>
                      rw [rootRef_nil]
                      intro hh
                      exact hk0 (Option.some.inj hh)
                    | node v cv av kv bv =>
                      rw [rootRef_node]
                      intro hh
                      exact hdisjC v (by simp [ctxIdxs, hsb, idxs])
                        ((Option.some.inj hh) ▸ (by simp [idxs]))
                  have hglek : pf.k ≤ gf.k := by
                    rw [hhi1e] at hhile1
                    simpa [hileB] using hhile1
                  have stepA := ReprSt_setColorF (f := pf) (q := gf :: ctx2)
                    Color.BLACK hrep
                  have stepB := ReprSt_setColorF (f := gf) (q := ctx2)
                    (t := plug1 { pf with c := Color.BLACK }
                      (.node kI Color.RED kl kk kr)) Color.RED stepA.1
                  have hrep3 : ReprSt (updN (updN s pf.i
                        (fun n => { n with color := Color.BLACK })) gf.i
                        (fun n => { n with color := Color.RED }))
                      (plug ctx2 (.node gf.i Color.RED
                        (.node pf.i Color.BLACK
                          (.node kI Color.RED kl kk kr) pf.k pf.sib) gf.k gf.sib)) := by
                    have h2 := stepB.1
                    rw [plug_cons, plug1_L (f := { gf with c := Color.RED }) hgs,
                      plug1_L (f := { pf with c := Color.BLACK }) hps] at h2
                    exact h2
                  obtain ⟨s4, hrB, hrepB, hlenB, hkcB⟩ := rightRotate_ok hrep3
                  have hrep4 : ReprSt s4 (plug
                      (⟨Dir.L, pf.i, Color.BLACK, pf.k,
                        .node gf.i Color.RED pf.sib gf.k gf.sib⟩ :: ctx2)
                      (.node kI Color.RED kl kk kr)) := hrepB
                  have hlinv : LoopInv (⟨Dir.L, pf.i, Color.BLACK, pf.k,
                      .node gf.i Color.RED pf.sib gf.k gf.sib⟩ :: ctx2)
                      (.node kI Color.RED kl kk kr) lo hi h := by
                    refine ⟨hbh, hred, rfl, hbstt, ?_, ?_, ?_, ?_, ?_⟩
                    · rw [CtxBST_cons_iff]
                      refine ⟨lo, hi2, ?_, ?_⟩
                      · rw [CtxBST1]
                        refine ⟨hhie, rfl, hlole1, hileB_trans hglek hhile2, ?_⟩
                        simp only [BSTb, Bool.and_eq_true]
                        refine ⟨⟨⟨?_, hhile2⟩, ?_⟩, hgsibB⟩
                        · simpa [loleB] using hglek
                        · rw [← hhi1e]
                          exact hpsibB
                      · rw [← hlo1eb, ← hlo2e]
                        exact hC2
                    · simp [bhOk, hubh, hsibbh, bd]
                    · simp [redInv, hured, hsibred, hub, hsibredc hpc]
                    · intro hh
                      exact absurd hh (by simp)
                    · exact hctxrb2
                  obtain ⟨s', T, H, f1, f2, f3, f4, f5, f6, f7, f8⟩ :=
                    fixLoop_tail_step ih hrep4 hlinv
                      (by simp only [List.length_cons] at hfuel; omega)
                  refine ⟨s', T, H, ?_, f2, f3, f4, f5, f6, ?_, ?_⟩
                  · rw [rootIdx, fixLoop]
                    simp only [getN, deref, derefIdx, okBind, errBind,
                      pure, bind, Except.bind, Except.pure,
                      cellK, cellP2, cellG, cellU, hu, huc, hup, Ne.symm hup,
                      hknsib, hrB,
                      rootRef_node, holeParAux, hpc,
                      updN_get, updN_root,
                      hpfk, Ne.symm hpfk, hgfk, Ne.symm hgfk, hgfp, Ne.symm hgfp,
                      Option.map_some', ite_true, ite_false, ne_eq,
                      Option.some.injEq, reduceCtorEq]
                    exact f1
                  · rw [f7]
                    refine inorder_plug_congr ctx2 ?_
                    rw [plug1_L (f := gf) hgs, plug1_L (f := pf) hps]
                    simp [plug1, inorderI, List.append_assoc]
                  · rw [f8, hlenB, stepB.2, stepA.2]
              | RED =>
                rw [huc] at cellU hgsibbh hgsibred
                -- uncle index distinct from k, p, g
                have humem : uI ∈ ctxIdxs (pf :: gf :: ctx2) := by
                  simp [ctxIdxs, hu, idxs]
                have huk : uI ≠ kI := fun hh =>
                  hdisjC uI humem (hh ▸ by simp [idxs])
                have hndctxA : (pf.i :: (idxs pf.sib ++
                    ctxIdxs (gf :: ctx2))).Nodup := hndctx
                have hndctxB : (gf.i :: (idxs gf.sib ++ ctxIdxs ctx2)).Nodup :=
                  (List.nodup_append.1 (List.nodup_cons.1 hndctxA).2).2.1
                have hup : uI ≠ pf.i := fun hh =>
                  (List.nodup_cons.1 hndctxA).1 (hh ▸
                    (by simp [ctxIdxs, hu, idxs] :
                      uI ∈ idxs pf.sib ++ ctxIdxs (gf :: ctx2)))
                have hug : uI ≠ gf.i := fun hh =>
                  (List.nodup_cons.1 hndctxB).1 (hh ▸
                    (by simp [hu, idxs] :
                      uI ∈ idxs gf.sib ++ ctxIdxs ctx2))
                -- staged recolorings on the heap
                have step1 := ReprSt_setColorSib (f := gf) (q := ctx2)
                  (t := plug1 pf (.node kI Color.RED kl kk kr)) hu hrep
                have step2 := ReprSt_setColorF (f := pf)
                  (q := { gf with sib := blackenI gf.sib } :: ctx2)
                  Color.BLACK step1.1
                have step3 := ReprSt_setColorF
                  (f := { gf with sib := blackenI gf.sib }) (q := ctx2)
                  Color.RED step2.1
                -- the pure facts about the recolored subtree
                have hbhX : bhOk (plug1 { pf with c := Color.BLACK }
                    (.node kI Color.RED kl kk kr)) = some (h + 1) := by
                  have := bhOk_plug1 (f := { pf with c := Color.BLACK })
                    hbh hsibbh
                  simpa [bd] using this
                have hbhU : bhOk (blackenI gf.sib) = some (h + 1) := by
                  rw [hu, huc]
                  exact bhOk_blacken_red hgsibbh
                have hredU : redInv (blackenI gf.sib) = true := by
                  rw [hu, huc]
                  exact redInv_blacken hgsibred
                have hredX : redInv (plug1 { pf with c := Color.BLACK }
                    (.node kI Color.RED kl kk kr)) = true := by
                  refine redInv_plug1 hred hsibred ?_
                  intro hh
                  exact absurd hh (by simp)
                have hbhT : bhOk (plug1
                    { gf with c := Color.RED, sib := blackenI gf.sib }
                    (plug1 { pf with c := Color.BLACK }
                      (.node kI Color.RED kl kk kr))) = some (h + 1) := by
                  have := bhOk_plug1
                    (f := { gf with c := Color.RED, sib := blackenI gf.sib })
                    hbhX hbhU
                  simpa [bd] using this
                have hredT : redInv (plug1
                    { gf with c := Color.RED, sib := blackenI gf.sib }
                    (plug1 { pf with c := Color.BLACK }
                      (.node kI Color.RED kl kk kr))) = true := by
                  refine redInv_plug1 hredX hredU ?_
                  intro _
                  refine ⟨?_, rootBlack_blacken _⟩
                  rw [rootBlack_iff, rootColor_plug1]
                have hrootT : rootColor (plug1
                    { gf with c := Color.RED, sib := blackenI gf.sib }
                    (plug1 { pf with c := Color.BLACK }
                      (.node kI Color.RED kl kk kr))) = Color.RED := by
                  rw [rootColor_plug1]
                -- search-tree bookkeeping
                rw [CtxBST_cons_iff] at hctxbst
                obtain ⟨lo1, hi1, Fpf, hctxbst⟩ := hctxbst
                rw [CtxBST_cons_iff] at hctxbst
                obtain ⟨lo2, hi2, Fgf, hC2⟩ := hctxbst
                have hbstX : BSTb (plug1 { pf with c := Color.BLACK }
                    (.node kI Color.RED kl kk kr)) lo1 hi1 = true :=
                  BSTb_plug1 (CtxBST1_recolor Fpf) hbstt
                have hbstT : BSTb (plug1
                    { gf with c := Color.RED, sib := blackenI gf.sib }
                    (plug1 { pf with c := Color.BLACK }
                      (.node kI Color.RED kl kk kr))) lo2 hi2 = true := by
                  refine BSTb_plug1 ?_ hbstX
                  exact CtxBST1_resib (CtxBST1_recolor Fgf)
                    (fun a b => BSTb_blacken _ a b)
                have hioT : inorderI (plug1
                    { gf with c := Color.RED, sib := blackenI gf.sib }
                    (plug1 { pf with c := Color.BLACK }
                      (.node kI Color.RED kl kk kr))) =
                    inorderI (plug1 gf (plug1 pf (.node kI Color.RED kl kk kr))) := by
                  refine inorder_plug1_congr rfl rfl (inorder_blacken _) ?_
                  exact inorder_plug1_congr rfl rfl rfl rfl
                -- run the loop body
                rw [rootIdx, fixLoop]
                cases hctx2 : ctx2 with
                | nil =>
                  have heq : gf.i = s.root := by
                    rw [hrep.1, hctx2]
                    exact (rootIdx_plug1 ..).symm
                  subst hctx2
                  simp only [getN, deref, derefIdx, okBind, errBind, cellK,
                    pure, bind, Except.bind, Except.pure,
                    cellP, cellG, cellU, updN_get, updN_root,
                    holeParAux, rootRef_node, hu, huc, hpc,
                    hpfk, Ne.symm hpfk, hgfk, Ne.symm hgfk, hgfp, Ne.symm hgfp,
                    huk, Ne.symm huk, hup, Ne.symm hup, hug, Ne.symm hug,
                    frameRec_color, frameRec_parent,
                    ite_true, ite_false, Option.map_some', Except.ok.injEq,
                    ne_eq, Option.some.injEq, reduceCtorEq]
                  rw [if_pos heq]
                  refine ⟨_, plug1 { gf with c := Color.RED, sib := blackenI gf.sib }
                    (plug1 { pf with c := Color.BLACK }
                      (.node kI Color.RED kl kk kr)), h + 1, rfl, ?_, ?_, ?_, ?_, ?_, ?_, ?_⟩
                  · exact step3.1
                  · obtain ⟨rfl, rfl⟩ : lo2 = none ∧ hi2 = none := hC2
                    exact hbstT
                  · exact hredT
                  · exact hbhT
                  · cases hs2 : ({ gf with c := Color.RED, sib := blackenI gf.sib } : Frame).side <;>
                      simp [plug1, hs2]
                  · exact hioT
                  · rw [step3.2, step2.2, step1.2]
                | cons qf ctx3 =>
                  have hne : gf.i ≠ s.root := by
                    refine hole_ne_root (f := qf) (q := ctx3)
                      (T := plug1 gf (plug1 pf (.node kI Color.RED kl kk kr)))
                      (by rw [← hctx2]; exact hrep) ?_
                    exact mem_idxs_plug1.2 (Or.inl rfl)
                  rw [← hctx2]
                  simp only [getN, deref, derefIdx, okBind, errBind, cellK,
                    pure, bind, Except.bind, Except.pure,
                    cellP, cellG, cellU, updN_get, updN_root,
                    holeParAux, rootRef_node, hu, huc, hpc,
                    hpfk, Ne.symm hpfk, hgfk, Ne.symm hgfk, hgfp, Ne.symm hgfp,
                    huk, Ne.symm huk, hup, Ne.symm hup, hug, Ne.symm hug,
                    frameRec_color, frameRec_parent,
                    ite_true, ite_false, Option.map_some', Except.ok.injEq,
                    ne_eq, Option.some.injEq, reduceCtorEq]
                  rw [if_neg hne]
                  -- recursive call via the induction hypothesis
                  have hlinv : LoopInv ctx2
                      (plug1 { gf with c := Color.RED, sib := blackenI gf.sib }
                        (plug1 { pf with c := Color.BLACK }
                          (.node kI Color.RED kl kk kr))) lo2 hi2 (h + 1) := by
                    refine ⟨hbhT, hredT, hrootT, hbstT, hC2, ?_⟩
                    rw [hctx2]
                    rw [hctx2] at hctxrb2
                    rw [CtxRB] at hctxrb2
                    obtain ⟨hq1, hq2, hq3, hq4⟩ := hctxrb2
                    exact ⟨hq1, hq2, fun hh => (hq3 hh).2, hq4⟩
                  have harith : ctx2.length + 2 ≤ fuel := by
                    rw [hctx2] at hfuel ⊢
                    simp only [List.length_cons] at hfuel ⊢
                    omega
                  obtain ⟨s', T, H, hrunrec, hrepT, hbstF, hredF, hbhF, hneF,
                    hioF, hlenF⟩ := ih ctx2 _ _ lo2 hi2 (h + 1) step3.1 hlinv harith
                  rw [rootIdx_plug1] at hrunrec
                  refine ⟨s', T, H, hrunrec, hrepT, hbstF, hredF, hbhF, hneF, ?_, ?_⟩
                  · rw [hioF]
                    exact inorder_plug_congr ctx2 hioT
                  · rw [hlenF, step3.2, step2.2, step1.2]


/-- `insert(key)` terminates without errors, preserves the state
invariant and adds exactly `key` to the stored key multiset. -/
theorem insert_ok {s : RedBlackTree} {T : ITree} (key : Int)
    (hinv : StateInv s T) :
    ∃ s' T', insert s key = .ok s' ∧ StateInv s' T' ∧
      (inorderI T').Perm (key :: inorderI T) := by
  obtain ⟨hrep, hbst, hrb, hred, ⟨H, hbh⟩, hlen⟩ := hinv
  obtain ⟨hroot, hrB, hnil, hnd, hbnd⟩ := hrep
  have hszT : sizeI T = (inorderI T).length := sizeI_eq_length_inorder T
  have hs0root : ({ s with nodes := s.nodes ++ [⟨key, Color.RED, some 0, some 0, none⟩] } : RedBlackTree).root = s.root := rfl
  have hlen0 : ({ s with nodes := s.nodes ++ [⟨key, Color.RED, some 0, some 0, none⟩] } : RedBlackTree).nodes.length = s.nodes.length + 1 := by
    simp
  have hget0 : ∀ j : Nat, j < s.nodes.length →
      ({ s with nodes := s.nodes ++ [⟨key, Color.RED, some 0, some 0, none⟩] } : RedBlackTree).nodes[j]? = s.nodes[j]? := by
    intro j hj
    exact List.getElem?_append_left hj
  have hgetn : ({ s with nodes := s.nodes ++ [⟨key, Color.RED, some 0, some 0, none⟩] } : RedBlackTree).nodes[s.nodes.length]? =
      some ⟨key, Color.RED, some 0, some 0, none⟩ :=
    List.getElem?_concat_length _ _
  have hrB0 : reprB ({ s with nodes := s.nodes ++ [⟨key, Color.RED, some 0, some 0, none⟩] }) T none = true := by
    rw [reprB_congr (fun j hj => hget0 j (hbnd j hj))]
    exact hrB
  have hn1 : 1 ≤ s.nodes.length := by omega
  have hn0 : s.nodes.length ≠ 0 := by omega
  have hnil0 : ({ s with nodes := s.nodes ++ [⟨key, Color.RED, some 0, some 0, none⟩] } : RedBlackTree).nodes[0]? = some nilNode := by
    rw [hget0 0 (by omega)]
    exact hnil
  have hfuel0 : heightI T + 1 ≤ maxFuel ({ s with nodes := s.nodes ++ [⟨key, Color.RED, some 0, some 0, none⟩] }) := by
    have h1 := heightI_le_sizeI T
    rw [maxFuel, hlen0]
    omega
  have hdesc := insertDescend_ok T (maxFuel ({ s with nodes := s.nodes ++ [⟨key, Color.RED, some 0, some 0, none⟩] })) ({ s with nodes := s.nodes ++ [⟨key, Color.RED, some 0, some 0, none⟩] }) none none key
    hrB0 hfuel0
  rw [rootRef_eq, ← hroot] at hdesc
  obtain ⟨lo', hi', hctxB0, hloK, hhiK⟩ :=
    descendCtx_spec T key [] none none hbst ⟨rfl, rfl⟩ rfl rfl
  rw [List.append_nil] at hctxB0
  have hctxRB0 := descend_ctxrb T key H [] hbh hred (rootBlack_iff.1 hrb)
  rw [List.append_nil] at hctxRB0
  cases hdc : descendCtx T key with
  | nil =>
    have hTnil : T = .nil := by
      rw [← plug_descendCtx T key, hdc]
      rfl
    subst hTnil
    rw [hdc] at hdesc
    refine ⟨updN { updN ({ s with nodes := s.nodes ++ [⟨key, Color.RED, some 0, some 0, none⟩] }) s.nodes.length
        (fun nd => { nd with parent := none }) with root := s.nodes.length } s.nodes.length
        (fun nd => { nd with color := Color.BLACK }),
      .node s.nodes.length Color.BLACK .nil key .nil, ?_, ⟨?_, ?_, rfl, ?_, ?_, ?_⟩, ?_⟩
    · rw [insert]
      simp only [getN, deref, derefIdx, okBind, errBind,
        pure, bind, Except.bind, Except.pure,
        hdesc, hgetn, updN_get, holeParAux,
        Option.map_some', ite_true, ite_false, ne_eq,
        Option.some.injEq, reduceCtorEq]
    · refine ⟨rfl, ?_, ?_, by simp [idxs], ?_⟩
      · rw [reprB_node_iff]
        refine ⟨?_, hn0, rfl, rfl⟩
        rw [updN_get, if_pos rfl]
        show (({ updN ({ s with nodes := s.nodes ++ [⟨key, Color.RED, some 0, some 0, none⟩] }) s.nodes.length (fun nd => { nd with parent := none })
            with root := s.nodes.length } : RedBlackTree).nodes[s.nodes.length]?).map _ = _
        show ((updN ({ s with nodes := s.nodes ++ [⟨key, Color.RED, some 0, some 0, none⟩] }) s.nodes.length
            (fun nd => { nd with parent := none })).nodes[s.nodes.length]?).map _ = _
        rw [updN_get, if_pos rfl, hgetn]
        rfl
      · rw [updN_get, if_neg hn0]
        show (updN ({ s with nodes := s.nodes ++ [⟨key, Color.RED, some 0, some 0, none⟩] }) s.nodes.length
            (fun nd => { nd with parent := none })).nodes[0]? = _
        rw [updN_get, if_neg hn0]
        exact hnil0
      · intro j hj
        simp only [idxs, List.mem_cons, List.not_mem_nil, or_false,
          List.mem_append] at hj
        rw [updN_length]
        show j < (updN ({ s with nodes := s.nodes ++ [⟨key, Color.RED, some 0, some 0, none⟩] }) s.nodes.length
            (fun nd => { nd with parent := none })).nodes.length
        rw [updN_length, hlen0]
        omega
    · simp [BSTb, loleB, hileB]
    · simp [redInv]
    · exact ⟨1, by simp [bhOk, bd]⟩
    · have h9 : (updN { updN ({ s with nodes := s.nodes ++ [⟨key, Color.RED, some 0, some 0, none⟩] }) s.nodes.length
          (fun nd => { nd with parent := none }) with root := s.nodes.length } s.nodes.length
          (fun nd => { nd with color := Color.BLACK })).nodes.length = s.nodes.length + 1 := by
        rw [updN_length]
        show (updN ({ s with nodes := s.nodes ++ [⟨key, Color.RED, some 0, some 0, none⟩] }) s.nodes.length
            (fun nd => { nd with parent := none })).nodes.length = _
        rw [updN_length, hlen0]
      rw [h9]
      simp only [sizeI]
      omega
    · simp [inorderI]
  | cons f0 ctx' =>
    have hplugT : plug (f0 :: ctx') .nil = T := by
      rw [← hdc, plug_descendCtx]
    rw [hdc] at hdesc hctxB0 hctxRB0
    simp only [holeParAux] at hdesc
    have hrB0' : reprB ({ s with nodes := s.nodes ++ [⟨key, Color.RED, some 0, some 0, none⟩] }) (plug (f0 :: ctx') .nil) none = true := by
      rw [hplugT]
      exact hrB0
    obtain ⟨cellF0, hf00, _, hrsib0⟩ := reprB_plug_cons_read hrB0'
    rw [rootRef_nil] at cellF0
    have hmemT : ∀ a, a ∈ ctxIdxs (f0 :: ctx') → a ∈ idxs T := by
      intro a ha
      rw [← hplugT]
      refine (idxs_plug_perm _ _).mem_iff.2 ?_
      exact List.mem_append.2 (Or.inl ha)
    have hsibT : ∀ j, j ∈ idxs f0.sib → j ∈ idxs T := by
      intro j hj
      refine hmemT j ?_
      simp only [ctxIdxs, List.mem_cons, List.mem_append]
      exact Or.inr (Or.inl hj)
    have hf0n : f0.i < s.nodes.length :=
      hbnd _ (hmemT f0.i (by simp [ctxIdxs]))
    have hf0ne : f0.i ≠ s.nodes.length := by omega
    have hndT' : (idxs (plug (f0 :: ctx') .nil)).Nodup := by
      rw [hplugT]
      exact hnd
    have hndctx : (ctxIdxs (f0 :: ctx')).Nodup := by
      have h2 := (idxs_plug_perm (f0 :: ctx') .nil).nodup_iff.1 hndT'
      rw [List.nodup_append] at h2
      exact h2.1
    have hf0sib : f0.i ∉ idxs f0.sib := by
      have h2 := List.nodup_cons.1 (show (f0.i :: (idxs f0.sib ++
          ctxIdxs ctx')).Nodup from hndctx)
      intro hh
      exact h2.1 (List.mem_append.2 (Or.inl hh))
    have hrB1 : reprB (updN { s with nodes := s.nodes ++ [⟨key, Color.RED, some 0, some 0, none⟩] } s.nodes.length
      (fun nd => { nd with parent := some f0.i })) (plug (f0 :: ctx') .nil) none = true := by
      rw [reprB_congr (s := { s with nodes := s.nodes ++ [⟨key, Color.RED, some 0, some 0, none⟩] }) ?_]
      · exact hrB0'
      · intro j hj
        have : j < s.nodes.length := by
          rw [hplugT] at hj
          exact hbnd j hj
        rw [updN_get, if_neg (by omega)]
    have hbleaf : BSTb (.node s.nodes.length Color.RED .nil key .nil) lo' hi' = true := by
      simp [BSTb, hloK, hhiK]
    have hperm1 : (inorderI (plug (f0 :: ctx')
        (.node s.nodes.length Color.RED .nil key .nil))).Perm (key :: inorderI T) := by
      have hA := inorder_plug_perm (f0 :: ctx')
        (.node s.nodes.length Color.RED .nil key .nil)
      have hB := inorder_plug_perm (f0 :: ctx') .nil
      rw [hplugT] at hB
      simp only [inorderI, List.nil_append] at hA hB
      refine hA.trans ?_
      exact (hB.symm).cons key
    have hszT1 : sizeI (plug (f0 :: ctx')
        (.node s.nodes.length Color.RED .nil key .nil)) =
        (inorderI (plug (f0 :: ctx')
          (.node s.nodes.length Color.RED .nil key .nil))).length :=
      sizeI_eq_length_inorder _
    have hside0 := descendCtx_head T key f0 ctx' hdc
    cases hside0 with
    | inl hsd =>
      have hklt : key < f0.k := hsd.1
      have hs : f0.side = Dir.L := hsd.2
      -- the heap after linking the new node below f0
      have cell2F0 : (updN (updN { s with nodes := s.nodes ++ [⟨key, Color.RED, some 0, some 0, none⟩] } s.nodes.length
          (fun nd => { nd with parent := some f0.i })) f0.i
          (fun nd => { nd with left := some s.nodes.length })).nodes[f0.i]? =
          some (frameRec f0 (some s.nodes.length) (holeParAux ctx' none)) := by
        rw [updN_get, if_pos rfl, updN_get, if_neg (Ne.symm hf0ne), cellF0]
        simp only [frameRec, hs, rootRef_nil, Option.map_some']
      have cell2n : (updN (updN { s with nodes := s.nodes ++ [⟨key, Color.RED, some 0, some 0, none⟩] } s.nodes.length
          (fun nd => { nd with parent := some f0.i })) f0.i
          (fun nd => { nd with left := some s.nodes.length })).nodes[s.nodes.length]? =
          some ⟨key, Color.RED, some 0, some 0, some f0.i⟩ := by
        rw [updN_get, if_neg hf0ne, updN_get, if_pos rfl, hgetn]
        rfl
      have hrB2 : reprB (updN (updN { s with nodes := s.nodes ++ [⟨key, Color.RED, some 0, some 0, none⟩] } s.nodes.length
          (fun nd => { nd with parent := some f0.i })) f0.i
          (fun nd => { nd with left := some s.nodes.length }))
          (plug (f0 :: ctx') (.node s.nodes.length Color.RED .nil key .nil)) none = true := by
        rw [plug_cons]
        rw [plug_cons] at hrB1
        refine reprB_plug_update hrB1 ?_ ?_ ?_ ?_
        · rw [rootRef_plug1, rootRef_plug1]
        · rw [reprB_plug1_iff]
          refine ⟨cell2F0, hf00, ?_, ?_⟩
          · rw [reprB_node_iff]
            refine ⟨cell2n, hn0, rfl, rfl⟩
          · rw [reprB_congr (s := { s with nodes := s.nodes ++ [⟨key, Color.RED, some 0, some 0, none⟩] }) ?_]
            · exact hrsib0
            · intro j hj
              have hj1 : j ≠ f0.i := fun hh => hf0sib (hh ▸ hj)
              have hj2 : j ≠ s.nodes.length := by
                have := hbnd j (hsibT j hj)
                omega
              rw [updN_get, if_neg (fun hh => hj1 hh.symm),
                updN_get, if_neg (fun hh => hj2 hh.symm)]
        · intro j hj
          have hj1 : j ≠ f0.i := fun hh =>
            hj (hh ▸ mem_idxs_plug1.2 (Or.inl rfl))
          rw [updN_get, if_neg (fun hh => hj1 hh.symm)]
        · rw [← plug_cons, hplugT]
          exact hnd
      have hrepS2 : ReprSt (updN (updN { s with nodes := s.nodes ++ [⟨key, Color.RED, some 0, some 0, none⟩] } s.nodes.length
          (fun nd => { nd with parent := some f0.i })) f0.i
          (fun nd => { nd with left := some s.nodes.length }))
          (plug (f0 :: ctx') (.node s.nodes.length Color.RED .nil key .nil)) := by
        refine ⟨?_, hrB2, ?_, ?_, ?_⟩
        · rw [updN_root, updN_root, hs0root, hroot, ← hplugT]
          exact rootIdx_plug_cons f0 ctx' .nil _
        · rw [updN_get, if_neg hf00, updN_get, if_neg hn0]
          exact hnil0
        · refine (idxs_plug_perm _ _).nodup_iff.2 ?_
          rw [List.nodup_append]
          refine ⟨hndctx, by simp [idxs], ?_⟩
          intro a ha
          have h3 : a < s.nodes.length := hbnd a (hmemT a ha)
          simp [idxs]
          omega
        · intro j hj
          have hj2 := (idxs_plug_perm _ _).mem_iff.1 hj
          rw [List.mem_append] at hj2
          rw [updN_length, updN_length, hlen0]
          rcases hj2 with hj2 | hj2
          · have := hbnd j (hmemT j hj2)
            omega
          · simp [idxs] at hj2
            omega
      cases hctx' : ctx' with
      | nil =>
        subst hctx'
        -- grandparent is null: insert returns without rebalancing
        rw [CtxRB] at hctxRB0
        obtain ⟨hsb0, hsr0, _, hfc0⟩ := hctxRB0
        have hfcB : f0.c = Color.BLACK := hfc0
        have hctxRB1 : CtxRB [f0] 0
            (rootColor (.node s.nodes.length Color.RED .nil key .nil)) := by
          refine ⟨hsb0, hsr0, ?_, ?_⟩
          · intro hh
            rw [hfcB] at hh
            cases hh
          · show f0.c = Color.BLACK
            exact hfcB
        have hRB1 := plug_bh_red [f0]
          (.node s.nodes.length Color.RED .nil key .nil) 0
          hctxRB1 (by simp [bhOk, bd]) (by simp [redInv, rootBlack])
        refine ⟨updN (updN { s with nodes := s.nodes ++ [⟨key, Color.RED, some 0, some 0, none⟩] } s.nodes.length
          (fun nd => { nd with parent := some f0.i })) f0.i
          (fun nd => { nd with left := some s.nodes.length }), plug [f0] (.node s.nodes.length Color.RED .nil key .nil),
          ?_, ⟨hrepS2, ?_, ?_, ?_, ?_, ?_⟩, ?_⟩
        · rw [insert]
          simp only [getN, deref, derefIdx, okBind, errBind,
            pure, bind, Except.bind, Except.pure,
            hdesc, hgetn, cellF0, cell2F0, cell2n,
            updN_get, updN_root, holeParAux,
            frameRec_key, frameRec_parent, hklt,
            hf0ne, Ne.symm hf0ne, hn0, Ne.symm hn0,
            Option.map_some', ite_true, ite_false, ne_eq,
            Option.some.injEq, reduceCtorEq]
        · exact plug_BSTb _ _ _ _ hctxB0 hbleaf
        · refine rootBlack_iff.2 ?_
          show rootColor (plug1 f0
            (.node s.nodes.length Color.RED .nil key .nil)) = Color.BLACK
          rw [rootColor_plug1]
          exact hfcB
        · exact hRB1.2.1
        · exact hRB1.1
        · rw [hszT1, List.Perm.length_eq hperm1, updN_length, updN_length, hlen0]
          simp only [List.length_cons]
          omega
        · exact hperm1
      | cons f1 ctx'' =>
        subst hctx'
        -- grandparent exists: the fix-up loop runs
        have hlinv : LoopInv (f0 :: f1 :: ctx'')
            (.node s.nodes.length Color.RED .nil key .nil) lo' hi' 0 := by
          rw [CtxRB] at hctxRB0
          obtain ⟨h1, h2, h3, h4⟩ := hctxRB0
          exact ⟨by simp [bhOk, bd], by simp [redInv, rootBlack], rfl, hbleaf,
            hctxB0, h1, h2, fun hh => (h3 hh).2, h4⟩
        have hfuelF : (f0 :: f1 :: ctx'').length + 2 ≤ maxFuel (updN (updN { s with nodes := s.nodes ++ [⟨key, Color.RED, some 0, some 0, none⟩] } s.nodes.length
          (fun nd => { nd with parent := some f0.i })) f0.i
          (fun nd => { nd with left := some s.nodes.length })) := by
          have h1 : (descendCtx T key).length ≤ sizeI T := descendCtx_length_le T key
          rw [hdc] at h1
          simp only [List.length_cons] at h1 ⊢
          rw [maxFuel, updN_length, updN_length, hlen0]
          omega
        obtain ⟨s', T', H', hrunF, hrepF, hbstF, hredF, hbhF, hneF, hioF, hlenF⟩ :=
          fixLoop_ok (maxFuel (updN (updN { s with nodes := s.nodes ++ [⟨key, Color.RED, some 0, some 0, none⟩] } s.nodes.length
          (fun nd => { nd with parent := some f0.i })) f0.i
          (fun nd => { nd with left := some s.nodes.length }))) (f0 :: f1 :: ctx'')
            (.node s.nodes.length Color.RED .nil key .nil) (updN (updN { s with nodes := s.nodes ++ [⟨key, Color.RED, some 0, some 0, none⟩] } s.nodes.length
          (fun nd => { nd with parent := some f0.i })) f0.i
          (fun nd => { nd with left := some s.nodes.length })) lo' hi' 0 hrepS2 hlinv hfuelF
        rw [rootIdx_node] at hrunF
        rcases hT' : T' with _ | ⟨rI, rc, rl, rk, rr⟩
        · rw [hT'] at hneF
          exact absurd rfl hneF
        rw [hT'] at hrepF hbstF hredF hbhF hioF
        have hroot' : s'.root = rI := hrepF.1
        have stepC := ReprSt_setColor (s := s') (q := []) Color.BLACK hrepF
        have hbhFin : ∃ Hf, bhOk (.node rI Color.BLACK rl rk rr) = some Hf := by
          cases hc2 : rc
          · rw [hc2] at hbhF
            exact ⟨H' + 1, bhOk_blacken_red hbhF⟩
          · rw [hc2] at hbhF
            exact ⟨H', hbhF⟩
        have hpermF : (inorderI (ITree.node rI Color.BLACK rl rk rr)).Perm
            (key :: inorderI T) := by
          have he : inorderI (ITree.node rI Color.BLACK rl rk rr) =
              inorderI (ITree.node rI rc rl rk rr) := by
            simp [inorderI]
          rw [he, hioF]
          exact hperm1
        refine ⟨updN s' rI (fun nd => { nd with color := Color.BLACK }),
          .node rI Color.BLACK rl rk rr, ?_, ⟨stepC.1, ?_, rfl, ?_, hbhFin, ?_⟩, hpermF⟩
        · rw [insert]
          simp only [getN, deref, derefIdx, okBind, errBind,
            pure, bind, Except.bind, Except.pure,
            hdesc, hgetn, cellF0, cell2F0, cell2n,
            updN_get, updN_root, holeParAux, fixInsert,
            frameRec_key, frameRec_parent, hklt,
            hf0ne, Ne.symm hf0ne, hn0, Ne.symm hn0,
            hrunF, hroot',
            Option.map_some', ite_true, ite_false, ne_eq,
            Option.some.injEq, reduceCtorEq]
        · exact hbstF
        · exact redInv_blacken hredF
        · rw [sizeI_eq_length_inorder, List.Perm.length_eq hpermF,
            updN_length, hlenF, updN_length, updN_length, hlen0]
          simp only [List.length_cons]
          omega

    | inr hsd =>
      have hnlt : ¬ (key < f0.k) := by
        have := hsd.1
        omega
      have hs : f0.side = Dir.R := hsd.2
      -- the heap after linking the new node below f0
      have cell2F0 : (updN (updN { s with nodes := s.nodes ++ [⟨key, Color.RED, some 0, some 0, none⟩] } s.nodes.length
          (fun nd => { nd with parent := some f0.i })) f0.i
          (fun nd => { nd with right := some s.nodes.length })).nodes[f0.i]? =
          some (frameRec f0 (some s.nodes.length) (holeParAux ctx' none)) := by
        rw [updN_get, if_pos rfl, updN_get, if_neg (Ne.symm hf0ne), cellF0]
        simp only [frameRec, hs, rootRef_nil, Option.map_some']
      have cell2n : (updN (updN { s with nodes := s.nodes ++ [⟨key, Color.RED, some 0, some 0, none⟩] } s.nodes.length
          (fun nd => { nd with parent := some f0.i })) f0.i
          (fun nd => { nd with right := some s.nodes.length })).nodes[s.nodes.length]? =
          some ⟨key, Color.RED, some 0, some 0, some f0.i⟩ := by
        rw [updN_get, if_neg hf0ne, updN_get, if_pos rfl, hgetn]
        rfl
      have hrB2 : reprB (updN (updN { s with nodes := s.nodes ++ [⟨key, Color.RED, some 0, some 0, none⟩] } s.nodes.length
          (fun nd => { nd with parent := some f0.i })) f0.i
          (fun nd => { nd with right := some s.nodes.length }))
          (plug (f0 :: ctx') (.node s.nodes.length Color.RED .nil key .nil)) none = true := by
        rw [plug_cons]
        rw [plug_cons] at hrB1
        refine reprB_plug_update hrB1 ?_ ?_ ?_ ?_
        · rw [rootRef_plug1, rootRef_plug1]
        · rw [reprB_plug1_iff]
          refine ⟨cell2F0, hf00, ?_, ?_⟩
          · rw [reprB_node_iff]
            refine ⟨cell2n, hn0, rfl, rfl⟩
          · rw [reprB_congr (s := { s with nodes := s.nodes ++ [⟨key, Color.RED, some 0, some 0, none⟩] }) ?_]
            · exact hrsib0
            · intro j hj
              have hj1 : j ≠ f0.i := fun hh => hf0sib (hh ▸ hj)
              have hj2 : j ≠ s.nodes.length := by
                have := hbnd j (hsibT j hj)
                omega
              rw [updN_get, if_neg (fun hh => hj1 hh.symm),
                updN_get, if_neg (fun hh => hj2 hh.symm)]
        · intro j hj
          have hj1 : j ≠ f0.i := fun hh =>
            hj (hh ▸ mem_idxs_plug1.2 (Or.inl rfl))
          rw [updN_get, if_neg (fun hh => hj1 hh.symm)]
        · rw [← plug_cons, hplugT]
          exact hnd
      have hrepS2 : ReprSt (updN (updN { s with nodes := s.nodes ++ [⟨key, Color.RED, some 0, some 0, none⟩] } s.nodes.length
          (fun nd => { nd with parent := some f0.i })) f0.i
          (fun nd => { nd with right := some s.nodes.length }))
          (plug (f0 :: ctx') (.node s.nodes.length Color.RED .nil key .nil)) := by
        refine ⟨?_, hrB2, ?_, ?_, ?_⟩
        · rw [updN_root, updN_root, hs0root, hroot, ← hplugT]
          exact rootIdx_plug_cons f0 ctx' .nil _
        · rw [updN_get, if_neg hf00, updN_get, if_neg hn0]
          exact hnil0
        · refine (idxs_plug_perm _ _).nodup_iff.2 ?_
          rw [List.nodup_append]
          refine ⟨hndctx, by simp [idxs], ?_⟩
          intro a ha
          have h3 : a < s.nodes.length := hbnd a (hmemT a ha)
          simp [idxs]
          omega
        · intro j hj
          have hj2 := (idxs_plug_perm _ _).mem_iff.1 hj
          rw [List.mem_append] at hj2
          rw [updN_length, updN_length, hlen0]
          rcases hj2 with hj2 | hj2
          · have := hbnd j (hmemT j hj2)
            omega
          · simp [idxs] at hj2
            omega
      cases hctx' : ctx' with
      | nil =>
        subst hctx'
        -- grandparent is null: insert returns without rebalancing
        rw [CtxRB] at hctxRB0
        obtain ⟨hsb0, hsr0, _, hfc0⟩ := hctxRB0
        have hfcB : f0.c = Color.BLACK := hfc0
        have hctxRB1 : CtxRB [f0] 0
            (rootColor (.node s.nodes.length Color.RED .nil key .nil)) := by
          refine ⟨hsb0, hsr0, ?_, ?_⟩
          · intro hh
            rw [hfcB] at hh
            cases hh
          · show f0.c = Color.BLACK
            exact hfcB
        have hRB1 := plug_bh_red [f0]
          (.node s.nodes.length Color.RED .nil key .nil) 0
          hctxRB1 (by simp [bhOk, bd]) (by simp [redInv, rootBlack])
        refine ⟨updN (updN { s with nodes := s.nodes ++ [⟨key, Color.RED, some 0, some 0, none⟩] } s.nodes.length
          (fun nd => { nd with parent := some f0.i })) f0.i
          (fun nd => { nd with right := some s.nodes.length }), plug [f0] (.node s.nodes.length Color.RED .nil key .nil),
          ?_, ⟨hrepS2, ?_, ?_, ?_, ?_, ?_⟩, ?_⟩
        · rw [insert]
          simp only [getN, deref, derefIdx, okBind, errBind,
            pure, bind, Except.bind, Except.pure,
            hdesc, hgetn, cellF0, cell2F0, cell2n,
            updN_get, updN_root, holeParAux,
            frameRec_key, frameRec_parent, hnlt,
            hf0ne, Ne.symm hf0ne, hn0, Ne.symm hn0,
            Option.map_some', ite_true, ite_false, ne_eq,
            Option.some.injEq, reduceCtorEq]
        · exact plug_BSTb _ _ _ _ hctxB0 hbleaf
        · refine rootBlack_iff.2 ?_
          show rootColor (plug1 f0
            (.node s.nodes.length Color.RED .nil key .nil)) = Color.BLACK
          rw [rootColor_plug1]
          exact hfcB
        · exact hRB1.2.1
        · exact hRB1.1
        · rw [hszT1, List.Perm.length_eq hperm1, updN_length, updN_length, hlen0]
          simp only [List.length_cons]
          omega
        · exact hperm1
      | cons f1 ctx'' =>
        subst hctx'
        -- grandparent exists: the fix-up loop runs
        have hlinv : LoopInv (f0 :: f1 :: ctx'')
            (.node s.nodes.length Color.RED .nil key .nil) lo' hi' 0 := by
          rw [CtxRB] at hctxRB0
          obtain ⟨h1, h2, h3, h4⟩ := hctxRB0
          exact ⟨by simp [bhOk, bd], by simp [redInv, rootBlack], rfl, hbleaf,
            hctxB0, h1, h2, fun hh => (h3 hh).2, h4⟩
        have hfuelF : (f0 :: f1 :: ctx'').length + 2 ≤ maxFuel (updN (updN { s with nodes := s.nodes ++ [⟨key, Color.RED, some 0, some 0, none⟩] } s.nodes.length
          (fun nd => { nd with parent := some f0.i })) f0.i
          (fun nd => { nd with right := some s.nodes.length })) := by
          have h1 : (descendCtx T key).length ≤ sizeI T := descendCtx_length_le T key
          rw [hdc] at h1
          simp only [List.length_cons] at h1 ⊢
          rw [maxFuel, updN_length, updN_length, hlen0]
          omega
        obtain ⟨s', T', H', hrunF, hrepF, hbstF, hredF, hbhF, hneF, hioF, hlenF⟩ :=
          fixLoop_ok (maxFuel (updN (updN { s with nodes := s.nodes ++ [⟨key, Color.RED, some 0, some 0, none⟩] } s.nodes.length
          (fun nd => { nd with parent := some f0.i })) f0.i
          (fun nd => { nd with right := some s.nodes.length }))) (f0 :: f1 :: ctx'')
            (.node s.nodes.length Color.RED .nil key .nil) (updN (updN { s with nodes := s.nodes ++ [⟨key, Color.RED, some 0, some 0, none⟩] } s.nodes.length
          (fun nd => { nd with parent := some f0.i })) f0.i
          (fun nd => { nd with right := some s.nodes.length })) lo' hi' 0 hrepS2 hlinv hfuelF
        rw [rootIdx_node] at hrunF
        rcases hT' : T' with _ | ⟨rI, rc, rl, rk, rr⟩
        · rw [hT'] at hneF
          exact absurd rfl hneF
        rw [hT'] at hrepF hbstF hredF hbhF hioF
        have hroot' : s'.root = rI := hrepF.1
        have stepC := ReprSt_setColor (s := s') (q := []) Color.BLACK hrepF
        have hbhFin : ∃ Hf, bhOk (.node rI Color.BLACK rl rk rr) = some Hf := by
          cases hc2 : rc
          · rw [hc2] at hbhF
            exact ⟨H' + 1, bhOk_blacken_red hbhF⟩
          · rw [hc2] at hbhF
            exact ⟨H', hbhF⟩
        have hpermF : (inorderI (ITree.node rI Color.BLACK rl rk rr)).Perm
            (key :: inorderI T) := by
          have he : inorderI (ITree.node rI Color.BLACK rl rk rr) =
              inorderI (ITree.node rI rc rl rk rr) := by
            simp [inorderI]
          rw [he, hioF]
          exact hperm1
        refine ⟨updN s' rI (fun nd => { nd with color := Color.BLACK }),
          .node rI Color.BLACK rl rk rr, ?_, ⟨stepC.1, ?_, rfl, ?_, hbhFin, ?_⟩, hpermF⟩
        · rw [insert]
          simp only [getN, deref, derefIdx, okBind, errBind,
            pure, bind, Except.bind, Except.pure,
            hdesc, hgetn, cellF0, cell2F0, cell2n,
            updN_get, updN_root, holeParAux, fixInsert,
            frameRec_key, frameRec_parent, hnlt,
            hf0ne, Ne.symm hf0ne, hn0, Ne.symm hn0,
            hrunF, hroot',
            Option.map_some', ite_true, ite_false, ne_eq,
            Option.some.injEq, reduceCtorEq]
        · exact hbstF
        · exact redInv_blacken hredF
        · rw [sizeI_eq_length_inorder, List.Perm.length_eq hpermF,
            updN_length, hlenF, updN_length, updN_length, hlen0]
          simp only [List.length_cons]
          omega

/-!  ## Sequences of operations -/

theorem StateInv_mkTree : StateInv mkTree .nil := by
  refine ⟨⟨rfl, rfl, rfl, by simp [idxs], ?_⟩, rfl, rfl, rfl, ⟨0, rfl⟩,
    by simp [mkTree, sizeI]⟩
  intro i hi
  simp [idxs] at hi

theorem clear_inv {s : RedBlackTree} {T : ITree} (h : StateInv s T) :
    StateInv (clear s) .nil := by
  obtain ⟨⟨hroot, hrB, hnil, hnd, hbnd⟩, _⟩ := h
  refine ⟨⟨rfl, rfl, hnil, by simp [idxs], ?_⟩, rfl, rfl, rfl, ⟨0, rfl⟩, ?_⟩
  · intro i hi
    simp [idxs] at hi
  · show sizeI .nil + 1 ≤ s.nodes.length
    cases hns : s.nodes with
    | nil =>
      rw [hns] at hnil
      simp at hnil
    | cons a ll =>
      simp [sizeI]

theorem foldl_insert_ok : ∀ (keys : List Int) (s : RedBlackTree) (T : ITree),
    StateInv s T →
    ∃ s' T', List.foldlM insert s keys = .ok s' ∧ StateInv s' T' ∧
      (inorderI T').Perm (keys ++ inorderI T) := by
  intro keys
  induction keys with
  | nil =>
    intro s T h
    exact ⟨s, T, rfl, h, by simp⟩
  | cons k ks ih =>
    intro s T h
    obtain ⟨s1, T1, hrun1, hinv1, hperm1⟩ := insert_ok k h
    obtain ⟨s', T', hrun2, hinv2, hperm2⟩ := ih s1 T1 hinv1
    refine ⟨s', T', ?_, hinv2, ?_⟩
    · rw [List.foldlM_cons, hrun1, okBind]
      exact hrun2
    · refine hperm2.trans ?_
      rw [← Multiset.coe_eq_coe] at hperm1 ⊢
      simp only [← Multiset.coe_add, ← Multiset.cons_coe,
        ← Multiset.singleton_add, Multiset.coe_nil, add_zero] at hperm1 ⊢
      rw [hperm1]
      abel

theorem runInserts_ok (keys : List Int) :
    ∃ s T, runInserts keys = .ok s ∧ StateInv s T ∧ (inorderI T).Perm keys := by
  obtain ⟨s, T, h1, h2, h3⟩ := foldl_insert_ok keys mkTree .nil StateInv_mkTree
  exact ⟨s, T, h1, h2, by simpa [inorderI] using h3⟩

theorem foldl_ops_ok : ∀ (ops : List Op) (s : RedBlackTree) (T : ITree),
    StateInv s T →
    ∃ s' T', ops.foldlM (fun s op =>
      match op with
      | .ins key => insert s key
      | .clr => pure (clear s)) s = .ok s' ∧ StateInv s' T' := by
  intro ops
  induction ops with
  | nil =>
    intro s T h
    exact ⟨s, T, rfl, h⟩
  | cons op ops ih =>
    intro s T h
    cases op with
    | ins key =>
      obtain ⟨s1, T1, hrun1, hinv1, _⟩ := insert_ok key h
      obtain ⟨s', T', hrun2, hinv2⟩ := ih s1 T1 hinv1
      refine ⟨s', T', ?_, hinv2⟩
      simp only [List.foldlM_cons]
      rw [hrun1, okBind]
      exact hrun2
    | clr =>
      obtain ⟨s', T', hrun2, hinv2⟩ := ih (clear s) .nil (clear_inv h)
      refine ⟨s', T', ?_, hinv2⟩
      simp only [List.foldlM_cons]
      exact hrun2

theorem runOps_ok (ops : List Op) :
    ∃ s T, runOps ops = .ok s ∧ StateInv s T := by
  obtain ⟨s, T, h1, h2⟩ := foldl_ops_ok ops mkTree .nil StateInv_mkTree
  exact ⟨s, T, h1, h2⟩

/-!  ## Read-only operations: simulations -/

theorem inorderHelper_ok : ∀ (t : ITree) (fuel : Nat) (s : RedBlackTree)
    (par : Option Nat) (acc : List Int), reprB s t par = true →
    heightI t + 1 ≤ fuel →
    inorderTraversalHelper s fuel (rootRef t) acc = .ok (acc ++ inorderI t) := by
  intro t
  induction t with
  | nil =>
    intro fuel s par acc _ hfuel
    match fuel, hfuel with
    | fuel + 1, _ =>
      rw [inorderTraversalHelper, rootRef_nil, if_neg (by simp)]
      simp only [inorderI, List.append_nil]
      rfl
  | node i c l k r ihl ihr =>
    intro fuel s par acc hrep hfuel
    rw [reprB_node_iff] at hrep
    obtain ⟨cell, hi0, hrl, hrr⟩ := hrep
    match fuel, hfuel with
    | fuel + 1, hfuel =>
      have hmax : heightI l + 1 ≤ fuel ∧ heightI r + 1 ≤ fuel := by
        simp only [heightI] at hfuel
        omega
      rw [inorderTraversalHelper, rootRef_node,
        if_pos (by simp only [ne_eq, Option.some.injEq]; exact hi0)]
      simp only [deref, getN, cell, okBind]
      rw [ihl fuel s (some i) acc hrl hmax.1, okBind,
        ihr fuel s (some i) (acc ++ inorderI l ++ [k]) hrr hmax.2]
      simp only [inorderI, List.append_assoc, List.singleton_append]
      try rfl

theorem preorderHelper_ok : ∀ (t : ITree) (fuel : Nat) (s : RedBlackTree)
    (par : Option Nat) (acc : List Int), reprB s t par = true →
    heightI t + 1 ≤ fuel →
    preorderTraversalHelper s fuel (rootRef t) acc = .ok (acc ++ preorderI t) := by
  intro t
  induction t with
  | nil =>
    intro fuel s par acc _ hfuel
    match fuel, hfuel with
    | fuel + 1, _ =>
      rw [preorderTraversalHelper, rootRef_nil, if_neg (by simp)]
      simp only [preorderI, List.append_nil]
      rfl
  | node i c l k r ihl ihr =>
    intro fuel s par acc hrep hfuel
    rw [reprB_node_iff] at hrep
    obtain ⟨cell, hi0, hrl, hrr⟩ := hrep
    match fuel, hfuel with
    | fuel + 1, hfuel =>
      have hmax : heightI l + 1 ≤ fuel ∧ heightI r + 1 ≤ fuel := by
        simp only [heightI] at hfuel
        omega
      rw [preorderTraversalHelper, rootRef_node,
        if_pos (by simp only [ne_eq, Option.some.injEq]; exact hi0)]
      simp only [deref, getN, cell, okBind]
      rw [ihl fuel s (some i) (acc ++ [k]) hrl hmax.1, okBind,
        ihr fuel s (some i) (acc ++ [k] ++ preorderI l) hrr hmax.2]
      simp only [preorderI, List.append_assoc, List.singleton_append]
      try rfl

theorem postorderHelper_ok : ∀ (t : ITree) (fuel : Nat) (s : RedBlackTree)
    (par : Option Nat) (acc : List Int), reprB s t par = true →
    heightI t + 1 ≤ fuel →
    postorderTraversalHelper s fuel (rootRef t) acc =
      .ok (acc ++ postorderI t) := by
  intro t
  induction t with
  | nil =>
    intro fuel s par acc _ hfuel
    match fuel, hfuel with
    | fuel + 1, _ =>
      rw [postorderTraversalHelper, rootRef_nil, if_neg (by simp)]
      simp only [postorderI, List.append_nil]
      rfl
  | node i c l k r ihl ihr =>
    intro fuel s par acc hrep hfuel
    rw [reprB_node_iff] at hrep
    obtain ⟨cell, hi0, hrl, hrr⟩ := hrep
    match fuel, hfuel with
    | fuel + 1, hfuel =>
      have hmax : heightI l + 1 ≤ fuel ∧ heightI r + 1 ≤ fuel := by
        simp only [heightI] at hfuel
        omega
      rw [postorderTraversalHelper, rootRef_node,
        if_pos (by simp only [ne_eq, Option.some.injEq]; exact hi0)]
      simp only [deref, getN, cell, okBind]
      rw [ihl fuel s (some i) acc hrl hmax.1, okBind,
        ihr fuel s (some i) (acc ++ postorderI l) hrr hmax.2, okBind]
      simp only [postorderI, List.append_assoc, List.singleton_append]
      try rfl

theorem getDepthHelper_ok : ∀ (t : ITree) (fuel : Nat) (s : RedBlackTree)
    (par : Option Nat), reprB s t par = true → heightI t + 1 ≤ fuel →
    getDepthHelper s fuel (rootRef t) = .ok (heightI t) := by
  intro t
  induction t with
  | nil =>
    intro fuel s par _ hfuel
    match fuel, hfuel with
    | fuel + 1, _ =>
      rw [getDepthHelper, rootRef_nil, if_pos rfl]
      rfl
  | node i c l k r ihl ihr =>
    intro fuel s par hrep hfuel
    rw [reprB_node_iff] at hrep
    obtain ⟨cell, hi0, hrl, hrr⟩ := hrep
    match fuel, hfuel with
    | fuel + 1, hfuel =>
      have hmax : heightI l + 1 ≤ fuel ∧ heightI r + 1 ≤ fuel := by
        simp only [heightI] at hfuel
        omega
      rw [getDepthHelper, rootRef_node,
        if_neg (by simp only [Option.some.injEq]; exact hi0)]
      simp only [deref, getN, cell, okBind]
      rw [ihl fuel s (some i) hrl hmax.1, okBind,
        ihr fuel s (some i) hrr hmax.2]
      rfl

/-!  ## Order facts about search trees -/

theorem inorder_bounds : ∀ (t : ITree) (lo hi : Option Int),
    BSTb t lo hi = true → ∀ x ∈ inorderI t,
    loleB lo x = true ∧ hileB x hi = true := by
  intro t
  induction t with
  | nil =>
    intro lo hi _ x hx
    simp [inorderI] at hx
  | node i c l k r ihl ihr =>
    intro lo hi hb x hx
    obtain ⟨h1, h2, h3, h4⟩ := BSTb_node_elim hb
    simp only [inorderI, List.mem_append, List.mem_cons] at hx
    rcases hx with hx | hx | hx
    · obtain ⟨ha, hb2⟩ := ihl lo (some k) h3 x hx
      refine ⟨ha, ?_⟩
      have hxk : x ≤ k := by simpa [hileB] using hb2
      exact hileB_trans hxk h2
    · subst hx
      exact ⟨h1, h2⟩
    · obtain ⟨ha, hb2⟩ := ihr (some k) hi h4 x hx
      refine ⟨?_, hb2⟩
      have hkx : k ≤ x := by simpa [loleB] using ha
      exact loleB_trans h1 hkx

theorem BSTb_sorted : ∀ (t : ITree) (lo hi : Option Int),
    BSTb t lo hi = true → List.Pairwise (· ≤ ·) (inorderI t) := by
  intro t
  induction t with
  | nil =>
    intro lo hi _
    simp [inorderI]
  | node i c l k r ihl ihr =>
    intro lo hi hb
    obtain ⟨h1, h2, h3, h4⟩ := BSTb_node_elim hb
    rw [inorderI, List.pairwise_append]
    refine ⟨ihl _ _ h3, ?_, ?_⟩
    · rw [List.pairwise_cons]
      refine ⟨?_, ihr _ _ h4⟩
      intro y hy
      have h5 := (inorder_bounds r (some k) hi h4 y hy).1
      simpa [loleB] using h5
    · intro a ha b hb2
      have hak : a ≤ k := by
        have h5 := (inorder_bounds l lo (some k) h3 a ha).2
        simpa [hileB] using h5
      rcases List.mem_cons.1 hb2 with rfl | hb3
      · exact hak
      · have hkb : k ≤ b := by
          have h5 := (inorder_bounds r (some k) hi h4 b hb3).1
          simpa [loleB] using h5
        omega

theorem searchHelper_okS : ∀ (t : ITree) (fuel : Nat) (s : RedBlackTree)
    (par : Option Nat) (lo hi : Option Int) (key : Int),
    reprB s t par = true → BSTb t lo hi = true → heightI t + 1 ≤ fuel →
    (key ∈ inorderI t →
      ∃ i, searchHelper s fuel key (rootRef t) = .ok i ∧ i ≠ 0 ∧
        ∃ nd, s.nodes[i]? = some nd ∧ nd.key = key) ∧
    (key ∉ inorderI t → searchHelper s fuel key (rootRef t) = .ok 0) := by
  intro t
  induction t with
  | nil =>
    intro fuel s par lo hi key _ _ hfuel
    match fuel, hfuel with
    | fuel + 1, _ =>
      constructor
      · intro hx
        simp [inorderI] at hx
      · intro _
        rw [searchHelper, rootRef_nil, if_pos rfl]
        rfl
  | node i c l k r ihl ihr =>
    intro fuel s par lo hi key hrep hb hfuel
    rw [reprB_node_iff] at hrep
    obtain ⟨cell, hi0, hrl, hrr⟩ := hrep
    obtain ⟨h1, h2, h3, h4⟩ := BSTb_node_elim hb
    match fuel, hfuel with
    | fuel + 1, hfuel =>
      have hmax : heightI l + 1 ≤ fuel ∧ heightI r + 1 ≤ fuel := by
        simp only [heightI] at hfuel
        omega
      rw [searchHelper, rootRef_node,
        if_neg (by simp only [Option.some.injEq]; exact hi0)]
      simp only [deref, getN, cell, derefIdx, okBind]
      by_cases hek : key = k
      · rw [if_pos hek]
        constructor
        · intro _
          exact ⟨i, rfl, hi0, ⟨_, cell, hek.symm⟩⟩
        · intro hx
          exact absurd (by simp [inorderI, hek] :
            key ∈ inorderI (.node i c l k r)) hx
      · rw [if_neg hek]
        by_cases hlt : key < k
        · rw [if_pos hlt]
          constructor
          · intro hx
            have hxl : key ∈ inorderI l := by
              simp only [inorderI, List.mem_append, List.mem_cons] at hx
              rcases hx with hx | hx | hx
              · exact hx
              · exact absurd hx hek
              · exfalso
                have h5 := (inorder_bounds r (some k) hi h4 key hx).1
                have h6 : k ≤ key := by simpa [loleB] using h5
                omega
            exact (ihl fuel s (some i) lo (some k) key hrl h3 hmax.1).1 hxl
          · intro hx
            have hxl : key ∉ inorderI l := fun hh =>
              hx (by
                simp only [inorderI, List.mem_append, List.mem_cons]
                exact Or.inl hh)
            exact (ihl fuel s (some i) lo (some k) key hrl h3 hmax.1).2 hxl
        · rw [if_neg hlt]
          constructor
          · intro hx
            have hxr : key ∈ inorderI r := by
              simp only [inorderI, List.mem_append, List.mem_cons] at hx
              rcases hx with hx | hx | hx
              · exfalso
                have h5 := (inorder_bounds l lo (some k) h3 key hx).2
                have h6 : key ≤ k := by simpa [hileB] using h5
                omega
              · exact absurd hx hek
              · exact hx
            exact (ihr fuel s (some i) (some k) hi key hrr h4 hmax.2).1 hxr
          · intro hx
            have hxr : key ∉ inorderI r := fun hh =>
              hx (by
                simp only [inorderI, List.mem_append, List.mem_cons]
                exact Or.inr (Or.inr hh))
            exact (ihr fuel s (some i) (some k) hi key hrr h4 hmax.2).2 hxr

/-!  ## The red-black height bound -/

theorem height_bh : ∀ (t : ITree) (h : Nat), bhOk t = some h →
    redInv t = true →
    heightI t ≤ 2 * h + 1 ∧ (rootBlack t = true → heightI t ≤ 2 * h) := by
  intro t
  induction t with
  | nil =>
    intro h hbh _
    simp only [bhOk, Option.some.injEq] at hbh
    subst hbh
    simp [heightI]
  | node i c l k r ihl ihr =>
    intro h hbh hred
    obtain ⟨a, hbl, hbr, rfl⟩ := bhOk_node_elim hbh
    obtain ⟨hrl, hrr, hrc⟩ := redInv_node_elim hred
    have Hl := ihl a hbl hrl
    have Hr := ihr a hbr hrr
    cases hc : c
    · obtain ⟨hbl2, hbr2⟩ := hrc hc
      have e1 := Hl.2 hbl2
      have e2 := Hr.2 hbr2
      constructor
      · simp only [heightI, bd]
        omega
      · intro hb2
        simp [rootBlack] at hb2
    · constructor
      · simp only [heightI, bd]
        have := Hl.1
        have := Hr.1
        omega
      · intro _
        simp only [heightI, bd]
        have := Hl.1
        have := Hr.1
        omega

theorem size_bh : ∀ (t : ITree) (h : Nat), bhOk t = some h →
    2 ^ h ≤ sizeI t + 1 := by
  intro t
  induction t with
  | nil =>
    intro h hbh
    simp only [bhOk, Option.some.injEq] at hbh
    subst hbh
    simp [sizeI]
  | node i c l k r ihl ihr =>
    intro h hbh
    obtain ⟨a, hbl, hbr, rfl⟩ := bhOk_node_elim hbh
    have e1 := ihl a hbl
    have e2 := ihr a hbr
    cases hc : c
    · simp only [bd, Nat.add_zero, sizeI]
      omega
    · simp only [bd, sizeI, Nat.pow_succ]
      omega

theorem height_log2 {t : ITree} {H : Nat} (hbh : bhOk t = some H)
    (hred : redInv t = true) (hrb : rootBlack t = true) :
    heightI t ≤ 2 * Nat.log2 (sizeI t + 1) := by
  have h1 := (height_bh t H hbh hred).2 hrb
  have h2 := size_bh t H hbh
  have h3 : H ≤ Nat.log2 (sizeI t + 1) := (Nat.le_log2 (by omega)).2 h2
  omega

/-!  ## Pure traversal permutations -/

theorem preorder_perm_inorder : ∀ t : ITree, (preorderI t).Perm (inorderI t) := by
  intro t
  induction t with
  | nil => simp [preorderI, inorderI]
  | node i c l k r ihl ihr =>
    simp only [preorderI, inorderI]
    rw [← Multiset.coe_eq_coe] at ihl ihr ⊢
    simp only [← Multiset.coe_add, ← Multiset.cons_coe,
      ← Multiset.singleton_add, Multiset.coe_nil, add_zero] at ihl ihr ⊢
    rw [ihl, ihr]
    abel

theorem postorder_perm_inorder : ∀ t : ITree, (postorderI t).Perm (inorderI t) := by
  intro t
  induction t with
  | nil => simp [postorderI, inorderI]
  | node i c l k r ihl ihr =>
    simp only [postorderI, inorderI]
    rw [← Multiset.coe_eq_coe] at ihl ihr ⊢
    simp only [← Multiset.coe_add, ← Multiset.cons_coe,
      ← Multiset.singleton_add, Multiset.coe_nil, add_zero] at ihl ihr ⊢
    rw [ihl, ihr]
    abel

/-!  ## Read-only operations: wrappers -/

theorem fuel_of_inv {s : RedBlackTree} {T : ITree}
    (hlen : sizeI T + 1 ≤ s.nodes.length) : heightI T + 1 ≤ maxFuel s := by
  have h1 := heightI_le_sizeI T
  rw [maxFuel]
  omega

theorem inorderTraversal_ok {s : RedBlackTree} {T : ITree}
    (hinv : StateInv s T) : inorderTraversal s = .ok (inorderI T) := by
  obtain ⟨⟨hroot, hrB, _, _, _⟩, _, _, _, _, hlen⟩ := hinv
  have h2 := inorderHelper_ok T (maxFuel s) s none [] hrB (fuel_of_inv hlen)
  rw [rootRef_eq, ← hroot] at h2
  rw [inorderTraversal, h2]
  simp

theorem preorderTraversal_ok {s : RedBlackTree} {T : ITree}
    (hinv : StateInv s T) : preorderTraversal s = .ok (preorderI T) := by
  obtain ⟨⟨hroot, hrB, _, _, _⟩, _, _, _, _, hlen⟩ := hinv
  have h2 := preorderHelper_ok T (maxFuel s) s none [] hrB (fuel_of_inv hlen)
  rw [rootRef_eq, ← hroot] at h2
  rw [preorderTraversal, h2]
  simp

theorem postorderTraversal_ok {s : RedBlackTree} {T : ITree}
    (hinv : StateInv s T) : postorderTraversal s = .ok (postorderI T) := by
  obtain ⟨⟨hroot, hrB, _, _, _⟩, _, _, _, _, hlen⟩ := hinv
  have h2 := postorderHelper_ok T (maxFuel s) s none [] hrB (fuel_of_inv hlen)
  rw [rootRef_eq, ← hroot] at h2
  rw [postorderTraversal, h2]
  simp

theorem getDepth_ok {s : RedBlackTree} {T : ITree}
    (hinv : StateInv s T) : getDepth s = .ok (heightI T) := by
  obtain ⟨⟨hroot, hrB, _, _, _⟩, _, _, _, _, hlen⟩ := hinv
  have h2 := getDepthHelper_ok T (maxFuel s) s none hrB (fuel_of_inv hlen)
  rw [rootRef_eq, ← hroot] at h2
  rw [getDepth, h2]

theorem search_ok {s : RedBlackTree} {T : ITree}
    (hinv : StateInv s T) (key : Int) :
    (key ∈ inorderI T →
      ∃ i, search s key = .ok i ∧ i ≠ 0 ∧
        ∃ nd, s.nodes[i]? = some nd ∧ nd.key = key) ∧
    (key ∉ inorderI T → search s key = .ok 0) := by
  obtain ⟨⟨hroot, hrB, _, _, _⟩, hbst, _, _, _, hlen⟩ := hinv
  have h2 := searchHelper_okS T (maxFuel s) s none none none key hrB hbst
    (fuel_of_inv hlen)
  rw [rootRef_eq, ← hroot] at h2
  rw [search]
  exact h2

/-!  ## Level-order traversal -/

theorem forestKeys_append : ∀ (a b : List ITree),
    forestKeys (a ++ b) = forestKeys a ++ forestKeys b := by
  intro a
  induction a with
  | nil => intro b; rfl
  | cons t a ih =>
    intro b
    rw [List.cons_append, forestKeys, forestKeys, ih, List.append_assoc]

theorem sizeForest_append : ∀ (a b : List ITree),
    sizeForest (a ++ b) = sizeForest a + sizeForest b := by
  intro a
  induction a with
  | nil =>
    intro b
    rw [List.nil_append]
    simp [sizeForest]
  | cons t a ih =>
    intro b
    rw [List.cons_append, sizeForest, sizeForest, ih]
    omega

theorem levelOrderLoop_ok : ∀ (fuel : Nat) (ts : List ITree)
    (s : RedBlackTree) (acc : List Int),
    (∀ t ∈ ts, (∃ par, reprB s t par = true) ∧ t ≠ .nil) →
    sizeForest ts + 1 ≤ fuel →
    ∃ out, levelOrderLoop s fuel (ts.map rootIdx) acc = .ok out ∧
      out.Perm (acc ++ forestKeys ts) := by
  intro fuel
  induction fuel with
  | zero =>
    intro ts s acc _ hfuel
    omega
  | succ fuel ih =>
    intro ts s acc hts hfuel
    cases ts with
    | nil =>
      refine ⟨acc, ?_, by simp [forestKeys]⟩
      rw [List.map_nil, levelOrderLoop]
      rfl
    | cons t ts' =>
      obtain ⟨⟨par, hrep⟩, hne⟩ := hts t (by simp)
      rcases t with _ | ⟨i, c, l, k, r⟩
      · exact absurd rfl hne
      rw [reprB_node_iff] at hrep
      obtain ⟨cell, hi0, hrl, hrr⟩ := hrep
      simp only [sizeForest, sizeI] at hfuel
      cases hl : l with
      | nil =>
        rw [hl] at cell hrl hfuel
        cases hr : r with
        | nil =>
          rw [hr] at cell hrr hfuel
          have hts2 : ∀ u ∈ ts', (∃ par, reprB s u par = true) ∧ u ≠ .nil :=
            fun u hu => hts u (List.mem_cons_of_mem _ hu)
          have hfuel2 : sizeForest (ts') + 1 ≤ fuel := by
            simp only [sizeForest, sizeI, sizeForest_append] at hfuel ⊢
            omega
          obtain ⟨out, hrun2, hperm2⟩ := ih (ts') s (acc ++ [k]) hts2 hfuel2
          refine ⟨out, ?_, ?_⟩
          · rw [List.map_cons, levelOrderLoop]
            simp only [rootIdx_node, getN, cell, okBind, pure, bind,
              Except.bind, Except.pure, derefIdx, rootRef_nil, rootRef_node,
              
              ite_true, ite_false, ne_eq, Option.some.injEq, reduceCtorEq,
              not_true_eq_false, not_false_eq_true]
            exact hrun2
          · refine hperm2.trans ?_
            rw [← Multiset.coe_eq_coe]
            simp only [forestKeys_append, forestKeys, inorderI,
              List.append_nil, ← Multiset.coe_add, ← Multiset.cons_coe,
              ← Multiset.singleton_add, Multiset.coe_nil, add_zero]
            abel
        | node ri cr ra kr rb =>
          rw [hr] at cell hrr hfuel
          have hri0 : ri ≠ 0 := (reprB_node_iff.1 hrr).2.1
          have hts2 : ∀ u ∈ ts' ++ [ITree.node ri cr ra kr rb],
              (∃ par, reprB s u par = true) ∧ u ≠ .nil := by
            intro u hu
            simp only [List.mem_append, List.mem_cons, List.not_mem_nil,
              or_false] at hu
            rcases hu with hu | hu
            · exact hts u (List.mem_cons_of_mem _ hu)
            · subst hu
              exact ⟨⟨some i, hrr⟩, by simp⟩
          have hfuel2 : sizeForest (ts' ++ [ITree.node ri cr ra kr rb]) + 1 ≤ fuel := by
            simp only [sizeForest, sizeI, sizeForest_append] at hfuel ⊢
            omega
          obtain ⟨out, hrun2, hperm2⟩ := ih (ts' ++ [ITree.node ri cr ra kr rb]) s (acc ++ [k]) hts2 hfuel2
          refine ⟨out, ?_, ?_⟩
          · rw [List.map_cons, levelOrderLoop]
            simp only [List.map_append, List.map_cons, List.map_nil,
              rootIdx, List.append_nil] at hrun2
            simp only [rootIdx_node, getN, cell, okBind, pure, bind,
              Except.bind, Except.pure, derefIdx, rootRef_nil, rootRef_node,
              hri0,
              ite_true, ite_false, ne_eq, Option.some.injEq, reduceCtorEq,
              not_true_eq_false, not_false_eq_true]
            exact hrun2
          · refine hperm2.trans ?_
            rw [← Multiset.coe_eq_coe]
            simp only [forestKeys_append, forestKeys, inorderI,
              List.append_nil, ← Multiset.coe_add, ← Multiset.cons_coe,
              ← Multiset.singleton_add, Multiset.coe_nil, add_zero]
            abel
      | node li cl la kl lb =>
        rw [hl] at cell hrl hfuel
        cases hr : r with
        | nil =>
          rw [hr] at cell hrr hfuel
          have hli0 : li ≠ 0 := (reprB_node_iff.1 hrl).2.1
          have hts2 : ∀ u ∈ ts' ++ [ITree.node li cl la kl lb],
              (∃ par, reprB s u par = true) ∧ u ≠ .nil := by
            intro u hu
            simp only [List.mem_append, List.mem_cons, List.not_mem_nil,
              or_false] at hu
            rcases hu with hu | hu
            · exact hts u (List.mem_cons_of_mem _ hu)
            · subst hu
              exact ⟨⟨some i, hrl⟩, by simp⟩
          have hfuel2 : sizeForest (ts' ++ [ITree.node li cl la kl lb]) + 1 ≤ fuel := by
            simp only [sizeForest, sizeI, sizeForest_append] at hfuel ⊢
            omega
          obtain ⟨out, hrun2, hperm2⟩ := ih (ts' ++ [ITree.node li cl la kl lb]) s (acc ++ [k]) hts2 hfuel2
          refine ⟨out, ?_, ?_⟩
          · rw [List.map_cons, levelOrderLoop]
            simp only [List.map_append, List.map_cons, List.map_nil,
              rootIdx, List.append_nil] at hrun2
            simp only [rootIdx_node, getN, cell, okBind, pure, bind,
              Except.bind, Except.pure, derefIdx, rootRef_nil, rootRef_node,
              hli0,
              ite_true, ite_false, ne_eq, Option.some.injEq, reduceCtorEq,
              not_true_eq_false, not_false_eq_true]
            exact hrun2
          · refine hperm2.trans ?_
            rw [← Multiset.coe_eq_coe]
            simp only [forestKeys_append, forestKeys, inorderI,
              List.append_nil, ← Multiset.coe_add, ← Multiset.cons_coe,
              ← Multiset.singleton_add, Multiset.coe_nil, add_zero]
            abel
        | node ri cr ra kr rb =>
          rw [hr] at cell hrr hfuel
          have hli0 : li ≠ 0 := (reprB_node_iff.1 hrl).2.1
          have hri0 : ri ≠ 0 := (reprB_node_iff.1 hrr).2.1
          have hts2 : ∀ u ∈ ts' ++ [ITree.node li cl la kl lb] ++ [ITree.node ri cr ra kr rb],
              (∃ par, reprB s u par = true) ∧ u ≠ .nil := by
            intro u hu
            simp only [List.mem_append, List.mem_cons, List.not_mem_nil,
              or_false] at hu
            rcases hu with (hu | hu) | hu
            · exact hts u (List.mem_cons_of_mem _ hu)
            · subst hu
              exact ⟨⟨some i, hrl⟩, by simp⟩
            · subst hu
              exact ⟨⟨some i, hrr⟩, by simp⟩
          have hfuel2 : sizeForest (ts' ++ [ITree.node li cl la kl lb] ++ [ITree.node ri cr ra kr rb]) + 1 ≤ fuel := by
            simp only [sizeForest, sizeI, sizeForest_append] at hfuel ⊢
            omega
          obtain ⟨out, hrun2, hperm2⟩ := ih (ts' ++ [ITree.node li cl la kl lb] ++ [ITree.node ri cr ra kr rb]) s (acc ++ [k]) hts2 hfuel2
          refine ⟨out, ?_, ?_⟩
          · rw [List.map_cons, levelOrderLoop]
            simp only [List.map_append, List.map_cons, List.map_nil,
              rootIdx, List.append_nil] at hrun2
            simp only [rootIdx_node, getN, cell, okBind, pure, bind,
              Except.bind, Except.pure, derefIdx, rootRef_nil, rootRef_node,
              hli0, hri0,
              ite_true, ite_false, ne_eq, Option.some.injEq, reduceCtorEq,
              not_true_eq_false, not_false_eq_true]
            exact hrun2
          · refine hperm2.trans ?_
            rw [← Multiset.coe_eq_coe]
            simp only [forestKeys_append, forestKeys, inorderI,
              List.append_nil, ← Multiset.coe_add, ← Multiset.cons_coe,
              ← Multiset.singleton_add, Multiset.coe_nil, add_zero]
            abel

/-- `levelOrderTraversal()` on a represented state returns a
permutation of the keys. -/
theorem levelOrderTraversal_ok {s : RedBlackTree} {T : ITree}
    (hinv : StateInv s T) :
    ∃ out, levelOrderTraversal s = .ok out ∧ out.Perm (inorderI T) := by
  obtain ⟨⟨hroot, hrB, _, _, _⟩, _, _, _, _, hlen⟩ := hinv
  cases T with
  | nil =>
    refine ⟨[], ?_, by simp [inorderI]⟩
    rw [levelOrderTraversal, hroot]
    rw [rootIdx]
    rfl
  | node i c l k r =>
    have hi0 : i ≠ 0 := (reprB_node_iff.1 hrB).2.1
    have hts : ∀ t ∈ [ITree.node i c l k r],
        (∃ par, reprB s t par = true) ∧ t ≠ ITree.nil := by
      intro t ht
      rw [List.mem_singleton] at ht
      subst ht
      exact ⟨⟨none, hrB⟩, by simp⟩
    have hfuel : sizeForest [ITree.node i c l k r] + 1 ≤ maxFuel s := by
      simp only [sizeForest]
      rw [maxFuel]
      omega
    obtain ⟨out, hrun, hperm⟩ :=
      levelOrderLoop_ok (maxFuel s) [ITree.node i c l k r] s [] hts hfuel
    refine ⟨out, ?_, ?_⟩
    · rw [levelOrderTraversal, hroot, rootIdx_node, if_neg hi0]
      simp only [List.map_cons, List.map_nil, rootIdx_node] at hrun
      exact hrun
    · refine hperm.trans ?_
      simp [forestKeys]

/-!  ## The claims -/

/-- C1: after every sequence of `insert` calls on a fresh tree the run
succeeds and the heap represents a tree satisfying the red-black
invariants: every node carries a `Color` (RED or BLACK by type), the
sentinel cell is the untouched BLACK `nilNode`, the root is BLACK, no
RED node has a RED child (`redInv`), and every path from the root to a
sentinel has the same number of BLACK nodes (`bhOk` returns a
black-height). -/
theorem claim_C1 (keys : List Int) :
    ∃ s T, runInserts keys = .ok s ∧ ReprSt s T ∧
      s.nodes[0]? = some nilNode ∧ rootBlack T = true ∧
      redInv T = true ∧ ∃ H, bhOk T = some H := by
  obtain ⟨s, T, h1, ⟨hrep, _, hrb, hred, hbh, _⟩, _⟩ := runInserts_ok keys
  exact ⟨s, T, h1, hrep, hrep.2.2.1, hrb, hred, hbh⟩

/-- C2 (amended): in the Case-2 shape where `k.parent` is the
grandparent's LEFT child and `k` is the parent's RIGHT child (state
`s312`, reached by inserting 3, 1, 2), the code LEFT-rotates the parent
(index 2) — not the right-rotation the spec words — and then completes
Case 3 by recoloring and RIGHT-rotating the grandparent (index 1).
`runInserts [3, 1, 2] = fixInsert s312 3` records that `s312` is the
state the real run hands to `fixInsert`. -/
theorem claim_C2 :
    runInserts [3, 1, 2] = fixInsert s312 3 ∧
    ∃ u v : RedBlackTree,
      leftRotate s312 2 = .ok u ∧
      rightRotate
        (updN (updN u 3 (fun n => { n with color := Color.BLACK })) 1
          (fun n => { n with color := Color.RED })) 1 = .ok v ∧
      fixLoop s312 (maxFuel s312) 3 = .ok v := by
  refine ⟨rfl,
    ⟨[nilNode,
      ⟨3, Color.BLACK, some 3, some 0, none⟩,
      ⟨1, Color.RED, some 0, some 0, some 3⟩,
      ⟨2, Color.RED, some 2, some 0, some 1⟩], 1⟩,
    ⟨[nilNode,
      ⟨3, Color.RED, some 0, some 0, some 3⟩,
      ⟨1, Color.RED, some 0, some 0, some 3⟩,
      ⟨2, Color.BLACK, some 2, some 1, none⟩], 3⟩,
    rfl, rfl, rfl⟩

/-- C2 counterexample: at the very state `s312` the spec's Case-2
rotation direction (formalised from its words as `fixLoopSpecC2`,
`fixLoop` with the two Case-2 rotations swapped) does not do what the
code does: the spec's right-rotation meets a sentinel left child and
dereferences `null`, while the code's loop succeeds. -/
theorem claim_C2_cex :
    fixLoopSpecC2 s312 (maxFuel s312) 3 = .error Err.nullDeref ∧
    fixLoop s312 (maxFuel s312) 3 ≠ fixLoopSpecC2 s312 (maxFuel s312) 3 := by
  refine ⟨rfl, ?_⟩
  intro h
  have h1 : fixLoop s312 (maxFuel s312) 3 =
      .ok ⟨[nilNode,
        ⟨3, Color.RED, some 0, some 0, some 3⟩,
        ⟨1, Color.RED, some 0, some 0, some 3⟩,
        ⟨2, Color.BLACK, some 2, some 1, none⟩], 3⟩ := rfl
  have h2 : fixLoopSpecC2 s312 (maxFuel s312) 3 = .error Err.nullDeref := rfl
  rw [h1, h2] at h
  exact Except.noConfusion h

/-- C3: the code does NOT return the `null` indicator on the empty
tree: `getMinimumNode` loops `while (node.left !== this.NIL)`, the
sentinel's `left` is `null ≠ NIL`, so the walk steps to `null` and the
next field access is a null dereference (a JS `TypeError`); likewise
for `getMaximum`.  The promised behaviour would be `.ok none`. -/
theorem claim_C3 :
    isEmpty mkTree = true ∧
    getMinimum mkTree = .error Err.nullDeref ∧
    getMaximum mkTree = .error Err.nullDeref :=
  ⟨rfl, rfl, rfl⟩

/-- C4: for every insert sequence (duplicates included) the run
succeeds and `inorderTraversal()` returns a non-decreasing list. -/
theorem claim_C4 (keys : List Int) :
    ∃ s out, runInserts keys = .ok s ∧ inorderTraversal s = .ok out ∧
      List.Pairwise (fun a b => a ≤ b) out := by
  obtain ⟨s, T, h1, hinv, _⟩ := runInserts_ok keys
  exact ⟨s, inorderI T, h1, inorderTraversal_ok hinv,
    BSTb_sorted T none none hinv.2.1⟩

/-- C5: after any insert sequence, `search key` finds a node (a
non-sentinel index whose record's key equals `key`) for every inserted
key, and returns the sentinel (index 0, not an error) for every key
never inserted. -/
theorem claim_C5 (keys : List Int) (key : Int) :
    ∃ s, runInserts keys = .ok s ∧
      (key ∈ keys →
        ∃ i nd, search s key = .ok i ∧ i ≠ 0 ∧
          s.nodes[i]? = some nd ∧ nd.key = key) ∧
      (key ∉ keys → search s key = .ok 0) := by
  obtain ⟨s, T, h1, hinv, hperm⟩ := runInserts_ok keys
  have h2 := search_ok hinv key
  refine ⟨s, h1, ?_, ?_⟩
  · intro hk
    obtain ⟨i, ha, hb, nd, hc, hd⟩ := h2.1 (hperm.mem_iff.2 hk)
    exact ⟨i, nd, ha, hb, hc, hd⟩
  · intro hk
    exact h2.2 (fun hmem => hk (hperm.mem_iff.1 hmem))

/-- C6: after `n` inserts on a fresh tree, `getDepth()` succeeds and
returns at most `2 * log2 (n + 1)`. -/
theorem claim_C6 (keys : List Int) :
    ∃ s d, runInserts keys = .ok s ∧ getDepth s = .ok d ∧
      d ≤ 2 * Nat.log2 (keys.length + 1) := by
  obtain ⟨s, T, h1, hinv, hperm⟩ := runInserts_ok keys
  have hd := getDepth_ok hinv
  obtain ⟨_, _, hrb, hred, ⟨H, hbh⟩, _⟩ := hinv
  have hb := height_log2 hbh hred hrb
  have hsz : sizeI T = keys.length := by
    rw [sizeI_eq_length_inorder, hperm.length_eq]
  exact ⟨s, heightI T, h1, hd, by rw [← hsz]; exact hb⟩

/-- C7: a rotation at a represented node rewires references only: the
left-rotation (and, mirrored, the right-rotation) succeeds, the new
heap represents exactly the rotated tree, the inorder key sequence of
the represented tree is unchanged, and no node's key or color is
modified (`KCEq`). -/
theorem claim_C7 {s sR : RedBlackTree} {q qR : List Frame} {i iR : Nat}
    {ci cR : Color} {l rl rr ll lr rT : ITree} {ki kj kR kjR : Int}
    {j jR : Nat} {cj cjR : Color}
    (hL : ReprSt s (plug q (.node i ci l ki (.node j cj rl kj rr))))
    (hR : ReprSt sR (plug qR (.node iR cR (.node jR cjR ll kjR lr) kR rT))) :
    (∃ v, leftRotate s i = .ok v ∧
      ReprSt v (plug q (.node j cj (.node i ci l ki rl) kj rr)) ∧
      inorderI (plug q (.node j cj (.node i ci l ki rl) kj rr)) =
        inorderI (plug q (.node i ci l ki (.node j cj rl kj rr))) ∧
      KCEq v s) ∧
    (∃ v, rightRotate sR iR = .ok v ∧
      ReprSt v (plug qR (.node jR cjR ll kjR (.node iR cR lr kR rT))) ∧
      inorderI (plug qR (.node jR cjR ll kjR (.node iR cR lr kR rT))) =
        inorderI (plug qR (.node iR cR (.node jR cjR ll kjR lr) kR rT)) ∧
      KCEq v sR) := by
  obtain ⟨v, h1, h2, _, h4⟩ := leftRotate_ok hL
  obtain ⟨w, g1, g2, _, g4⟩ := rightRotate_ok hR
  refine ⟨⟨v, h1, h2, ?_, h4⟩, ⟨w, g1, g2, ?_, g4⟩⟩
  · exact inorder_plug_congr q (by simp [inorderI, List.append_assoc])
  · exact inorder_plug_congr qR (by simp [inorderI, List.append_assoc])

/-- C7 witness: both rotations at concrete two-node heaps. -/
theorem claim_C7_witness :
    (∃ v, leftRotate (⟨[nilNode, ⟨5, Color.BLACK, some 0, some 2, none⟩,
        ⟨8, Color.RED, some 0, some 0, some 1⟩], 1⟩ : RedBlackTree) 1 = .ok v ∧
      ReprSt v (plug []
        (.node 2 Color.RED (.node 1 Color.BLACK .nil 5 .nil) 8 .nil)) ∧
      inorderI (plug []
          (.node 2 Color.RED (.node 1 Color.BLACK .nil 5 .nil) 8 .nil)) =
        inorderI (plug []
          (.node 1 Color.BLACK .nil 5 (.node 2 Color.RED .nil 8 .nil))) ∧
      KCEq v ⟨[nilNode, ⟨5, Color.BLACK, some 0, some 2, none⟩,
        ⟨8, Color.RED, some 0, some 0, some 1⟩], 1⟩) ∧
    (∃ v, rightRotate (⟨[nilNode, ⟨5, Color.BLACK, some 2, some 0, none⟩,
        ⟨3, Color.RED, some 0, some 0, some 1⟩], 1⟩ : RedBlackTree) 1 = .ok v ∧
      ReprSt v (plug []
        (.node 2 Color.RED .nil 3 (.node 1 Color.BLACK .nil 5 .nil))) ∧
      inorderI (plug []
          (.node 2 Color.RED .nil 3 (.node 1 Color.BLACK .nil 5 .nil))) =
        inorderI (plug []
          (.node 1 Color.BLACK (.node 2 Color.RED .nil 3 .nil) 5 .nil)) ∧
      KCEq v ⟨[nilNode, ⟨5, Color.BLACK, some 2, some 0, none⟩,
        ⟨3, Color.RED, some 0, some 0, some 1⟩], 1⟩) :=
  claim_C7
    (show ReprSt ⟨[nilNode, ⟨5, Color.BLACK, some 0, some 2, none⟩,
        ⟨8, Color.RED, some 0, some 0, some 1⟩], 1⟩
      (plug [] (.node 1 Color.BLACK .nil 5 (.node 2 Color.RED .nil 8 .nil)))
      from ⟨rfl, by decide, rfl, by decide, by decide⟩)
    (show ReprSt ⟨[nilNode, ⟨5, Color.BLACK, some 2, some 0, none⟩,
        ⟨3, Color.RED, some 0, some 0, some 1⟩], 1⟩
      (plug [] (.node 1 Color.BLACK (.node 2 Color.RED .nil 3 .nil) 5 .nil))
      from ⟨rfl, by decide, rfl, by decide, by decide⟩)

/-- C8: after any insert sequence all four traversals succeed and
preorder, postorder and level-order each return a permutation of the
inorder list — the same multiset of keys, in particular the same
length. -/
theorem claim_C8 (keys : List Int) :
    ∃ s ino pre post lvl, runInserts keys = .ok s ∧
      inorderTraversal s = .ok ino ∧ preorderTraversal s = .ok pre ∧
      postorderTraversal s = .ok post ∧ levelOrderTraversal s = .ok lvl ∧
      pre.Perm ino ∧ post.Perm ino ∧ lvl.Perm ino := by
  obtain ⟨s, T, h1, hinv, _⟩ := runInserts_ok keys
  obtain ⟨lvl, hlvl, hlp⟩ := levelOrderTraversal_ok hinv
  exact ⟨s, inorderI T, preorderI T, postorderI T, lvl, h1,
    inorderTraversal_ok hinv, preorderTraversal_ok hinv,
    postorderTraversal_ok hinv, hlvl,
    preorder_perm_inorder T, postorder_perm_inorder T, hlp⟩

/-- C9: after every sequence of mutating operations (`insert`,
`clear`; the queries return values, not states, so they cannot write
the heap) the cell at index 0 still holds exactly the constructed
sentinel `nilNode = ⟨0, BLACK, null, null, null⟩`: no operation ever
mutates a field of NIL. -/
theorem claim_C9 (ops : List Op) :
    ∃ s, runOps ops = .ok s ∧ s.nodes[0]? = some nilNode ∧
      nilNode = ⟨0, Color.BLACK, none, none, none⟩ := by
  obtain ⟨s, _, h1, hinv⟩ := runOps_ok ops
  exact ⟨s, h1, hinv.1.2.2.1, rfl⟩

/-- C10: `insert` terminates on every tree reachable by prior
operations: with fuel `maxFuel` (one more than the heap size) both the
descent loop and the fix-up loop finish and `insert` returns a state,
never the fuel-exhaustion marker of a diverging loop. -/
theorem claim_C10 (ops : List Op) (key : Int) :
    ∃ s v, runOps ops = .ok s ∧ insert s key = .ok v := by
  obtain ⟨s, T, h1, hinv⟩ := runOps_ok ops
  obtain ⟨v, T2, h2, _, _⟩ := insert_ok key hinv
  exact ⟨s, v, h1, h2⟩

end RBTree
